import Mathlib

/-!
# KeePass: the transactional file-write engine (`CFileTransactionEx`)

A shallow embedding of `KeePassLibCpp/Util/FileTransactionEx.cpp`.

The C++ class talks to the Win32 API.  The embedding threads an explicit
`World` (the files on disk, the thread's last-error value and the list of
state-changing platform calls made so far) through every member function.
Each platform call takes a `Fault`: `none` lets the call succeed whenever its
precondition holds (for instance, the source of a move exists), `some code`
makes it fail with that last-error code.  A failed call leaves the files
unchanged.  Quantifying over the faults therefore covers every way the
platform can answer.
-/

namespace KeePass

/-! ## Platform model -/

/-- One file on disk.  The four flags stand for the bits `FILE_ATTRIBUTE_HIDDEN`,
`FILE_ATTRIBUTE_ENCRYPTED`, `FILE_ATTRIBUTE_REPARSE_POINT` and
`FILE_ATTRIBUTE_DIRECTORY` of the `DWORD` returned by `GetFileAttributes`;
`acl` stands for the DACL of the file. -/
structure FileInfo where
  content : String
  creationTime : Nat
  acl : Nat
  hidden : Bool
  encrypted : Bool
  reparsePoint : Bool
  directory : Bool
deriving DecidableEq

/-- State-changing platform calls, as they are recorded in `World.trace`. -/
inductive Call where
  | SetFileAttributes (path : String) (hidden : Bool)
  | DecryptFile (path : String)
  | EncryptFile (path : String)
  | SetFileCreationTime (path : String) (t : Nat)
  | SetNamedSecurityInfo (path : String) (acl : Nat)
  | CreateTransaction (description : String)
  | MoveFileTransacted (src dst : String)
  | CommitTransaction
  | CloseHandle
  | MoveFileEx (src dst : String)
  | DeleteFile (path : String)
  | MoveFile (src dst : String)
  | CreateDirectory (path : String)
  | LoadLibrary (name : String)
  | FreeLibrary (name : String)
deriving DecidableEq

/-- Injected outcome of one platform call: `none` means no fault, `some code`
means the call fails and sets the last-error value to `code`. -/
abbrev Fault := Option Nat

/-- The part of the machine the engine can observe and change. -/
structure World where
  files : String → Option FileInfo
  lastError : Nat
  trace : List Call

/-- Win32 `ERROR_FILE_NOT_FOUND`. -/
def ERROR_FILE_NOT_FOUND : Nat := 2

/-- Win32 `ERROR_INVALID_HANDLE`. -/
def ERROR_INVALID_HANDLE : Nat := 6

/-- Win32 `ERROR_ALREADY_EXISTS`. -/
def ERROR_ALREADY_EXISTS : Nat := 183

/-- Win32 `SetLastError`. -/
def World.SetLastError (w : World) (code : Nat) : World :=
  { w with lastError := code }

/-- Appends a call to the trace. -/
def World.record (w : World) (c : Call) : World :=
  { w with trace := w.trace ++ [c] }

/-- Stores `f` at path `p`. -/
def World.put (w : World) (p : String) (f : FileInfo) : World :=
  { w with files := fun q => if q = p then some f else w.files q }

/-- Removes the file at path `p`. -/
def World.remove (w : World) (p : String) : World :=
  { w with files := fun q => if q = p then none else w.files q }

/-- Moves the file `f` found at `src` onto `dst`, replacing what was there. -/
def World.rename (w : World) (src dst : String) (f : FileInfo) : World :=
  { w with files := fun q => if q = dst then some f else if q = src then none else w.files q }

/-- The calls recorded between world `w` and a later world `w2`. -/
def callsSince (w w2 : World) : List Call :=
  w2.trace.drop w.trace.length

/-- Win32 `GetFileAttributes`: `none` stands for `INVALID_FILE_ATTRIBUTES`. -/
def GetFileAttributes (p : String) (w : World) : Option FileInfo × World :=
  match w.files p with
  | some f => (some f, w)
  | none => (none, w.SetLastError ERROR_FILE_NOT_FOUND)

/-- Win32 `SetFileAttributes`, restricted to the hidden bit. -/
def SetFileAttributes (fault : Fault) (p : String) (hidden : Bool) (w : World) : Bool × World :=
  let w1 := w.record (.SetFileAttributes p hidden)
  match fault, w.files p with
  | some c, _ => (false, w1.SetLastError c)
  | none, none => (false, w1.SetLastError ERROR_FILE_NOT_FOUND)
  | none, some f => (true, w1.put p { f with hidden := hidden })

/-- Win32 `DecryptFile`. -/
def DecryptFile (fault : Fault) (p : String) (w : World) : Bool × World :=
  let w1 := w.record (.DecryptFile p)
  match fault, w.files p with
  | some c, _ => (false, w1.SetLastError c)
  | none, none => (false, w1.SetLastError ERROR_FILE_NOT_FOUND)
  | none, some f => (true, w1.put p { f with encrypted := false })

/-- Win32 `EncryptFile`. -/
def EncryptFile (fault : Fault) (p : String) (w : World) : Bool × World :=
  let w1 := w.record (.EncryptFile p)
  match fault, w.files p with
  | some c, _ => (false, w1.SetLastError c)
  | none, none => (false, w1.SetLastError ERROR_FILE_NOT_FOUND)
  | none, some f => (true, w1.put p { f with encrypted := true })

/-- Win32 `GetNamedSecurityInfo` for the DACL: on success the DACL of the file. -/
def GetNamedSecurityInfo (fault : Fault) (p : String) (w : World) : Option Nat × World :=
  match fault, w.files p with
  | some c, _ => (none, w.SetLastError c)
  | none, none => (none, w.SetLastError ERROR_FILE_NOT_FOUND)
  | none, some f => (some f.acl, w)

/-- Win32 `SetNamedSecurityInfo` for the DACL. -/
def SetNamedSecurityInfo (fault : Fault) (p : String) (acl : Nat) (w : World) : Bool × World :=
  let w1 := w.record (.SetNamedSecurityInfo p acl)
  match fault, w.files p with
  | some c, _ => (false, w1.SetLastError c)
  | none, none => (false, w1.SetLastError ERROR_FILE_NOT_FOUND)
  | none, some f => (true, w1.put p { f with acl := acl })

/-- Win32 `DeleteFile`. -/
def DeleteFile (fault : Fault) (p : String) (w : World) : Bool × World :=
  let w1 := w.record (.DeleteFile p)
  match fault, w.files p with
  | some c, _ => (false, w1.SetLastError c)
  | none, none => (false, w1.SetLastError ERROR_FILE_NOT_FOUND)
  | none, some _ => (true, w1.remove p)

/-- Win32 `MoveFile`: fails when the source is missing or the destination exists. -/
def MoveFile (fault : Fault) (src dst : String) (w : World) : Bool × World :=
  let w1 := w.record (.MoveFile src dst)
  match fault, w.files src, w.files dst with
  | some c, _, _ => (false, w1.SetLastError c)
  | none, none, _ => (false, w1.SetLastError ERROR_FILE_NOT_FOUND)
  | none, some _, some _ => (false, w1.SetLastError ERROR_ALREADY_EXISTS)
  | none, some f, none => (true, w1.rename src dst f)

/-- Win32 `MoveFileEx` with `MOVEFILE_COPY_ALLOWED | MOVEFILE_REPLACE_EXISTING`. -/
def MoveFileEx (fault : Fault) (src dst : String) (w : World) : Bool × World :=
  let w1 := w.record (.MoveFileEx src dst)
  match fault, w.files src with
  | some c, _ => (false, w1.SetLastError c)
  | none, none => (false, w1.SetLastError ERROR_FILE_NOT_FOUND)
  | none, some f => (true, w1.rename src dst f)

/-- Win32 `CloseHandle`. -/
def CloseHandle (fault : Fault) (w : World) : World :=
  let w1 := w.record .CloseHandle
  match fault with
  | some c => w1.SetLastError c
  | none => w1

/-- Win32 `FreeLibrary`. -/
def FreeLibrary (fault : Fault) (name : String) (w : World) : World :=
  let w1 := w.record (.FreeLibrary name)
  match fault with
  | some c => w1.SetLastError c
  | none => w1

/-- Win32 `LoadLibrary`: `true` stands for a non-null module handle. -/
def LoadLibrary (fault : Fault) (name : String) (w : World) : Bool × World :=
  match fault with
  | some c => (false, w.SetLastError c)
  | none => (true, w.record (.LoadLibrary name))

/-- Win32 `GetProcAddress`: `true` stands for a non-null entry point. -/
def GetProcAddress (fault : Fault) (w : World) : Bool × World :=
  match fault with
  | some c => (false, w.SetLastError c)
  | none => (true, w)

/-- Win32 `CreateDirectory`. -/
def CreateDirectory (fault : Fault) (p : String) (w : World) : Bool × World :=
  let w1 := w.record (.CreateDirectory p)
  match fault, w.files p with
  | some c, _ => (false, w1.SetLastError c)
  | none, some _ => (false, w1.SetLastError ERROR_ALREADY_EXISTS)
  | none, none =>
    (true, w1.put p { content := "", creationTime := 0, acl := 0, hidden := false,
                      encrypted := false, reparsePoint := false, directory := true })

/-- The caller writing `content` to `p` between `OpenWrite` and `CommitWrite`:
an existing file keeps its metadata, a missing one is created as `fresh`. -/
def callerWrite (p content : String) (fresh : FileInfo) (w : World) : World :=
  match w.files p with
  | some f => w.put p { f with content := content }
  | none => w.put p { fresh with content := content }

/-! ## Helpers of `CPwUtil` -/

/-- Modelled from the spec: `CPwUtil::HideFile` (PwUtil.cpp is not among the
sources).  Sets or clears the hidden attribute of an existing file and reports
whether that worked. -/
def HideFile (fault : Fault) (p : String) (bHide : Bool) (w : World) : Bool × World :=
  match (GetFileAttributes p w) with
  | (none, w1) => (false, w1)
  | (some _, w1) => SetFileAttributes fault p bHide w1

/-- Modelled from the spec: `CPwUtil::UnhideFile` (PwUtil.cpp is not among the
sources).  Un-hides the file if it exists and is hidden; the result records
whether an un-hiding occurred. -/
def UnhideFile (fault : Fault) (p : String) (w : World) : Bool × World :=
  match (GetFileAttributes p w) with
  | (none, w1) => (false, w1)
  | (some f, w1) => if f.hidden then HideFile fault p false w1 else (false, w1)

/-- Modelled from the spec: `CPwUtil::GetFileCreationTime` (PwUtil.cpp is not
among the sources).  The creation time of an existing file, `none` otherwise. -/
def GetFileCreationTime (fault : Fault) (p : String) (w : World) : Option Nat × World :=
  match fault, w.files p with
  | some c, _ => (none, w.SetLastError c)
  | none, none => (none, w.SetLastError ERROR_FILE_NOT_FOUND)
  | none, some f => (some f.creationTime, w)

/-- Modelled from the spec: `CPwUtil::SetFileCreationTime` (PwUtil.cpp is not
among the sources).  Re-applies a captured creation time. -/
def SetFileCreationTime (fault : Fault) (p : String) (t : Nat) (w : World) : Bool × World :=
  let w1 := w.record (.SetFileCreationTime p t)
  match fault, w.files p with
  | some c, _ => (false, w1.SetLastError c)
  | none, none => (false, w1.SetLastError ERROR_FILE_NOT_FOUND)
  | none, some f => (true, w1.put p { f with creationTime := t })

/-! ## The class `CFileTransactionEx` -/

/-- `g_lpTempSuffix` of the source. -/
def g_lpTempSuffix : String := ".tmp"

/-- `g_lpTxfTempPrefix` of the source. -/
def g_lpTxfTempPrefix : String := "KeePass_TxF_"

/-- `g_lpTxfTempSuffix` of the source. -/
def g_lpTxfTempSuffix : String := ".tmp"

/-- `PWM_PRODUCT_NAME_SHORT` (declared outside the sources at hand). -/
def PWM_PRODUCT_NAME_SHORT : String := "KeePass"

/-- `MAX_TRANSACTION_DESCRIPTION_LENGTH` of the platform headers. -/
def MAX_TRANSACTION_DESCRIPTION_LENGTH : Nat := 64

/-- The data members of `CFileTransactionEx`.  Handles and entry points are
represented by whether they are non-null; `m_pSec` holds the captured DACL. -/
structure CFileTransactionEx where
  m_bTransacted : Bool
  m_strBase : String
  m_strTemp : String
  m_strTxfMidFallback : String
  m_bMadeUnhidden : Bool
  m_pSec : Option Nat
  m_hKernel32 : Bool
  m_hKtmW32 : Bool
  m_fnCreateTransaction : Bool
  m_fnMoveFileTransacted : Bool
  m_fnCommitTransaction : Bool
  m_vToDelete : List String

/-- What the platform answers while a session is constructed. -/
structure CtorEnv where
  /-- `GetFullPathName`; an error also stands for a result longer than `MAX_PATH`. -/
  GetFullPathName : String → Except Nat String
  loadKtmW32 : Fault
  procCreateTransaction : Fault
  procCommitTransaction : Fault
  loadKernel32 : Fault
  procMoveFileTransacted : Fault
  /-- The identifier produced by `TxfCreateID`. -/
  newId : String
  /-- `GetTempPath`; an error also stands for a result longer than `MAX_PATH`. -/
  GetTempPath : Except Nat String
  createDirectory : Fault
  /-- `SU_GetDriveLetter` (StrUtil.cpp is not among the sources). -/
  SU_GetDriveLetter : String → Char
  /-- `GetVolumeInformation` on a root path: on success, whether the flags
  contain `FILE_SUPPORTS_TRANSACTIONS`. -/
  GetVolumeInformation : String → Except Nat Bool

/-- What the platform answers during one `CommitWrite`. -/
structure CommitEnv where
  unhide : Fault
  decrypt : Fault
  getCreationTime : Fault
  getSecurity : Fault
  newId : String
  createTransaction : Fault
  moveFileTransacted : Fault
  commitTransaction : Fault
  closeHandle : Fault
  moveFileEx1 : Fault
  moveFileEx2 : Fault
  deleteFile : Fault
  moveFile : Fault
  setCreationTime : Fault
  encrypt : Fault
  setSecurity : Fault
  hide : Fault

/-- What the platform answers during the destructor. -/
structure DtorEnv where
  freeKtmW32 : Fault
  freeKernel32 : Fault
  deleteFile : String → Fault

namespace CFileTransactionEx

/-- `CFileTransactionEx::TxfCreateID`: the GUID string is supplied by the environment. -/
def TxfCreateID (id : String) : String := id

/-- `CFileTransactionEx::TxfIsSupported`. -/
def TxfIsSupported (env : CtorEnv) (chDriveLetter : Char) (w : World) : Bool × World :=
  if chDriveLetter = Char.ofNat 0 then (false, w)
  else
    let tszRoot : String := String.mk [chDriveLetter, ':', '\\']
    match env.GetVolumeInformation tszRoot with
    | .error c => (false, w.SetLastError c)
    | .ok supportsTransactions => (supportsTransactions, w)

/-- The path that `TxfPrepare` builds inside the temporary directory. -/
def TxfTempFile (tszTempDir id : String) : String :=
  let strTemp := tszTempDir
  let strTemp := if strTemp.back ≠ '\\' then strTemp ++ "\\" else strTemp
  strTemp ++ g_lpTxfTempPrefix ++ id ++ g_lpTxfTempSuffix

/-- Last part of `CFileTransactionEx::TxfPrepare`, from `TxfCreateID` on. -/
def TxfPrepareStage (env : CtorEnv) (s : CFileTransactionEx) (w : World) :
    CFileTransactionEx × World :=
  let strID := TxfCreateID env.newId
  match env.GetTempPath with
  | .error c => (s, w.SetLastError c)
  | .ok tszTempDir =>
    if tszTempDir.length = 0 then (s, w)
    else
      let (dirAttr, w) := GetFileAttributes tszTempDir w
      let (bDir, w) :=
        match dirAttr with
        | some _ => (true, w)
        | none => CreateDirectory env.createDirectory tszTempDir w
      if !bDir then (s, w)
      else
        let strTemp := TxfTempFile tszTempDir strID
        let chB := env.SU_GetDriveLetter s.m_strBase
        let chT := env.SU_GetDriveLetter strTemp
        let (bB, w) := TxfIsSupported env chB w
        if !bB then (s, w)
        else
          let (bT, w) := if chT ≠ chB then TxfIsSupported env chT w else (true, w)
          if !bT then (s, w)
          else
            ({ s with m_strTxfMidFallback := s.m_strTemp, m_strTemp := strTemp,
                      m_vToDelete := s.m_vToDelete ++ [strTemp] }, w)

/-- `CFileTransactionEx::TxfPrepare`. -/
def TxfPrepare (env : CtorEnv) (s : CFileTransactionEx) (w : World) :
    CFileTransactionEx × World :=
  if s.m_hKtmW32 then (s, w)
  else
    let (hKtm, w) := LoadLibrary env.loadKtmW32 "KtmW32.dll" w
    let s := { s with m_hKtmW32 := hKtm }
    if !hKtm then (s, w)
    else
      let (fnCreate, w) := GetProcAddress env.procCreateTransaction w
      let s := { s with m_fnCreateTransaction := fnCreate }
      if !fnCreate then (s, w)
      else
        let (fnCommit, w) := GetProcAddress env.procCommitTransaction w
        let s := { s with m_fnCommitTransaction := fnCommit }
        if !fnCommit then (s, w)
        else if s.m_hKernel32 then (s, w)
        else
          let (hKernel, w) := LoadLibrary env.loadKernel32 "Kernel32.dll" w
          let s := { s with m_hKernel32 := hKernel }
          if !hKernel then (s, w)
          else
            let (fnMove, w) := GetProcAddress env.procMoveFileTransacted w
            let s := { s with m_fnMoveFileTransacted := fnMove }
            if !fnMove then (s, w)
            else TxfPrepareStage env s w

/-- The member initialisers of the constructor. -/
def initial (bTransacted : Bool) : CFileTransactionEx :=
  { m_bTransacted := bTransacted, m_strBase := "", m_strTemp := "",
    m_strTxfMidFallback := "", m_bMadeUnhidden := false, m_pSec := none,
    m_hKernel32 := false, m_hKtmW32 := false, m_fnCreateTransaction := false,
    m_fnMoveFileTransacted := false, m_fnCommitTransaction := false,
    m_vToDelete := [] }

/-- The target path the constructor stores in `m_strBase`. -/
def fullBase (env : CtorEnv) (lpBaseFile : String) : String :=
  match env.GetFullPathName lpBaseFile with
  | .error _ => lpBaseFile
  | .ok p => p

/-- `CFileTransactionEx::CFileTransactionEx`; `none` is a null `lpBaseFile`. -/
def construct (env : CtorEnv) (lpBaseFile : Option String) (bTransacted : Bool) (w : World) :
    CFileTransactionEx × World :=
  let s := initial bTransacted
  match lpBaseFile with
  | none => (s, w)
  | some lpBase =>
    let w := match env.GetFullPathName lpBase with
      | .error c => w.SetLastError c
      | .ok _ => w
    let s := { s with m_strBase := fullBase env lpBase }
    let (dw, w) := GetFileAttributes s.m_strBase w
    let s :=
      match dw with
      | some a => if a.reparsePoint then { s with m_bTransacted := false } else s
      | none => { s with m_bTransacted := false }
    if s.m_bTransacted then
      TxfPrepare env { s with m_strTemp := s.m_strBase ++ g_lpTempSuffix } w
    else ({ s with m_strTemp := s.m_strBase }, w)

/-- The deletion loop of the destructor. -/
def deletePending (fault : String → Fault) : List String → World → World
  | [], w => w
  | p :: rest, w =>
    match GetFileAttributes p w with
    | (some _, w1) => deletePending fault rest (DeleteFile (fault p) p w1).2
    | (none, w1) => deletePending fault rest w1

/-- `CFileTransactionEx::~CFileTransactionEx`. -/
def destruct (env : DtorEnv) (s : CFileTransactionEx) (w : World) :
    CFileTransactionEx × World :=
  let dwError := w.lastError
  let (s, w) :=
    if s.m_hKtmW32 then
      ({ s with m_fnCreateTransaction := false, m_fnCommitTransaction := false,
                m_hKtmW32 := false }, FreeLibrary env.freeKtmW32 "KtmW32.dll" w)
    else (s, w)
  let (s, w) :=
    if s.m_hKernel32 then
      ({ s with m_fnMoveFileTransacted := false, m_hKernel32 := false },
        FreeLibrary env.freeKernel32 "Kernel32.dll" w)
    else (s, w)
  let w := deletePending env.deleteFile s.m_vToDelete w
  ({ s with m_vToDelete := [] }, w.SetLastError dwError)

/-- `CFileTransactionEx::OpenWrite`; the second component is `strOutBufferFile`. -/
def OpenWrite (fault : Fault) (s : CFileTransactionEx) (w : World) :
    Bool × String × CFileTransactionEx × World :=
  if s.m_strBase.length = 0 then (false, "", s, w.SetLastError ERROR_INVALID_HANDLE)
  else
    let (s, w) :=
      if !s.m_bTransacted then
        let (b, w1) := UnhideFile fault s.m_strTemp w
        ({ s with m_bMadeUnhidden := s.m_bMadeUnhidden || b }, w1)
      else (s, w)
    (true, s.m_strTemp, s, w)

/-- `CFileTransactionEx::TxfClosePrsv`. -/
def TxfClosePrsv (fault : Fault) (w : World) : World :=
  let dw := w.lastError
  (CloseHandle fault w).SetLastError dw

/-- The transaction description built at the start of `TxfMoveWithTx`. -/
def txDescription (id : String) : String :=
  let strTx := PWM_PRODUCT_NAME_SHORT ++ " TxF - " ++ TxfCreateID id
  if strTx.length ≥ MAX_TRANSACTION_DESCRIPTION_LENGTH then
    strTx.take (MAX_TRANSACTION_DESCRIPTION_LENGTH - 1)
  else strTx

/-- `CFileTransactionEx::TxfMoveWithTx`.  The move made inside the transaction
reaches the files only when the transaction commits. -/
def TxfMoveWithTx (env : CommitEnv) (s : CFileTransactionEx) (w : World) : Bool × World :=
  let w := w.record (.CreateTransaction (txDescription env.newId))
  match env.createTransaction with
  | some c => (false, w.SetLastError c)
  | none =>
    let w := w.record (.MoveFileTransacted s.m_strTemp s.m_strBase)
    match env.moveFileTransacted, w.files s.m_strTemp with
    | some c, _ => (false, TxfClosePrsv env.closeHandle (w.SetLastError c))
    | none, none => (false, TxfClosePrsv env.closeHandle (w.SetLastError ERROR_FILE_NOT_FOUND))
    | none, some f =>
      let w := w.record .CommitTransaction
      match env.commitTransaction with
      | some c => (false, TxfClosePrsv env.closeHandle (w.SetLastError c))
      | none => (true, TxfClosePrsv env.closeHandle (w.rename s.m_strTemp s.m_strBase f))

/-- `CFileTransactionEx::TxfMove`; the second component of the result is the
value of the reference parameter `bFatalError` on return. -/
def TxfMove (env : CommitEnv) (s : CFileTransactionEx) (bFatalError : Bool) (w : World) :
    Bool × Bool × World :=
  if s.m_strTxfMidFallback.length = 0 then (false, bFatalError, w)
  else
    match TxfMoveWithTx env s w with
    | (true, w) => (true, bFatalError, w)
    | (false, w) =>
      let (b, w) := MoveFileEx env.moveFileEx1 s.m_strTemp s.m_strTxfMidFallback w
      let (b, w) :=
        if b then MoveFileEx env.moveFileEx2 s.m_strTxfMidFallback s.m_strBase w else (b, w)
      if !b then (false, true, w) else (true, bFatalError, w)

/-- Lines 195 to 208 of `CommitWriteTransaction`: the restore steps. -/
def restoreSteps (env : CommitEnv) (s : CFileTransactionEx) (otCreation : Option Nat)
    (dwAttrib : Option FileInfo) (pAcl : Option Nat) (bMadeUnhidden : Bool) (w : World) : World :=
  let w :=
    match otCreation with
    | some t => (SetFileCreationTime env.setCreationTime s.m_strBase t w).2
    | none => w
  let w :=
    match dwAttrib with
    | some a => if a.encrypted then (EncryptFile env.encrypt s.m_strBase w).2 else w
    | none => w
  let w :=
    match pAcl with
    | some acl => (SetNamedSecurityInfo env.setSecurity s.m_strBase acl w).2
    | none => w
  if bMadeUnhidden then (HideFile env.hide s.m_strBase true w).2 else w

/-- Lines 180 to 193 of `CommitWriteTransaction`: the replace.  The result is
`false` where the source returns `false`. -/
def replaceStep (env : CommitEnv) (s : CFileTransactionEx) (bAttrib : Bool) (w : World) :
    Bool × World :=
  let bFatalError := false
  match TxfMove env s bFatalError w with
  | (true, _, w) => (true, w)
  | (false, bFatalError, w) =>
    if bFatalError then (false, w)
    else
      let (bDel, w) := if bAttrib then DeleteFile env.deleteFile s.m_strBase w else (true, w)
      if !bDel then (false, w)
      else
        let (bMov, w) := MoveFile env.moveFile s.m_strTemp s.m_strBase w
        if !bMov then (false, w) else (true, w)

/-- Lines 160 to 178 of `CommitWriteTransaction`: un-hide, decrypt and capture.
The result holds `bMadeUnhidden`, `dwAttrib`, `otCreation` and `pAcl`. -/
def captureStep (env : CommitEnv) (s : CFileTransactionEx) (w : World) :
    Bool × Option FileInfo × Option Nat × Option Nat × World :=
  let (bMadeUnhidden, w) := UnhideFile env.unhide s.m_strBase w
  let (dwAttrib, w) := GetFileAttributes s.m_strBase w
  match dwAttrib with
  | none => (bMadeUnhidden, dwAttrib, none, none, w)
  | some a =>
    let w := if a.encrypted then (DecryptFile env.decrypt s.m_strBase w).2 else w
    let (otCreation, w) := GetFileCreationTime env.getCreationTime s.m_strBase w
    let (pAcl, w) := GetNamedSecurityInfo env.getSecurity s.m_strBase w
    (bMadeUnhidden, dwAttrib, otCreation, pAcl, w)

/-- `CFileTransactionEx::CommitWriteTransaction`. -/
def CommitWriteTransaction (env : CommitEnv) (s : CFileTransactionEx) (w : World) :
    Bool × CFileTransactionEx × World :=
  match captureStep env s w with
  | (bMadeUnhidden, dwAttrib, otCreation, pAcl, w) =>
    let s := { s with m_pSec := pAcl.or s.m_pSec }
    match replaceStep env s dwAttrib.isSome w with
    | (false, w) => (false, s, w)
    | (true, w) => (true, s, restoreSteps env s otCreation dwAttrib pAcl bMadeUnhidden w)

/-- `CFileTransactionEx::CommitWrite`. -/
def CommitWrite (env : CommitEnv) (s : CFileTransactionEx) (w : World) :
    Bool × CFileTransactionEx × World :=
  if s.m_strBase.length = 0 then (false, s, w.SetLastError ERROR_INVALID_HANDLE)
  else
    let (r, s, w) :=
      if !s.m_bTransacted then
        (true, s, if s.m_bMadeUnhidden then (HideFile env.hide s.m_strTemp true w).2 else w)
      else CommitWriteTransaction env s w
    (r, { s with m_strBase := "", m_pSec := none }, w)

end CFileTransactionEx

/-! ## Relations between worlds used in the statements -/

/-- Content, creation time and DACL of a file: what the hidden and encrypted
flags leave alone. -/
def FileInfo.core (f : FileInfo) : String × Nat × Nat :=
  (f.content, f.creationTime, f.acl)

/-- From `w` to `w2` only the file at `p` may have changed, and every file kept
its `g`-part (in particular no file appeared or disappeared). -/
def Keeps {α : Type} (g : FileInfo → α) (p : String) (w w2 : World) : Prop :=
  ∀ q, (q ≠ p → w2.files q = w.files q) ∧ (w2.files q).map g = (w.files q).map g

/-- From `w` to `w2` the trace grew by calls that all satisfy `P`. -/
def Emits (P : Call → Prop) (w w2 : World) : Prop :=
  ∃ l, w2.trace = w.trace ++ l ∧ ∀ c ∈ l, P c

/-- The two calls of the simple-replace fallback: `DeleteFile` and `MoveFile`. -/
def Call.isSimpleReplace : Call → Bool
  | .DeleteFile _ => true
  | .MoveFile _ _ => true
  | _ => false

/-! ## Operation sequences -/

/-- One step in the life of a session: a public operation of the class, or the
caller writing to a file between two of them. -/
inductive Op where
  | openWrite (fault : Fault)
  | commitWrite (env : CommitEnv)
  | destroy (env : DtorEnv)
  | write (path content : String) (fresh : FileInfo)

/-- Effect of one step on the session and the world. -/
def Op.apply : Op → CFileTransactionEx × World → CFileTransactionEx × World
  | .openWrite fault, (s, w) => (CFileTransactionEx.OpenWrite fault s w).2.2
  | .commitWrite env, (s, w) => (CFileTransactionEx.CommitWrite env s w).2
  | .destroy env, (s, w) => CFileTransactionEx.destruct env s w
  | .write path content fresh, (s, w) => (s, callerWrite path content fresh w)

/-- Runs a sequence of steps from left to right. -/
def runOps (ops : List Op) (st : CFileTransactionEx × World) : CFileTransactionEx × World :=
  ops.foldl (fun st op => op.apply st) st

/-- The generated temporary name is fresh: no file of that name exists in `w`. -/
def FreshTempName (env : CtorEnv) (w : World) : Prop :=
  ∀ dir, env.GetTempPath = .ok dir →
    w.files (CFileTransactionEx.TxfTempFile dir env.newId) = none

/-! ## A concrete scenario -/

/-- A plain file with the given content. -/
def demoFile (content : String) : FileInfo :=
  { content := content, creationTime := 1000, acl := 7, hidden := false,
    encrypted := false, reparsePoint := false, directory := false }

/-- The temporary directory of the scenario. -/
def demoDir : FileInfo :=
  { content := "", creationTime := 1, acl := 7, hidden := false,
    encrypted := false, reparsePoint := false, directory := true }

/-- A disk holding `C:\db.kdb` with ten bytes `A`, and the temporary directory. -/
def demoWorld : World :=
  { files := fun p =>
      if p = "C:\\db.kdb" then some (demoFile "AAAAAAAAAA")
      else if p = "C:\\Temp\\" then some demoDir
      else none,
    lastError := 0, trace := [] }

/-- A platform on which every call made by the constructor succeeds and every
volume supports transactions. -/
def demoCtorEnv : CtorEnv :=
  { GetFullPathName := fun p => .ok p, loadKtmW32 := none, procCreateTransaction := none,
    procCommitTransaction := none, loadKernel32 := none, procMoveFileTransacted := none,
    newId := "7f3a", GetTempPath := .ok "C:\\Temp\\", createDirectory := none,
    SU_GetDriveLetter := fun p => p.front, GetVolumeInformation := fun _ => .ok true }

/-- A platform without `KtmW32.dll`. -/
def demoOldCtorEnv : CtorEnv :=
  { demoCtorEnv with loadKtmW32 := some 126 }

/-- A platform on which every call made by `CommitWrite` succeeds. -/
def demoCommitEnv : CommitEnv :=
  { unhide := none, decrypt := none, getCreationTime := none, getSecurity := none,
    newId := "9b21", createTransaction := none, moveFileTransacted := none,
    commitTransaction := none, closeHandle := none, moveFileEx1 := none, moveFileEx2 := none,
    deleteFile := none, moveFile := none, setCreationTime := none, encrypt := none,
    setSecurity := none, hide := none }

/-- A platform on which every call made by the destructor succeeds. -/
def demoDtorEnv : DtorEnv :=
  { freeKtmW32 := none, freeKernel32 := none, deleteFile := fun _ => none }

/-- The session for `C:\db.kdb` with transactions requested and prepared. -/
def demoSession : CFileTransactionEx :=
  (CFileTransactionEx.construct demoCtorEnv (some "C:\\db.kdb") true demoWorld).1

/-- The disk after the caller has written ten bytes `B` to the working path. -/
def demoStaged : World :=
  callerWrite demoSession.m_strTemp "BBBBBBBBBB" (demoFile "")
    (CFileTransactionEx.construct demoCtorEnv (some "C:\\db.kdb") true demoWorld).2

/-- The session for `C:\db.kdb` on a platform without `KtmW32.dll`. -/
def demoOldSession : CFileTransactionEx :=
  (CFileTransactionEx.construct demoOldCtorEnv (some "C:\\db.kdb") true demoWorld).1

/-- The disk after the caller has written to the working path of `demoOldSession`. -/
def demoOldStaged : World :=
  callerWrite demoOldSession.m_strTemp "BBBBBBBBBB" (demoFile "")
    (CFileTransactionEx.construct demoOldCtorEnv (some "C:\\db.kdb") true demoWorld).2

/-- The usual use of the class up to the commit: construct a session for
`lpBaseFile`, call `OpenWrite`, and write `content` to the working path it
returned.  The result holds the outcome of `OpenWrite`, the working path, the
session and the world before `CommitWrite`. -/
def openAndWrite (cenv : CtorEnv) (lpBaseFile : String) (bTransacted : Bool) (w : World)
    (fault : Fault) (content : String) (fresh : FileInfo) :
    Bool × String × CFileTransactionEx × World :=
  let (s, w) := CFileTransactionEx.construct cenv (some lpBaseFile) bTransacted w
  let (ok, path, s, w) := CFileTransactionEx.OpenWrite fault s w
  (ok, path, s, callerWrite path content fresh w)

/-! ## Classifying the calls of a commit -/

/-- The calls of the transactional move and of the two-hop move. -/
def Call.isTxfAttempt : Call → Bool
  | .CreateTransaction _ => true
  | .MoveFileTransacted _ _ => true
  | .CommitTransaction => true
  | .MoveFileEx _ _ => true
  | _ => false

/-- The restore steps in the order the specification fixes: creation time,
then encryption, then the DACL, then the hidden attribute; each one only when
its captured value is present. -/
def specRestoreOrder (target : String) (creation : Option Nat) (wasEncrypted : Bool)
    (acl : Option Nat) (wasUnhidden : Bool) : List Call :=
  (match creation with
    | some t => [Call.SetFileCreationTime target t]
    | none => []) ++
  (if wasEncrypted then [Call.EncryptFile target] else []) ++
  (match acl with
    | some a => [Call.SetNamedSecurityInfo target a]
    | none => []) ++
  (if wasUnhidden then [Call.SetFileAttributes target true] else [])

/-! ## `CPopularPasswords` (PopularPasswords.cpp, PopularPasswords.h)

Wide characters and bytes are numbers.  A string handed over by pointer is a
list of characters; what the C functions see of it is `cstr`, the characters
before the first zero.  A null pointer is `none`. -/

/-- The characters of a zero-terminated string: those before the first zero. -/
def cstr (l : List Nat) : List Nat :=
  l.takeWhile (fun c => c != 0)

/-- What `CPopularPasswords` takes from the C runtime, the platform and the
build: `iswspace`, `towlower`, the wide characters `MultiByteToWideChar` writes
for `CP_UTF8` (the empty list stands for the return value 0), and whether
`SIZE_MAX` is the 64-bit one. -/
structure CRuntime where
  iswspace : Nat → Bool
  towlower : Nat → Nat
  MultiByteToWideChar : List Nat → List Nat
  size64 : Bool

/-- `_rotl` and `_rotl64`: rotate the `W`-bit value `x` left by `n`. -/
def rotl (W x n : Nat) : Nat :=
  ((x <<< n) % 2 ^ W) ||| (x >>> (W - n))

/-- `TppDictHash::operator()`. -/
def TppDictHash (size64 : Bool) (p : Option (List Nat)) : Nat :=
  match p with
  | none => 0
  | some l =>
    (cstr l).foldl (fun h ch =>
      if size64 then rotl 64 ((((h + ch) % 2 ^ 64) * 0x54724D3EA2860CBB) % 2 ^ 64) 29
      else rotl 32 ((((h + ch) % 2 ^ 32) * 0x5FC34C67) % 2 ^ 32) 13) 0xC17962B7

/-- `TppDictPred::operator()`: `wcscmp(a, b) == 0` for non-null arguments. -/
def TppDictPred (a b : Option (List Nat)) : Bool :=
  match a, b with
  | none, b => b.isNone
  | some _, none => false
  | some a, some b => cstr a == cstr b

/-- `TppDict`: the strings an `unordered_set<LPCWSTR, TppDictHash, TppDictPred>` holds. -/
abbrev TppDict := List (List Nat)

/-- `unordered_set::count`: an element counts when its hash and the predicate agree. -/
def TppDict.count (size64 : Bool) (d : TppDict) (x : List Nat) : Nat :=
  if d.any (fun y => TppDictHash size64 (some y) == TppDictHash size64 (some x)
      && TppDictPred (some y) (some x)) then 1 else 0

/-- `unordered_set::insert`: nothing happens when an equal element is there. -/
def TppDict.insert (size64 : Bool) (d : TppDict) (x : List Nat) : TppDict :=
  if TppDict.count size64 d x > 0 then d else d ++ [cstr x]

/-- `TppDictPtr`: a shared pointer to a dictionary, `none` when null. -/
abbrev TppDictPtr := Option TppDict

/-- The static members of `CPopularPasswords`.  `g_vMem` holds the buffers the
words point into. -/
structure CPopularPasswords where
  g_vMem : List (List Nat)
  g_vDicts : List TppDictPtr

/-- `static_cast<int>` of a length. -/
def toInt32 (n : Nat) : Int :=
  if n % 2 ^ 32 < 2 ^ 31 then ((n % 2 ^ 32 : Nat) : Int) else ((n % 2 ^ 32 : Nat) : Int) - 2 ^ 32

/-- `szlen` (StrUtil, not among the sources): the length of a zero-terminated
byte string. -/
def szlen (l : List Nat) : Nat :=
  (cstr l).length

namespace CPopularPasswords

/-- The state before any call: both vectors empty. -/
def fresh : CPopularPasswords :=
  { g_vMem := [], g_vDicts := [] }

/-- `CPopularPasswords::Clear`. -/
def Clear (_st : CPopularPasswords) : CPopularPasswords :=
  { g_vMem := [], g_vDicts := [] }

/-- `CPopularPasswords::GetMaxLength`: the value returned, and whether every
`ASSERT` on the way held. -/
def GetMaxLength (st : CPopularPasswords) : Nat × Bool :=
  let s := st.g_vDicts.length
  if s = 0 then (0, false)
  else
    match st.g_vDicts[s - 1]? with
    | some (some d) => (s - 1, decide (d.length > 0))
    | _ => (s - 1, false)

/-- `CPopularPasswords::ContainsLength`: the value returned, and whether the
`ASSERT` held. -/
def ContainsLength (uLen : Nat) (st : CPopularPasswords) : Bool × Bool :=
  if uLen = 0 then (false, true)
  else if uLen ≥ st.g_vDicts.length then (false, true)
  else
    match st.g_vDicts[uLen]? with
    | some (some d) => (true, decide (d.length > 0))
    | _ => (false, true)

/-- `CPopularPasswords::IsPopular`: the value returned, and what is written to
`*pdwDictSize` when that pointer is not null. -/
def IsPopular (size64 : Bool) (lpw : Option (List Nat)) (st : CPopularPasswords) :
    Bool × Option Nat :=
  match lpw with
  | none => (false, none)
  | some l =>
    let uLen := (cstr l).length
    if uLen ≥ st.g_vDicts.length then (false, none)
    else
      match st.g_vDicts[uLen]? with
      | some (some p) => (decide (TppDict.count size64 p l > 0), some p.length)
      | _ => (false, none)

/-- Lines 117 to 127 of `Add`: the word at `lpWord` goes into the dictionary
of its length. -/
def insertWord (size64 : Bool) (lpWord : List Nat) (d : List TppDictPtr) : List TppDictPtr :=
  let cc := (cstr lpWord).length
  let d := if cc ≥ d.length then d ++ List.replicate (cc + 1 - d.length) none else d
  let p : TppDict :=
    match d[cc]? with
    | some (some p) => p
    | _ => []
  d.set cc (some (TppDict.insert size64 p lpWord))

/-- The loop of `Add` over the characters still to come.  `lpWord` is `none`
when the pointer is null, and otherwise holds the characters from the start of
the word up to the current position. -/
def addLoop (rt : CRuntime) : List Nat → Option (List Nat) → List TppDictPtr → List TppDictPtr
  | [], _, d => d
  | ch :: rest, lpWord, d =>
    let c := rt.towlower ch
    if rt.iswspace c then
      match lpWord with
      | some word => addLoop rt rest none (insertWord rt.size64 word d)
      | none => addLoop rt rest none d
    else
      match lpWord with
      | none => addLoop rt rest (some [c]) d
      | some word => addLoop rt rest (some (word ++ [c])) d

/-- `CPopularPasswords::Add`.  The allocation of the buffer is taken to
succeed.  `lpw` is the part of the buffer `MultiByteToWideChar` wrote; the
rest of the buffer is zero. -/
def Add (rt : CRuntime) (pTextUTF8 : Option (List Nat)) (st : CPopularPasswords) :
    CPopularPasswords :=
  match pTextUTF8 with
  | none => st
  | some bytes =>
    let nUTF8Len := toInt32 (szlen bytes)
    if nUTF8Len ≤ 0 then st
    else
      let lpw := rt.MultiByteToWideChar ((cstr bytes).take nUTF8Len.toNat)
      if lpw.length = 0 ∨ lpw.head? = some 0 then st
      else
        let buf := cstr lpw
        let buf := if rt.iswspace (buf.getLast?.getD 0) = false then buf ++ [10] else buf
        { g_vDicts := addLoop rt buf none st.g_vDicts, g_vMem := st.g_vMem ++ [lpw] }

/-- The wide text `Add` goes through, before the line feed it may append:
empty when `Add` returns early. -/
def wideText (rt : CRuntime) (pTextUTF8 : Option (List Nat)) : List Nat :=
  match pTextUTF8 with
  | none => []
  | some bytes =>
    if toInt32 (szlen bytes) ≤ 0 then []
    else
      if (rt.MultiByteToWideChar ((cstr bytes).take (toInt32 (szlen bytes)).toNat)).length = 0 ∨
          (rt.MultiByteToWideChar ((cstr bytes).take (toInt32 (szlen bytes)).toNat)).head?
            = some 0 then []
      else cstr (rt.MultiByteToWideChar ((cstr bytes).take (toInt32 (szlen bytes)).toNat))

end CPopularPasswords

/-- The lower-cased maximal whitespace-delimited words of a text: the
non-empty pieces between whitespace characters, each character lower-cased. -/
def specWords (rt : CRuntime) (text : List Nat) : List (List Nat) :=
  ((text.splitOnP rt.iswspace).filter (fun s => !s.isEmpty)).map (fun s => s.map rt.towlower)

/-- A call of `Clear` or of `Add`. -/
inductive PPOp where
  | clear
  | add (pTextUTF8 : Option (List Nat))

/-- Effect of one call. -/
def PPOp.apply (rt : CRuntime) : PPOp → CPopularPasswords → CPopularPasswords
  | .clear, st => CPopularPasswords.Clear st
  | .add t, st => CPopularPasswords.Add rt t st

/-- Runs a sequence of calls from left to right. -/
def runPP (rt : CRuntime) (ops : List PPOp) (st : CPopularPasswords) : CPopularPasswords :=
  ops.foldl (fun st op => op.apply rt st) st

/-- The texts added since the last `Clear`. -/
def sinceClear (ops : List PPOp) : List (Option (List Nat)) :=
  ops.foldl (fun acc op =>
    match op with
    | .clear => []
    | .add t => acc ++ [t]) []

/-- What the C library guarantees and the code relies on: lower-casing keeps
whitespace whitespace and the rest not, only zero lower-cases to zero, and the
line feed is whitespace. -/
structure CRuntime.Lawful (rt : CRuntime) : Prop where
  space_lower : ∀ c, rt.iswspace (rt.towlower c) = rt.iswspace c
  lower_zero : ∀ c, rt.towlower c = 0 → c = 0
  space_lf : rt.iswspace 10 = true

/-- A runtime for plain ASCII text: blank and the control characters 9 to 13
are whitespace, the capital letters are lower-cased. -/
def demoRuntime : CRuntime :=
  { iswspace := fun c => c == 32 || (decide (9 ≤ c) && decide (c ≤ 13)),
    towlower := fun c => if 65 ≤ c ∧ c ≤ 90 then c + 32 else c,
    MultiByteToWideChar := fun l => l,
    size64 := true }

/-- The bytes of `Pass word`. -/
def demoText : List Nat := [80, 97, 115, 115, 32, 119, 111, 114, 100]

/-- The words of the texts, in the order `Add` meets them. -/
def addedWords (rt : CRuntime) : List (Option (List Nat)) → List (List Nat)
  | [] => []
  | t :: ts => specWords rt (CPopularPasswords.wideText rt t) ++ addedWords rt ts

/-- The dictionary of the bucket `n`, empty when the bucket is null or beyond the table. -/
def bucketOr (d : List TppDictPtr) (n : Nat) : TppDict :=
  match d[n]? with
  | some (some p) => p
  | _ => []

/-- The table `d` holds exactly the words `ws`, each in the bucket of its
length, has no empty dictionary, and ends with a dictionary. -/
structure TableInv (d : List TppDictPtr) (ws : List (List Nat)) : Prop where
  sound : ∀ n p, d[n]? = some (some p) → p ≠ [] ∧ ∀ w ∈ p, w.length = n ∧ w ∈ ws
  complete : ∀ w ∈ ws, ∃ p, d[w.length]? = some (some p) ∧ w ∈ p
  last : d = [] ∨ ∃ p, d[d.length - 1]? = some (some p)
  empty : ws = [] → d = []

/-- The invariant of the table `g_vDicts`: it is empty, or bucket 0 is null,
the last bucket is a non-empty dictionary, and every dictionary is non-empty
and holds, in bucket `n`, only words of length `n`. -/
def TableOk (d : List TppDictPtr) : Prop :=
  d = [] ∨
    (d[0]? = some none ∧ (∃ p, d[d.length - 1]? = some (some p) ∧ p ≠ []) ∧
      ∀ (n : Nat) (p : TppDict), d[n]? = some (some p) → p ≠ [] ∧ ∀ w ∈ p, w.length = n)

/-- The bytes of `word`. -/
def demoWord : List Nat := [119, 111, 114, 100]

/-! ## `CAutoCompleteData` (AutoCompleteEx.cpp)

The enumerator of the auto-complete strings.  `W` is the width of `size_t`
(32 or 64); a `ULONG` has 32 bits. -/

/-- The `HRESULT` values the enumerator returns. -/
inductive HRESULT where
  | S_OK
  | S_FALSE
  | E_INVALIDARG
  | E_OUTOFMEMORY
  deriving DecidableEq, Repr

/-- The members of `CAutoCompleteData`. -/
structure CAutoCompleteData where
  m_cRef : Int
  m_v : List (List Nat)
  m_pos : Nat
  deriving DecidableEq

namespace CAutoCompleteData

/-- The constructors: `m_cRef(1), m_pos(0)`.  The vector the public
constructor builds from the items (de-duplicated, copied, sorted) is taken as
given; the private constructor leaves it empty. -/
def create (m_v : List (List Nat)) : CAutoCompleteData :=
  { m_cRef := 1, m_v := m_v, m_pos := 0 }

/-- The loop of `Next` with `k` rounds to go, `i` being the index into
`rgelt` and `out` what has been stored there.  `alloc i` tells whether the
`CoTaskMemAlloc` of round `i` succeeds.  The result is `none` when `m_v` is
indexed outside the vector; otherwise it tells whether the loop ran to its end
(`false`: it left with `E_OUTOFMEMORY`). -/
def NextLoop (W : Nat) (alloc : Nat → Bool) :
    Nat → Nat → CAutoCompleteData → List (List Nat) →
      Option (Bool × List (List Nat) × CAutoCompleteData)
  | 0, _, e, out => some (true, out, e)
  | k + 1, i, e, out =>
    match e.m_v[e.m_pos]? with
    | none => none
    | some lp =>
      if alloc i then
        NextLoop W alloc k (i + 1) { e with m_pos := (e.m_pos + 1) % 2 ^ W } (out ++ [cstr lp])
      else some (false, out, e)

/-- `CAutoCompleteData::Next`.  `rgelt` and `pceltFetched` tell whether the
pointers are non-null.  The result holds the `HRESULT`, the strings stored in
`rgelt`, the value left in `*pceltFetched` (`none` for a null pointer) and the
enumerator afterwards; it is `none` when `m_v` is indexed outside the vector. -/
def Next (W : Nat) (alloc : Nat → Bool) (celt : Nat) (rgelt pceltFetched : Bool)
    (e : CAutoCompleteData) :
    Option (HRESULT × List (List Nat) × Option Nat × CAutoCompleteData) :=
  let fetched0 : Option Nat := if pceltFetched then some 0 else none
  if celt = 0 then some (.S_OK, [], fetched0, e)
  else if rgelt = false then some (.E_INVALIDARG, [], fetched0, e)
  else if celt ≥ 2 ∧ pceltFetched = false then some (.E_INVALIDARG, [], fetched0, e)
  else
    let uAvail := ((e.m_v.length + 2 ^ W - e.m_pos) % 2 ^ W) % 2 ^ 32
    let uRet := min celt uAvail
    match NextLoop W alloc uRet 0 e [] with
    | none => none
    | some (false, out, e1) => some (.E_OUTOFMEMORY, out, fetched0, e1)
    | some (true, out, e1) =>
      some (if uRet = celt then .S_OK else .S_FALSE, out,
        if pceltFetched then some uRet else none, e1)

/-- `CAutoCompleteData::Skip`. -/
def Skip (W : Nat) (celt : Nat) (e : CAutoCompleteData) : HRESULT × CAutoCompleteData :=
  let uNewPos := (e.m_pos + celt) % 2 ^ W
  if uNewPos ≤ e.m_v.length ∧ uNewPos ≥ celt then (.S_OK, { e with m_pos := uNewPos })
  else (.S_FALSE, { e with m_pos := e.m_v.length })

/-- `CAutoCompleteData::Reset`. -/
def Reset (e : CAutoCompleteData) : HRESULT × CAutoCompleteData :=
  (.S_OK, { e with m_pos := 0 })

/-- `CAutoCompleteData::Clone`: the `HRESULT` and the object stored in
`*ppenum`.  `ppenum` tells whether the pointer is non-null. -/
def Clone (ppenum : Bool) (e : CAutoCompleteData) : HRESULT × Option CAutoCompleteData :=
  if ppenum = false then (.E_INVALIDARG, none)
  else (.S_OK, some { create [] with m_v := e.m_v, m_pos := e.m_pos })

end CAutoCompleteData

/-- A call on the enumerator. -/
inductive EnumOp where
  | next (alloc : Nat → Bool) (celt : Nat) (rgelt pceltFetched : Bool)
  | skip (celt : Nat)
  | reset
  | clone (ppenum : Bool)

/-- Effect of one call on the enumerator; after a successful `Clone` the
sequence goes on with the clone, which is in the state of the original.  The
result is `none` when the vector is indexed outside its bounds. -/
def EnumOp.apply (W : Nat) : EnumOp → CAutoCompleteData → Option CAutoCompleteData
  | .next alloc celt rgelt pceltFetched, e =>
    (CAutoCompleteData.Next W alloc celt rgelt pceltFetched e).map (fun r => r.2.2.2)
  | .skip celt, e => some (CAutoCompleteData.Skip W celt e).2
  | .reset, e => some (CAutoCompleteData.Reset e).2
  | .clone ppenum, e => some ((CAutoCompleteData.Clone ppenum e).2.getD e)

/-- The volume of the drive `chDriveLetter` supports transactions: the letter
is not the null character, and `GetVolumeInformation` on the root path of the
drive succeeds and reports `FILE_SUPPORTS_TRANSACTIONS` among the flags of the
file system. -/
def VolumeSupportsTransactions (env : CtorEnv) (chDriveLetter : Char) : Prop :=
  chDriveLetter ≠ Char.ofNat 0 ∧
    env.GetVolumeInformation (String.mk [chDriveLetter, ':', '\\']) = .ok true

/-- The platform of the scenario, except that no volume supports transactions. -/
def demoPlainCtorEnv : CtorEnv :=
  { demoCtorEnv with GetVolumeInformation := fun _ => .ok false }

/-! ## Frame lemmas for the platform calls -/

theorem Keeps.krefl {α : Type} (g : FileInfo → α) (p : String) (w : World) : Keeps g p w w :=
  fun _ => ⟨fun _ => rfl, rfl⟩

theorem Keeps.of_files {α : Type} {g : FileInfo → α} {p : String} {w w2 : World}
    (h : w2.files = w.files) : Keeps g p w w2 :=
  fun _ => ⟨fun _ => by rw [h], by rw [h]⟩

theorem Keeps.ktrans {α : Type} {g : FileInfo → α} {p : String} {w w2 w3 : World}
    (h1 : Keeps g p w w2) (h2 : Keeps g p w2 w3) : Keeps g p w w3 :=
  fun q => ⟨fun hq => ((h2 q).1 hq).trans ((h1 q).1 hq), ((h2 q).2).trans ((h1 q).2)⟩

theorem Keeps.put {α : Type} {g : FileInfo → α} {p : String} {w : World} {f f2 : FileInfo}
    (hf : w.files p = some f) (hg : g f2 = g f) : Keeps g p w (w.put p f2) := by
  intro q
  by_cases hq : q = p
  · subst hq; simp [World.put, hf, hg]
  · simp [World.put, hq]

theorem Keeps.isSome {α : Type} {g : FileInfo → α} {p : String} {w w2 : World}
    (h : Keeps g p w w2) (q : String) : (w2.files q).isSome = (w.files q).isSome := by
  have h2 := (h q).2
  cases h3 : w2.files q <;> cases h4 : w.files q <;> simp [h3, h4] at h2 ⊢

theorem Keeps.content_of_core {p : String} {w w2 : World} (h : Keeps FileInfo.core p w w2) :
    Keeps FileInfo.content p w w2 := by
  intro q
  refine ⟨(h q).1, ?_⟩
  have h2 := (h q).2
  cases h3 : w2.files q <;> cases h4 : w.files q <;> simp [h3, h4, FileInfo.core] at h2 ⊢
  exact h2.1

theorem Emits.erefl (P : Call → Prop) (w : World) : Emits P w w :=
  ⟨[], by simp, by simp⟩

theorem Emits.of_trace {P : Call → Prop} {w w2 : World} (h : w2.trace = w.trace) :
    Emits P w w2 :=
  ⟨[], by simp [h], by simp⟩

theorem Emits.etrans {P : Call → Prop} {w w2 w3 : World}
    (h1 : Emits P w w2) (h2 : Emits P w2 w3) : Emits P w w3 := by
  obtain ⟨l1, e1, p1⟩ := h1
  obtain ⟨l2, e2, p2⟩ := h2
  refine ⟨l1 ++ l2, by rw [e2, e1, List.append_assoc], ?_⟩
  intro c hc
  rcases List.mem_append.mp hc with h | h
  · exact p1 c h
  · exact p2 c h

theorem Emits.record {P : Call → Prop} {c : Call} (w : World) (h : P c) :
    Emits P w (w.record c) :=
  ⟨[c], rfl, by simpa using h⟩

theorem Emits.mono {P Q : Call → Prop} {w w2 : World} (h : Emits P w w2)
    (hPQ : ∀ c, P c → Q c) : Emits Q w w2 := by
  obtain ⟨l, e, hl⟩ := h
  exact ⟨l, e, fun c hc => hPQ c (hl c hc)⟩

theorem Emits.callsSince {P : Call → Prop} {w w2 : World} (h : Emits P w w2) :
    ∀ c ∈ callsSince w w2, P c := by
  obtain ⟨l, e, hl⟩ := h
  simpa [KeePass.callsSince, e] using hl

theorem keeps_GetFileAttributes {α : Type} (g : FileInfo → α) (q p : String) (w : World) :
    Keeps g q w (GetFileAttributes p w).2 := by
  unfold GetFileAttributes
  split <;> exact Keeps.of_files rfl

theorem emits_GetFileAttributes (P : Call → Prop) (p : String) (w : World) :
    Emits P w (GetFileAttributes p w).2 := by
  unfold GetFileAttributes
  split <;> exact Emits.of_trace rfl

theorem GetFileAttributes_fst (p : String) (w : World) :
    (GetFileAttributes p w).1 = w.files p := by
  unfold GetFileAttributes
  split <;> simp_all

theorem keeps_SetFileAttributes {α : Type} {g : FileInfo → α}
    (hg : ∀ f b, g { f with hidden := b } = g f) (fault : Fault) (p : String) (b : Bool)
    (w : World) : Keeps g p w (SetFileAttributes fault p b w).2 := by
  unfold SetFileAttributes
  split
  · exact Keeps.of_files rfl
  · exact Keeps.of_files rfl
  · rename_i f hf
    exact Keeps.ktrans (Keeps.of_files rfl) (Keeps.put (w := w.record _) hf (hg _ _))

theorem emits_SetFileAttributes {P : Call → Prop} (fault : Fault) (p : String) (b : Bool)
    (w : World) (h : P (.SetFileAttributes p b)) :
    Emits P w (SetFileAttributes fault p b w).2 := by
  unfold SetFileAttributes
  split <;> exact Emits.etrans (Emits.record w h) (Emits.of_trace rfl)

theorem keeps_DecryptFile {α : Type} {g : FileInfo → α}
    (hg : ∀ f b, g { f with encrypted := b } = g f) (fault : Fault) (p : String)
    (w : World) : Keeps g p w (DecryptFile fault p w).2 := by
  unfold DecryptFile
  split
  · exact Keeps.of_files rfl
  · exact Keeps.of_files rfl
  · rename_i f hf
    exact Keeps.ktrans (Keeps.of_files rfl) (Keeps.put (w := w.record _) hf (hg _ _))

theorem emits_DecryptFile {P : Call → Prop} (fault : Fault) (p : String)
    (w : World) (h : P (.DecryptFile p)) : Emits P w (DecryptFile fault p w).2 := by
  unfold DecryptFile
  split <;> exact Emits.etrans (Emits.record w h) (Emits.of_trace rfl)

theorem keeps_EncryptFile {α : Type} {g : FileInfo → α}
    (hg : ∀ f b, g { f with encrypted := b } = g f) (fault : Fault) (p : String)
    (w : World) : Keeps g p w (EncryptFile fault p w).2 := by
  unfold EncryptFile
  split
  · exact Keeps.of_files rfl
  · exact Keeps.of_files rfl
  · rename_i f hf
    exact Keeps.ktrans (Keeps.of_files rfl) (Keeps.put (w := w.record _) hf (hg _ _))

theorem emits_EncryptFile {P : Call → Prop} (fault : Fault) (p : String)
    (w : World) (h : P (.EncryptFile p)) : Emits P w (EncryptFile fault p w).2 := by
  unfold EncryptFile
  split <;> exact Emits.etrans (Emits.record w h) (Emits.of_trace rfl)

theorem keeps_SetNamedSecurityInfo {α : Type} {g : FileInfo → α}
    (hg : ∀ f a, g { f with acl := a } = g f) (fault : Fault) (p : String) (acl : Nat)
    (w : World) : Keeps g p w (SetNamedSecurityInfo fault p acl w).2 := by
  unfold SetNamedSecurityInfo
  split
  · exact Keeps.of_files rfl
  · exact Keeps.of_files rfl
  · rename_i f hf
    exact Keeps.ktrans (Keeps.of_files rfl) (Keeps.put (w := w.record _) hf (hg _ _))

theorem emits_SetNamedSecurityInfo {P : Call → Prop} (fault : Fault) (p : String) (acl : Nat)
    (w : World) (h : P (.SetNamedSecurityInfo p acl)) :
    Emits P w (SetNamedSecurityInfo fault p acl w).2 := by
  unfold SetNamedSecurityInfo
  split <;> exact Emits.etrans (Emits.record w h) (Emits.of_trace rfl)

theorem keeps_SetFileCreationTime {α : Type} {g : FileInfo → α}
    (hg : ∀ f t, g { f with creationTime := t } = g f) (fault : Fault) (p : String) (t : Nat)
    (w : World) : Keeps g p w (SetFileCreationTime fault p t w).2 := by
  unfold SetFileCreationTime
  split
  · exact Keeps.of_files rfl
  · exact Keeps.of_files rfl
  · rename_i f hf
    exact Keeps.ktrans (Keeps.of_files rfl) (Keeps.put (w := w.record _) hf (hg _ _))

theorem emits_SetFileCreationTime {P : Call → Prop} (fault : Fault) (p : String) (t : Nat)
    (w : World) (h : P (.SetFileCreationTime p t)) :
    Emits P w (SetFileCreationTime fault p t w).2 := by
  unfold SetFileCreationTime
  split <;> exact Emits.etrans (Emits.record w h) (Emits.of_trace rfl)

theorem keeps_GetFileCreationTime {α : Type} (g : FileInfo → α) (fault : Fault) (q p : String)
    (w : World) : Keeps g q w (GetFileCreationTime fault p w).2 := by
  unfold GetFileCreationTime
  split <;> exact Keeps.of_files rfl

theorem emits_GetFileCreationTime (P : Call → Prop) (fault : Fault) (p : String) (w : World) :
    Emits P w (GetFileCreationTime fault p w).2 := by
  unfold GetFileCreationTime
  split <;> exact Emits.of_trace rfl

theorem keeps_GetNamedSecurityInfo {α : Type} (g : FileInfo → α) (fault : Fault) (q p : String)
    (w : World) : Keeps g q w (GetNamedSecurityInfo fault p w).2 := by
  unfold GetNamedSecurityInfo
  split <;> exact Keeps.of_files rfl

theorem emits_GetNamedSecurityInfo (P : Call → Prop) (fault : Fault) (p : String) (w : World) :
    Emits P w (GetNamedSecurityInfo fault p w).2 := by
  unfold GetNamedSecurityInfo
  split <;> exact Emits.of_trace rfl

theorem keeps_HideFile {α : Type} {g : FileInfo → α}
    (hg : ∀ f b, g { f with hidden := b } = g f) (fault : Fault) (p : String) (b : Bool)
    (w : World) : Keeps g p w (HideFile fault p b w).2 := by
  unfold HideFile
  have h1 := keeps_GetFileAttributes g p p w
  split
  · rename_i w1 he
    rw [he] at h1; exact h1
  · rename_i f w1 he
    rw [he] at h1
    exact h1.ktrans (keeps_SetFileAttributes hg fault p b w1)

theorem emits_HideFile {P : Call → Prop} (fault : Fault) (p : String) (b : Bool)
    (w : World) (h : P (.SetFileAttributes p b)) : Emits P w (HideFile fault p b w).2 := by
  unfold HideFile
  have h1 := emits_GetFileAttributes P p w
  split
  · rename_i w1 he
    rw [he] at h1; exact h1
  · rename_i f w1 he
    rw [he] at h1
    exact h1.etrans (emits_SetFileAttributes fault p b w1 h)

theorem keeps_UnhideFile {α : Type} {g : FileInfo → α}
    (hg : ∀ f b, g { f with hidden := b } = g f) (fault : Fault) (p : String)
    (w : World) : Keeps g p w (UnhideFile fault p w).2 := by
  unfold UnhideFile
  have h1 := keeps_GetFileAttributes g p p w
  split
  · rename_i w1 he
    rw [he] at h1; exact h1
  · rename_i f w1 he
    rw [he] at h1
    split
    · exact h1.ktrans (keeps_HideFile hg fault p false w1)
    · exact h1

theorem emits_UnhideFile {P : Call → Prop} (fault : Fault) (p : String)
    (w : World) (h : P (.SetFileAttributes p false)) : Emits P w (UnhideFile fault p w).2 := by
  unfold UnhideFile
  have h1 := emits_GetFileAttributes P p w
  split
  · rename_i w1 he
    rw [he] at h1; exact h1
  · rename_i f w1 he
    rw [he] at h1
    split
    · exact h1.etrans (emits_HideFile fault p false w1 h)
    · exact h1

namespace CFileTransactionEx

/-! ## The three phases of `CommitWriteTransaction` -/

theorem captureStep_keeps (env : CommitEnv) (s : CFileTransactionEx) (w : World) :
    Keeps FileInfo.core s.m_strBase w (captureStep env s w).2.2.2.2 := by
  have h1 := keeps_UnhideFile (g := FileInfo.core) (fun _ _ => rfl) env.unhide s.m_strBase w
  have h2 := keeps_GetFileAttributes FileInfo.core s.m_strBase s.m_strBase
    (UnhideFile env.unhide s.m_strBase w).2
  have h12 := h1.ktrans h2
  unfold captureStep
  simp only []
  split
  · exact h12
  · refine h12.ktrans ?_
    refine @Keeps.ktrans _ _ _ _ (if _ then _ else _) _ ?_
      ((keeps_GetFileCreationTime _ _ _ _ _).ktrans (keeps_GetNamedSecurityInfo _ _ _ _ _))
    split
    · exact keeps_DecryptFile (g := FileInfo.core) (fun _ _ => rfl) _ _ _
    · exact Keeps.krefl _ _ _

theorem captureStep_emits (env : CommitEnv) (s : CFileTransactionEx) (w : World) :
    Emits (fun c => c.isSimpleReplace = false) w (captureStep env s w).2.2.2.2 := by
  have h1 := emits_UnhideFile (P := fun c => c.isSimpleReplace = false) env.unhide s.m_strBase w rfl
  have h2 := emits_GetFileAttributes (fun c => c.isSimpleReplace = false) s.m_strBase
    (UnhideFile env.unhide s.m_strBase w).2
  have h12 := h1.etrans h2
  unfold captureStep
  simp only []
  split
  · exact h12
  · refine h12.etrans ?_
    refine @Emits.etrans _ _ (if _ then _ else _) _ ?_
      ((emits_GetFileCreationTime _ _ _ _).etrans (emits_GetNamedSecurityInfo _ _ _ _))
    split
    · exact emits_DecryptFile _ _ _ rfl
    · exact Emits.erefl _ _

theorem captureStep_attrib (env : CommitEnv) (s : CFileTransactionEx) (w : World) :
    (captureStep env s w).2.1.isSome = (w.files s.m_strBase).isSome := by
  have h1 := keeps_UnhideFile (g := FileInfo.core) (fun _ _ => rfl) env.unhide s.m_strBase w
  have h3 := GetFileAttributes_fst s.m_strBase (UnhideFile env.unhide s.m_strBase w).2
  have h4 := h1.isSome s.m_strBase
  unfold captureStep
  simp only []
  split
  · rename_i h; rw [← h4, ← h3, h]
  · rename_i a h; rw [← h4, ← h3, h]

theorem MoveFileEx_fst (fault : Fault) (src dst : String) (w : World) :
    (MoveFileEx fault src dst w).1 = true ↔ fault = none ∧ (w.files src).isSome = true := by
  unfold MoveFileEx
  split <;> simp_all

theorem MoveFileEx_files_of_false (fault : Fault) (src dst : String) (w : World)
    (h : (MoveFileEx fault src dst w).1 = false) : (MoveFileEx fault src dst w).2.files = w.files := by
  unfold MoveFileEx at h ⊢
  split <;> simp_all [World.record, World.SetLastError]

theorem MoveFileEx_files_of_true (fault : Fault) (src dst : String) (w : World)
    (h : (MoveFileEx fault src dst w).1 = true) :
    ∃ f, w.files src = some f ∧
      (MoveFileEx fault src dst w).2.files = (w.rename src dst f).files := by
  unfold MoveFileEx at h ⊢
  split <;> simp_all [World.record, World.SetLastError, World.rename]

theorem MoveFileEx_trace (fault : Fault) (src dst : String) (w : World) :
    (MoveFileEx fault src dst w).2.trace = w.trace ++ [Call.MoveFileEx src dst] := by
  unfold MoveFileEx
  split <;> rfl

theorem TxfClosePrsv_files (fault : Fault) (w : World) :
    (TxfClosePrsv fault w).files = w.files := by
  unfold TxfClosePrsv CloseHandle
  split <;> rfl

theorem TxfClosePrsv_lastError (fault : Fault) (w : World) :
    (TxfClosePrsv fault w).lastError = w.lastError := rfl

theorem TxfClosePrsv_trace (fault : Fault) (w : World) :
    (TxfClosePrsv fault w).trace = w.trace ++ [Call.CloseHandle] := by
  unfold TxfClosePrsv CloseHandle
  split <;> rfl

theorem TxfMoveWithTx_fst (env : CommitEnv) (s : CFileTransactionEx) (w : World) :
    (TxfMoveWithTx env s w).1 = true ↔
      env.createTransaction = none ∧ env.moveFileTransacted = none ∧
      env.commitTransaction = none ∧ (w.files s.m_strTemp).isSome = true := by
  unfold TxfMoveWithTx
  simp only []
  split
  · simp_all
  · split
    · simp_all
    · simp_all [World.record]
    · split <;> simp_all [World.record]

theorem TxfMoveWithTx_files_of_false (env : CommitEnv) (s : CFileTransactionEx) (w : World)
    (h : (TxfMoveWithTx env s w).1 = false) : (TxfMoveWithTx env s w).2.files = w.files := by
  unfold TxfMoveWithTx at h ⊢
  simp only [] at h ⊢
  split
  · rfl
  · split
    · simp [TxfClosePrsv_files]; rfl
    · simp [TxfClosePrsv_files]; rfl
    · split
      · simp [TxfClosePrsv_files]; rfl
      · simp_all

theorem TxfMoveWithTx_files_of_true (env : CommitEnv) (s : CFileTransactionEx) (w : World)
    (h : (TxfMoveWithTx env s w).1 = true) :
    ∃ f, w.files s.m_strTemp = some f ∧
      (TxfMoveWithTx env s w).2.files = (w.rename s.m_strTemp s.m_strBase f).files := by
  unfold TxfMoveWithTx at h ⊢
  simp only [] at h ⊢
  split
  · simp_all
  · split
    · simp_all
    · simp_all
    · split
      · simp_all
      · rename_i f _ hf _ _
        exact ⟨f, hf, by simp [TxfClosePrsv_files]; rfl⟩

theorem TxfMoveWithTx_emits (env : CommitEnv) (s : CFileTransactionEx) (w : World) :
    Emits (fun c => c.isSimpleReplace = false) w (TxfMoveWithTx env s w).2 := by
  have hc : ∀ (f : Fault) (w1 : World),
      Emits (fun c => c.isSimpleReplace = false) w1 (TxfClosePrsv f w1) := fun f w1 =>
    ⟨[Call.CloseHandle], TxfClosePrsv_trace f w1, by simp [Call.isSimpleReplace]⟩
  have h0 : Emits (fun c => c.isSimpleReplace = false) w
      (w.record (.CreateTransaction (txDescription env.newId))) := Emits.record w rfl
  unfold TxfMoveWithTx
  simp only []
  split
  · exact h0.etrans (Emits.of_trace rfl)
  · refine h0.etrans ((Emits.record (P := fun c => c.isSimpleReplace = false) _
      (c := .MoveFileTransacted s.m_strTemp s.m_strBase) rfl).etrans ?_)
    split
    · exact Emits.etrans (Emits.of_trace rfl) (hc _ _)
    · exact Emits.etrans (Emits.of_trace rfl) (hc _ _)
    · refine (Emits.record (P := fun c => c.isSimpleReplace = false) _
        (c := .CommitTransaction) rfl).etrans ?_
      split
      · exact Emits.etrans (Emits.of_trace rfl) (hc _ _)
      · exact Emits.etrans (Emits.of_trace rfl) (hc _ _)

theorem MoveFileEx_emits (fault : Fault) (src dst : String) (w : World) :
    Emits (fun c => c.isSimpleReplace = false) w (MoveFileEx fault src dst w).2 :=
  ⟨[Call.MoveFileEx src dst], MoveFileEx_trace fault src dst w, by simp [Call.isSimpleReplace]⟩

theorem TxfMove_mid_empty (env : CommitEnv) (s : CFileTransactionEx) (b : Bool) (w : World)
    (h : s.m_strTxfMidFallback.length = 0) : TxfMove env s b w = (false, b, w) := by
  simp [TxfMove, h]

theorem TxfMove_eq (env : CommitEnv) (s : CFileTransactionEx) (b : Bool) (w : World)
    (h : s.m_strTxfMidFallback.length ≠ 0) :
    TxfMove env s b w =
      if (TxfMoveWithTx env s w).1 then (true, b, (TxfMoveWithTx env s w).2)
      else if (MoveFileEx env.moveFileEx1 s.m_strTemp s.m_strTxfMidFallback
          (TxfMoveWithTx env s w).2).1 then
        if (MoveFileEx env.moveFileEx2 s.m_strTxfMidFallback s.m_strBase
            (MoveFileEx env.moveFileEx1 s.m_strTemp s.m_strTxfMidFallback
              (TxfMoveWithTx env s w).2).2).1 then
          (true, b, (MoveFileEx env.moveFileEx2 s.m_strTxfMidFallback s.m_strBase
            (MoveFileEx env.moveFileEx1 s.m_strTemp s.m_strTxfMidFallback
              (TxfMoveWithTx env s w).2).2).2)
        else
          (false, true, (MoveFileEx env.moveFileEx2 s.m_strTxfMidFallback s.m_strBase
            (MoveFileEx env.moveFileEx1 s.m_strTemp s.m_strTxfMidFallback
              (TxfMoveWithTx env s w).2).2).2)
      else
        (false, true, (MoveFileEx env.moveFileEx1 s.m_strTemp s.m_strTxfMidFallback
          (TxfMoveWithTx env s w).2).2) := by
  unfold TxfMove
  rw [if_neg h]
  rcases hT : TxfMoveWithTx env s w with ⟨bt, wt⟩
  cases bt
  · simp only []
    rcases h1 : MoveFileEx env.moveFileEx1 s.m_strTemp s.m_strTxfMidFallback wt with ⟨b1, w1⟩
    cases b1
    · simp
    · simp only []
      rcases h2 : MoveFileEx env.moveFileEx2 s.m_strTxfMidFallback s.m_strBase w1 with ⟨b2, w2⟩
      cases b2 <;> simp
  · simp

theorem TxfMove_emits (env : CommitEnv) (s : CFileTransactionEx) (b : Bool) (w : World) :
    Emits (fun c => c.isSimpleReplace = false) w (TxfMove env s b w).2.2 := by
  by_cases h : s.m_strTxfMidFallback.length = 0
  · rw [TxfMove_mid_empty env s b w h]; exact Emits.erefl _ _
  · have h0 := TxfMoveWithTx_emits env s w
    have h1 := h0.etrans (MoveFileEx_emits env.moveFileEx1 s.m_strTemp s.m_strTxfMidFallback _)
    have h2 := h1.etrans (MoveFileEx_emits env.moveFileEx2 s.m_strTxfMidFallback s.m_strBase _)
    rw [TxfMove_eq env s b w h]
    split_ifs
    · exact h0
    · exact h2
    · exact h2
    · exact h1

theorem TxfMove_files_of_true (env : CommitEnv) (s : CFileTransactionEx) (b : Bool) (w : World)
    (h : (TxfMove env s b w).1 = true) :
    ∃ f, w.files s.m_strTemp = some f ∧ (TxfMove env s b w).2.2.files s.m_strBase = some f ∧
      (s.m_strTemp ≠ s.m_strBase → (TxfMove env s b w).2.2.files s.m_strTemp = none) := by
  by_cases hM : s.m_strTxfMidFallback.length = 0
  · rw [TxfMove_mid_empty env s b w hM] at h; simp at h
  · rw [TxfMove_eq env s b w hM] at h ⊢
    split_ifs at h ⊢ with hT h1 h2
    · obtain ⟨f, hf, hfiles⟩ := TxfMoveWithTx_files_of_true env s w hT
      refine ⟨f, hf, ?_, ?_⟩
      · simp [hfiles, World.rename]
      · intro hne; simp [hfiles, World.rename, hne]
    · have hT2 := TxfMoveWithTx_files_of_false env s w (by simpa using hT)
      obtain ⟨f, hf, hfiles⟩ := MoveFileEx_files_of_true _ _ _ _ h1
      obtain ⟨f2, hf2, hfiles2⟩ := MoveFileEx_files_of_true _ _ _ _ h2
      rw [hT2] at hf
      have e : f2 = f := by
        rw [hfiles] at hf2
        simpa [World.rename] using hf2.symm
      subst e
      refine ⟨f2, hf, ?_, ?_⟩
      · simp [hfiles2, World.rename]
      · intro hne
        simp only [hfiles2, World.rename, hfiles, hT2, if_neg hne]
        by_cases hm : s.m_strTemp = s.m_strTxfMidFallback
        · simp [hm]
        · simp [hm]

theorem TxfMove_files_of_false (env : CommitEnv) (s : CFileTransactionEx) (b : Bool) (w : World)
    (h : (TxfMove env s b w).1 = false)
    (hop : Call.MoveFileEx s.m_strTxfMidFallback s.m_strBase ∉
      callsSince w (TxfMove env s b w).2.2) :
    (TxfMove env s b w).2.2.files = w.files := by
  by_cases hM : s.m_strTxfMidFallback.length = 0
  · rw [TxfMove_mid_empty env s b w hM]
  · rw [TxfMove_eq env s b w hM] at h hop ⊢
    split_ifs at h hop ⊢ with hT h1 h2
    · exfalso
      apply hop
      obtain ⟨l, hl, _⟩ := (TxfMoveWithTx_emits env s w).etrans
        (MoveFileEx_emits env.moveFileEx1 s.m_strTemp s.m_strTxfMidFallback _)
      simp [callsSince, MoveFileEx_trace env.moveFileEx2, hl]
    · have hT2 := TxfMoveWithTx_files_of_false env s w (by simpa using hT)
      rw [MoveFileEx_files_of_false _ _ _ _ (by simpa using h1), hT2]

theorem callsSince_subset {P Q R : Call → Prop} {w w1 w2 w3 : World} (h1 : Emits P w w1)
    (h2 : Emits Q w1 w2) (h3 : Emits R w2 w3) :
    ∀ c ∈ callsSince w1 w2, c ∈ callsSince w w3 := by
  obtain ⟨l1, e1, _⟩ := h1
  obtain ⟨l2, e2, _⟩ := h2
  obtain ⟨l3, e3, _⟩ := h3
  intro c hc
  have hc2 : c ∈ l2 := by simpa [callsSince, e2] using hc
  have e : w3.trace = w.trace ++ (l1 ++ (l2 ++ l3)) := by
    rw [e3, e2, e1]; simp [List.append_assoc]
  simp only [callsSince, e, List.drop_left, List.mem_append]
  exact Or.inr (Or.inl hc2)

theorem DeleteFile_emits (P : Call → Prop) (fault : Fault) (p : String) (w : World)
    (h : P (.DeleteFile p)) : Emits P w (DeleteFile fault p w).2 := by
  unfold DeleteFile
  split <;> exact Emits.etrans (Emits.record w h) (Emits.of_trace rfl)

theorem MoveFile_emits (P : Call → Prop) (fault : Fault) (src dst : String) (w : World)
    (h : P (.MoveFile src dst)) : Emits P w (MoveFile fault src dst w).2 := by
  unfold MoveFile
  split <;> exact Emits.etrans (Emits.record w h) (Emits.of_trace rfl)

theorem DeleteFile_files_of_false (fault : Fault) (p : String) (w : World)
    (h : (DeleteFile fault p w).1 = false) : (DeleteFile fault p w).2.files = w.files := by
  unfold DeleteFile at h ⊢
  split <;> simp_all [World.record, World.SetLastError]

theorem DeleteFile_files_of_true (fault : Fault) (p : String) (w : World)
    (h : (DeleteFile fault p w).1 = true) :
    (DeleteFile fault p w).2.files = (w.remove p).files := by
  unfold DeleteFile at h ⊢
  split <;> simp_all [World.record, World.SetLastError, World.remove]

theorem MoveFile_files_of_false (fault : Fault) (src dst : String) (w : World)
    (h : (MoveFile fault src dst w).1 = false) : (MoveFile fault src dst w).2.files = w.files := by
  unfold MoveFile at h ⊢
  split <;> simp_all [World.record, World.SetLastError]

theorem MoveFile_files_of_true (fault : Fault) (src dst : String) (w : World)
    (h : (MoveFile fault src dst w).1 = true) :
    ∃ f, w.files src = some f ∧ w.files dst = none ∧
      (MoveFile fault src dst w).2.files = (w.rename src dst f).files := by
  unfold MoveFile at h ⊢
  split <;> simp_all [World.record, World.SetLastError, World.rename]

theorem bool_pair_eta {α : Type} (x : Bool × α) :
    (if x.1 = false then (false, x.2) else (true, x.2)) = x := by
  rcases x with ⟨b, a⟩
  cases b <;> rfl

theorem replaceStep_eq (env : CommitEnv) (s : CFileTransactionEx) (bAttrib : Bool) (w : World) :
    replaceStep env s bAttrib w =
      if (TxfMove env s false w).1 then (true, (TxfMove env s false w).2.2)
      else if (TxfMove env s false w).2.1 then (false, (TxfMove env s false w).2.2)
      else if bAttrib then
        if (DeleteFile env.deleteFile s.m_strBase (TxfMove env s false w).2.2).1 then
          MoveFile env.moveFile s.m_strTemp s.m_strBase
            (DeleteFile env.deleteFile s.m_strBase (TxfMove env s false w).2.2).2
        else (false, (DeleteFile env.deleteFile s.m_strBase (TxfMove env s false w).2.2).2)
      else MoveFile env.moveFile s.m_strTemp s.m_strBase (TxfMove env s false w).2.2 := by
  unfold replaceStep
  rcases hT : TxfMove env s false w with ⟨bt, bf, wt⟩
  cases bt <;> cases bf <;> cases bAttrib <;> simp only [] <;> split_ifs <;>
    simp_all [bool_pair_eta]

theorem TxfMove_nonfatal (env : CommitEnv) (s : CFileTransactionEx) (w : World)
    (h1 : (TxfMove env s false w).1 = false) (h2 : (TxfMove env s false w).2.1 = false) :
    s.m_strTxfMidFallback.length = 0 ∧ TxfMove env s false w = (false, false, w) := by
  by_cases hM : s.m_strTxfMidFallback.length = 0
  · exact ⟨hM, TxfMove_mid_empty env s false w hM⟩
  · exfalso
    rw [TxfMove_eq env s false w hM] at h1 h2
    split_ifs at h1 h2

theorem replaceStep_files_of_true (env : CommitEnv) (s : CFileTransactionEx) (bAttrib : Bool)
    (w : World) (h : (replaceStep env s bAttrib w).1 = true) :
    ∃ f, w.files s.m_strTemp = some f ∧ (replaceStep env s bAttrib w).2.files s.m_strBase = some f ∧
      (s.m_strTemp ≠ s.m_strBase → (replaceStep env s bAttrib w).2.files s.m_strTemp = none) := by
  rw [replaceStep_eq] at h ⊢
  split_ifs at h ⊢ with hT hF hA hD
  · exact TxfMove_files_of_true env s false w hT
  · obtain ⟨_, hw⟩ := TxfMove_nonfatal env s w (by simpa using hT) (by simpa using hF)
    rw [hw] at hD h ⊢
    obtain ⟨f, hf, _, hfiles⟩ := MoveFile_files_of_true _ _ _ _ h
    rw [DeleteFile_files_of_true _ _ _ hD] at hf
    have hne : s.m_strTemp ≠ s.m_strBase := by
      intro e; simp [World.remove, e] at hf
    have hf2 : w.files s.m_strTemp = some f := by simpa [World.remove, hne] using hf
    refine ⟨f, hf2, ?_, ?_⟩
    · simp [hfiles, World.rename]
    · intro _; simp [hfiles, World.rename, hne]
  · obtain ⟨_, hw⟩ := TxfMove_nonfatal env s w (by simpa using hT) (by simpa using hF)
    rw [hw] at h ⊢
    obtain ⟨f, hf, _, hfiles⟩ := MoveFile_files_of_true _ _ _ _ h
    refine ⟨f, hf, ?_, ?_⟩
    · simp [hfiles, World.rename]
    · intro hne; simp [hfiles, World.rename, hne]

theorem replaceStep_emits_any (env : CommitEnv) (s : CFileTransactionEx) (bAttrib : Bool)
    (w : World) :
    Emits (fun _ => True) (TxfMove env s false w).2.2 (replaceStep env s bAttrib w).2 := by
  rw [replaceStep_eq]
  split_ifs
  · exact Emits.erefl _ _
  · exact Emits.erefl _ _
  · exact (DeleteFile_emits _ _ _ _ trivial).etrans (MoveFile_emits _ _ _ _ _ trivial)
  · exact DeleteFile_emits _ _ _ _ trivial
  · exact MoveFile_emits _ _ _ _ _ trivial

theorem replaceStep_files_of_false (env : CommitEnv) (s : CFileTransactionEx) (bAttrib : Bool)
    (w : World) (h : (replaceStep env s bAttrib w).1 = false)
    (hop : Call.MoveFileEx s.m_strTxfMidFallback s.m_strBase ∉
      callsSince w (replaceStep env s bAttrib w).2) :
    (∀ q, q ≠ s.m_strBase → (replaceStep env s bAttrib w).2.files q = w.files q) ∧
    ((replaceStep env s bAttrib w).2.files s.m_strBase = w.files s.m_strBase ∨
      (replaceStep env s bAttrib w).2.files s.m_strBase = none) := by
  have hop2 : Call.MoveFileEx s.m_strTxfMidFallback s.m_strBase ∉
      callsSince w (TxfMove env s false w).2.2 := fun hc =>
    hop (callsSince_subset (Emits.erefl (fun _ => True) w)
      (TxfMove_emits env s false w) (replaceStep_emits_any env s bAttrib w) _ hc)
  rw [replaceStep_eq] at h ⊢
  split_ifs at h ⊢ with hT hF hA hD
  · rw [TxfMove_files_of_false env s false w (by simpa using hT) hop2]
    exact ⟨fun _ _ => rfl, Or.inl rfl⟩
  · obtain ⟨_, hw⟩ := TxfMove_nonfatal env s w (by simpa using hT) (by simpa using hF)
    rw [hw] at hD h ⊢
    rw [MoveFile_files_of_false _ _ _ _ h, DeleteFile_files_of_true _ _ _ hD]
    refine ⟨fun q hq => by simp [World.remove, hq], Or.inr (by simp [World.remove])⟩
  · obtain ⟨_, hw⟩ := TxfMove_nonfatal env s w (by simpa using hT) (by simpa using hF)
    rw [hw] at hD ⊢
    rw [DeleteFile_files_of_false _ _ _ (by simpa using hD)]
    exact ⟨fun _ _ => rfl, Or.inl rfl⟩
  · obtain ⟨_, hw⟩ := TxfMove_nonfatal env s w (by simpa using hT) (by simpa using hF)
    rw [hw] at h ⊢
    rw [MoveFile_files_of_false _ _ _ _ h]
    exact ⟨fun _ _ => rfl, Or.inl rfl⟩

theorem restoreSteps_keeps (env : CommitEnv) (s : CFileTransactionEx) (otCreation : Option Nat)
    (dwAttrib : Option FileInfo) (pAcl : Option Nat) (bMadeUnhidden : Bool) (w : World) :
    Keeps FileInfo.content s.m_strBase w
      (restoreSteps env s otCreation dwAttrib pAcl bMadeUnhidden w) := by
  unfold restoreSteps
  simp only []
  have k1 : ∀ w1 : World, Keeps FileInfo.content s.m_strBase w1
      (match otCreation with
        | some t => (SetFileCreationTime env.setCreationTime s.m_strBase t w1).2
        | none => w1) := by
    intro w1
    split
    · exact keeps_SetFileCreationTime (g := FileInfo.content) (fun _ _ => rfl) _ _ _ _
    · exact Keeps.krefl _ _ _
  have k2 : ∀ w1 : World, Keeps FileInfo.content s.m_strBase w1
      (match dwAttrib with
        | some a => if a.encrypted then (EncryptFile env.encrypt s.m_strBase w1).2 else w1
        | none => w1) := by
    intro w1
    split
    · split
      · exact keeps_EncryptFile (g := FileInfo.content) (fun _ _ => rfl) _ _ _
      · exact Keeps.krefl _ _ _
    · exact Keeps.krefl _ _ _
  have k3 : ∀ w1 : World, Keeps FileInfo.content s.m_strBase w1
      (match pAcl with
        | some acl => (SetNamedSecurityInfo env.setSecurity s.m_strBase acl w1).2
        | none => w1) := by
    intro w1
    split
    · exact keeps_SetNamedSecurityInfo (g := FileInfo.content) (fun _ _ => rfl) _ _ _ _
    · exact Keeps.krefl _ _ _
  have k123 := ((k1 w).ktrans (k2 _)).ktrans (k3 _)
  split
  · exact k123.ktrans (keeps_HideFile (g := FileInfo.content) (fun _ _ => rfl) _ _ _ _)
  · exact k123

theorem CommitWriteTransaction_eq (env : CommitEnv) (s : CFileTransactionEx) (w : World) :
    CommitWriteTransaction env s w =
      if (replaceStep env
          { s with m_pSec := (captureStep env s w).2.2.2.1.or s.m_pSec }
          (captureStep env s w).2.1.isSome (captureStep env s w).2.2.2.2).1
      then (true,
        { s with m_pSec := (captureStep env s w).2.2.2.1.or s.m_pSec },
        restoreSteps env
          { s with m_pSec := (captureStep env s w).2.2.2.1.or s.m_pSec }
          (captureStep env s w).2.2.1 (captureStep env s w).2.1 (captureStep env s w).2.2.2.1
          (captureStep env s w).1
          (replaceStep env
            { s with m_pSec := (captureStep env s w).2.2.2.1.or s.m_pSec }
            (captureStep env s w).2.1.isSome (captureStep env s w).2.2.2.2).2)
      else (false,
        { s with m_pSec := (captureStep env s w).2.2.2.1.or s.m_pSec },
        (replaceStep env
          { s with m_pSec := (captureStep env s w).2.2.2.1.or s.m_pSec }
          (captureStep env s w).2.1.isSome (captureStep env s w).2.2.2.2).2) := by
  unfold CommitWriteTransaction
  rcases hc : captureStep env s w with ⟨b, dw, ot, acl, wc⟩
  simp only []
  rcases hr : replaceStep env _ dw.isSome wc with ⟨r, wr⟩
  cases r <;> simp

theorem CommitWriteTransaction_files_of_true (env : CommitEnv) (s : CFileTransactionEx)
    (w : World) (h : (CommitWriteTransaction env s w).1 = true) :
    ∃ f, w.files s.m_strTemp = some f ∧
      ((CommitWriteTransaction env s w).2.2.files s.m_strBase).map FileInfo.content
        = some f.content ∧
      (s.m_strTemp ≠ s.m_strBase →
        (CommitWriteTransaction env s w).2.2.files s.m_strTemp = none) := by
  rw [CommitWriteTransaction_eq] at h ⊢
  split_ifs at h ⊢ with hr
  obtain ⟨f1, hf1, hb, ht⟩ := replaceStep_files_of_true _ _ _ _ hr
  have kc := (captureStep_keeps env s w).content_of_core
  have kr := restoreSteps_keeps env
    { s with m_pSec := (captureStep env s w).2.2.2.1.or s.m_pSec }
    (captureStep env s w).2.2.1 (captureStep env s w).2.1 (captureStep env s w).2.2.2.1
    (captureStep env s w).1
    (replaceStep env
      { s with m_pSec := (captureStep env s w).2.2.2.1.or s.m_pSec }
      (captureStep env s w).2.1.isSome (captureStep env s w).2.2.2.2).2
  have h1 := (kc s.m_strTemp).2
  simp only [] at hf1 hb ht
  rw [hf1] at h1
  cases hf : w.files s.m_strTemp with
  | none => simp [hf] at h1
  | some f =>
    simp only [hf, Option.map_some', Option.some.injEq] at h1
    refine ⟨f, rfl, ?_, ?_⟩
    · have h2 := (kr s.m_strBase).2
      simp only [] at h2
      rw [h2, hb, Option.map_some', h1]
    · intro hne
      have h3 := (kr s.m_strTemp).1 hne
      simp only [] at h3
      rw [h3]
      exact ht hne

theorem replaceStep_emits_all (env : CommitEnv) (s : CFileTransactionEx) (bAttrib : Bool)
    (w : World) : Emits (fun _ => True) w (replaceStep env s bAttrib w).2 :=
  ((TxfMove_emits env s false w).mono (fun _ _ => trivial)).etrans
    (replaceStep_emits_any env s bAttrib w)

theorem CommitWriteTransaction_files_of_false (env : CommitEnv) (s : CFileTransactionEx)
    (w : World) (h : (CommitWriteTransaction env s w).1 = false)
    (hop : Call.MoveFileEx s.m_strTxfMidFallback s.m_strBase ∉
      callsSince w (CommitWriteTransaction env s w).2.2) :
    (∀ q, q ≠ s.m_strBase → (CommitWriteTransaction env s w).2.2.files q = w.files q) ∧
    (((CommitWriteTransaction env s w).2.2.files s.m_strBase).map FileInfo.core
        = (w.files s.m_strBase).map FileInfo.core ∨
      (CommitWriteTransaction env s w).2.2.files s.m_strBase = none) := by
  rw [CommitWriteTransaction_eq] at h hop ⊢
  split_ifs at h hop ⊢ with hr
  have kc := captureStep_keeps env s w
  have hop2 := fun hc => hop (callsSince_subset (captureStep_emits env s w)
    (replaceStep_emits_all env
      { s with m_pSec := (captureStep env s w).2.2.2.1.or s.m_pSec }
      (captureStep env s w).2.1.isSome (captureStep env s w).2.2.2.2)
    (Emits.erefl (fun _ => True) _) _ hc)
  obtain ⟨ho, hb⟩ := replaceStep_files_of_false env
    { s with m_pSec := (captureStep env s w).2.2.2.1.or s.m_pSec }
    (captureStep env s w).2.1.isSome (captureStep env s w).2.2.2.2 (by simpa using hr) hop2
  simp only [] at ho hb ⊢
  refine ⟨fun q hq => (ho q hq).trans ((kc q).1 hq), ?_⟩
  rcases hb with hb | hb
  · left; rw [hb]; exact (kc _).2
  · right; exact hb

theorem TxfMoveWithTx_fst_congr (env : CommitEnv) (s : CFileTransactionEx) (w w2 : World)
    (h : (w2.files s.m_strTemp).isSome = (w.files s.m_strTemp).isSome) :
    (TxfMoveWithTx env s w2).1 = (TxfMoveWithTx env s w).1 := by
  have h1 := TxfMoveWithTx_fst env s w
  have h2 := TxfMoveWithTx_fst env s w2
  rw [h] at h2
  cases hb : (TxfMoveWithTx env s w).1 <;> cases hb2 : (TxfMoveWithTx env s w2).1 <;> simp_all

theorem TxfMove_first_hop_fatal (env : CommitEnv) (s : CFileTransactionEx) (b : Bool) (w : World)
    (hM : s.m_strTxfMidFallback.length ≠ 0) (hTx : (TxfMoveWithTx env s w).1 = false)
    (h1 : env.moveFileEx1 ≠ none ∨ w.files s.m_strTemp = none) :
    (TxfMove env s b w).1 = false ∧ (TxfMove env s b w).2.1 = true ∧
      (TxfMove env s b w).2.2.files = w.files := by
  have hf := TxfMoveWithTx_files_of_false env s w hTx
  have hh : (MoveFileEx env.moveFileEx1 s.m_strTemp s.m_strTxfMidFallback
      (TxfMoveWithTx env s w).2).1 = false := by
    cases hx : (MoveFileEx env.moveFileEx1 s.m_strTemp s.m_strTxfMidFallback
      (TxfMoveWithTx env s w).2).1
    · rfl
    · rw [MoveFileEx_fst, hf] at hx
      rcases h1 with h1 | h1
      · exact absurd hx.1 h1
      · simp [h1] at hx
  rw [TxfMove_eq env s b w hM]
  simp only [hTx, hh, Bool.false_eq_true, if_false, true_and]
  rw [MoveFileEx_files_of_false _ _ _ _ hh, hf]

theorem TxfMove_second_hop (env : CommitEnv) (s : CFileTransactionEx) (b : Bool) (w : World)
    (hM : s.m_strTxfMidFallback.length ≠ 0) (hTx : (TxfMoveWithTx env s w).1 = false)
    (hSrc : (w.files s.m_strTemp).isSome = true) (h1 : env.moveFileEx1 = none) :
    (env.moveFileEx2 ≠ none →
      (TxfMove env s b w).1 = false ∧ (TxfMove env s b w).2.1 = true) ∧
    (env.moveFileEx2 = none → (TxfMove env s b w).1 = true) := by
  have hf := TxfMoveWithTx_files_of_false env s w hTx
  have hh : (MoveFileEx env.moveFileEx1 s.m_strTemp s.m_strTxfMidFallback
      (TxfMoveWithTx env s w).2).1 = true := by
    rw [MoveFileEx_fst, hf]; exact ⟨h1, hSrc⟩
  obtain ⟨f, _, hfiles⟩ := MoveFileEx_files_of_true _ _ _ _ hh
  have h2 : (MoveFileEx env.moveFileEx2 s.m_strTxfMidFallback s.m_strBase
      (MoveFileEx env.moveFileEx1 s.m_strTemp s.m_strTxfMidFallback
        (TxfMoveWithTx env s w).2).2).1 = true ↔ env.moveFileEx2 = none := by
    rw [MoveFileEx_fst, hfiles]
    simp [World.rename]
  rw [TxfMove_eq env s b w hM]
  simp only [hTx, hh, Bool.false_eq_true, if_false, if_true]
  constructor
  · intro hne
    have : ¬ (MoveFileEx env.moveFileEx2 s.m_strTxfMidFallback s.m_strBase
      (MoveFileEx env.moveFileEx1 s.m_strTemp s.m_strTxfMidFallback
        (TxfMoveWithTx env s w).2).2).1 = true := fun hx => hne (h2.mp hx)
    simp [this]
  · intro he
    simp [h2.mpr he]

theorem CommitWriteTransaction_fatal (env : CommitEnv) (s : CFileTransactionEx) (w : World)
    (h : ∀ w2 : World, (w2.files s.m_strTemp).isSome = (w.files s.m_strTemp).isSome →
      (TxfMove env s false w2).1 = false ∧ (TxfMove env s false w2).2.1 = true) :
    (CommitWriteTransaction env s w).1 = false ∧
      Emits (fun c => c.isSimpleReplace = false) w (CommitWriteTransaction env s w).2.2 := by
  have kc := captureStep_keeps env s w
  obtain ⟨hT1, hT2⟩ := h _ (kc.isSome s.m_strTemp)
  have hr : replaceStep env { s with m_pSec := (captureStep env s w).2.2.2.1.or s.m_pSec }
      (captureStep env s w).2.1.isSome (captureStep env s w).2.2.2.2 =
      (false, (TxfMove env s false (captureStep env s w).2.2.2.2).2.2) := by
    rw [replaceStep_eq]
    have e : TxfMove env { s with m_pSec := (captureStep env s w).2.2.2.1.or s.m_pSec } false
        (captureStep env s w).2.2.2.2 = TxfMove env s false (captureStep env s w).2.2.2.2 := rfl
    rw [e]
    simp [hT1, hT2]
  rw [CommitWriteTransaction_eq, hr]
  simp only [Bool.false_eq_true, if_false, true_and]
  exact (captureStep_emits env s w).etrans (TxfMove_emits env s false _)

theorem CommitWrite_transacted (env : CommitEnv) (s : CFileTransactionEx) (w : World)
    (hT : s.m_bTransacted = true) (hB : s.m_strBase.length ≠ 0) :
    (CommitWrite env s w).1 = (CommitWriteTransaction env s w).1 ∧
    (CommitWrite env s w).2.2 = (CommitWriteTransaction env s w).2.2 := by
  unfold CommitWrite
  simp [hT, hB]

theorem CommitWriteTransaction_of_moved (env : CommitEnv) (s : CFileTransactionEx) (w : World)
    (h : ∀ w2 : World, (w2.files s.m_strTemp).isSome = (w.files s.m_strTemp).isSome →
      (TxfMove env s false w2).1 = true) :
    (CommitWriteTransaction env s w).1 = true := by
  have kc := captureStep_keeps env s w
  have hT := h _ (kc.isSome s.m_strTemp)
  have hr : (replaceStep env { s with m_pSec := (captureStep env s w).2.2.2.1.or s.m_pSec }
      (captureStep env s w).2.1.isSome (captureStep env s w).2.2.2.2).1 = true := by
    rw [replaceStep_eq]
    have e : TxfMove env { s with m_pSec := (captureStep env s w).2.2.2.1.or s.m_pSec } false
        (captureStep env s w).2.2.2.2 = TxfMove env s false (captureStep env s w).2.2.2.2 := rfl
    rw [e]
    simp [hT]
  rw [CommitWriteTransaction_eq]
  simp [hr]

theorem TxfMoveWithTx_commit_fails (env : CommitEnv) (s : CFileTransactionEx) (w : World)
    (f : FileInfo) (c : Nat) (hf : w.files s.m_strTemp = some f)
    (hCreate : env.createTransaction = none) (hMove : env.moveFileTransacted = none)
    (hCommit : env.commitTransaction = some c) :
    (TxfMoveWithTx env s w).1 = false ∧ (TxfMoveWithTx env s w).2.files = w.files ∧
    (TxfMoveWithTx env s w).2.trace = w.trace ++
      [Call.CreateTransaction (txDescription env.newId),
       Call.MoveFileTransacted s.m_strTemp s.m_strBase, Call.CommitTransaction,
       Call.CloseHandle] := by
  have hf2 : ((w.record (Call.CreateTransaction (txDescription env.newId))).record
      (Call.MoveFileTransacted s.m_strTemp s.m_strBase)).files s.m_strTemp = some f := hf
  unfold TxfMoveWithTx
  simp only [hCreate, hMove, hCommit, hf2]
  refine ⟨trivial, ?_, ?_⟩
  · rw [TxfClosePrsv_files]; rfl
  · rw [TxfClosePrsv_trace]; simp [World.record, World.SetLastError]

/-! ## The constructor and what the operations leave alone -/

theorem TxfPrepareStage_frame (env : CtorEnv) (s : CFileTransactionEx) (w : World) :
    (TxfPrepareStage env s w).1.m_bTransacted = s.m_bTransacted ∧
    (TxfPrepareStage env s w).1.m_strBase = s.m_strBase ∧
    ((TxfPrepareStage env s w).1.m_strTemp = s.m_strTemp ∧
        (TxfPrepareStage env s w).1.m_strTxfMidFallback = s.m_strTxfMidFallback ∧
        (TxfPrepareStage env s w).1.m_vToDelete = s.m_vToDelete ∨
      ∃ dir, env.GetTempPath = .ok dir ∧
        (TxfPrepareStage env s w).1.m_strTemp = TxfTempFile dir env.newId ∧
        (TxfPrepareStage env s w).1.m_strTxfMidFallback = s.m_strTemp ∧
        (TxfPrepareStage env s w).1.m_vToDelete = s.m_vToDelete ++ [TxfTempFile dir env.newId]) := by
  unfold TxfPrepareStage
  simp only []
  split
  · simp
  · rename_i dir hdir
    split_ifs
    all_goals first
      | exact ⟨rfl, rfl, Or.inl ⟨rfl, rfl, rfl⟩⟩
      | exact ⟨rfl, rfl, Or.inr ⟨dir, hdir, rfl, rfl, rfl⟩⟩

theorem TxfPrepare_frame (env : CtorEnv) (s : CFileTransactionEx) (w : World) :
    (TxfPrepare env s w).1.m_bTransacted = s.m_bTransacted ∧
    (TxfPrepare env s w).1.m_strBase = s.m_strBase ∧
    ((TxfPrepare env s w).1.m_strTemp = s.m_strTemp ∧
        (TxfPrepare env s w).1.m_strTxfMidFallback = s.m_strTxfMidFallback ∧
        (TxfPrepare env s w).1.m_vToDelete = s.m_vToDelete ∨
      ∃ dir, env.GetTempPath = .ok dir ∧
        (TxfPrepare env s w).1.m_strTemp = TxfTempFile dir env.newId ∧
        (TxfPrepare env s w).1.m_strTxfMidFallback = s.m_strTemp ∧
        (TxfPrepare env s w).1.m_vToDelete = s.m_vToDelete ++ [TxfTempFile dir env.newId]) := by
  unfold TxfPrepare
  simp only []
  split_ifs
  all_goals first
    | exact ⟨rfl, rfl, Or.inl ⟨rfl, rfl, rfl⟩⟩
    | exact TxfPrepareStage_frame env _ _

theorem construct_none (env : CtorEnv) (bTransacted : Bool) (w : World) :
    construct env none bTransacted w = (initial bTransacted, w) := rfl

theorem construct_shape (env : CtorEnv) (lpBaseFile : String) (bTransacted : Bool) (w : World) :
    (construct env (some lpBaseFile) bTransacted w).1.m_strBase = fullBase env lpBaseFile ∧
    ((construct env (some lpBaseFile) bTransacted w).1.m_bTransacted = false ∧
        (construct env (some lpBaseFile) bTransacted w).1.m_strTemp = fullBase env lpBaseFile ∧
        (construct env (some lpBaseFile) bTransacted w).1.m_strTxfMidFallback = "" ∧
        (construct env (some lpBaseFile) bTransacted w).1.m_vToDelete = [] ∨
      (construct env (some lpBaseFile) bTransacted w).1.m_bTransacted = true ∧
        (w.files (fullBase env lpBaseFile)).isSome = true ∧
        ((construct env (some lpBaseFile) bTransacted w).1.m_strTemp
              = fullBase env lpBaseFile ++ g_lpTempSuffix ∧
            (construct env (some lpBaseFile) bTransacted w).1.m_strTxfMidFallback = "" ∧
            (construct env (some lpBaseFile) bTransacted w).1.m_vToDelete = [] ∨
          ∃ dir, env.GetTempPath = .ok dir ∧
            (construct env (some lpBaseFile) bTransacted w).1.m_strTemp
              = TxfTempFile dir env.newId ∧
            (construct env (some lpBaseFile) bTransacted w).1.m_strTxfMidFallback
              = fullBase env lpBaseFile ++ g_lpTempSuffix ∧
            (construct env (some lpBaseFile) bTransacted w).1.m_vToDelete
              = [TxfTempFile dir env.newId])) := by
  have hG : ∀ w2 : World, w2.files = w.files →
      (GetFileAttributes (fullBase env lpBaseFile) w2).1 = w.files (fullBase env lpBaseFile) := by
    intro w2 h
    rw [GetFileAttributes_fst, h]
  have hG2 := hG (match env.GetFullPathName lpBaseFile with
      | .error c => w.SetLastError c
      | .ok _ => w) (by cases env.GetFullPathName lpBaseFile <;> rfl)
  unfold construct
  simp only [initial]
  rw [hG2]
  cases hf : w.files (fullBase env lpBaseFile) with
  | none => simp
  | some a =>
    by_cases hR : a.reparsePoint = true
    · simp [hR]
    · cases bTransacted
      · simp [hR]
      · simp only [hR, Bool.false_eq_true, if_false, if_true]
        obtain ⟨f1, f2, f3⟩ := TxfPrepare_frame env
          { m_bTransacted := true, m_strBase := fullBase env lpBaseFile,
            m_strTemp := fullBase env lpBaseFile ++ g_lpTempSuffix,
            m_strTxfMidFallback := "", m_bMadeUnhidden := false, m_pSec := none,
            m_hKernel32 := false, m_hKtmW32 := false, m_fnCreateTransaction := false,
            m_fnMoveFileTransacted := false, m_fnCommitTransaction := false,
            m_vToDelete := [] }
          (GetFileAttributes (fullBase env lpBaseFile)
            (match env.GetFullPathName lpBaseFile with
              | .error c => w.SetLastError c
              | .ok _ => w)).2
        refine ⟨f2, Or.inr ⟨f1, rfl, ?_⟩⟩
        rcases f3 with ⟨g1, g2, g3⟩ | ⟨dir, hdir, g1, g2, g3⟩
        · exact Or.inl ⟨g1, g2, g3⟩
        · exact Or.inr ⟨dir, hdir, g1, g2, by simpa using g3⟩

theorem append_suffix_ne (base : String) : base ++ g_lpTempSuffix ≠ base := by
  intro h
  have := congrArg String.length h
  simp [g_lpTempSuffix] at this
  exact absurd this (by decide)

theorem construct_working_ne_target (env : CtorEnv) (lpBaseFile : Option String)
    (bTransacted : Bool) (w : World) (hFresh : FreshTempName env w)
    (hT : (construct env lpBaseFile bTransacted w).1.m_bTransacted = true)
    (hB : (construct env lpBaseFile bTransacted w).1.m_strBase.length ≠ 0) :
    (construct env lpBaseFile bTransacted w).1.m_strTemp
      ≠ (construct env lpBaseFile bTransacted w).1.m_strBase := by
  cases lpBaseFile with
  | none => simp [construct_none, initial] at hB
  | some b =>
    obtain ⟨hb, hs⟩ := construct_shape env b bTransacted w
    rw [hb]
    rcases hs with ⟨h1, _⟩ | ⟨_, hex, h2 | ⟨dir, hdir, h2, _, _⟩⟩
    · rw [h1] at hT; exact absurd hT (by simp)
    · rw [h2.1]; exact append_suffix_ne _
    · rw [h2]
      intro e
      rw [← e, hFresh dir hdir] at hex
      simp at hex

theorem construct_target_not_pending (env : CtorEnv) (lpBaseFile : Option String)
    (bTransacted : Bool) (w : World) (hFresh : FreshTempName env w) :
    (construct env lpBaseFile bTransacted w).1.m_strBase
      ∉ (construct env lpBaseFile bTransacted w).1.m_vToDelete := by
  cases lpBaseFile with
  | none => simp [construct_none, initial]
  | some b =>
    obtain ⟨hb, hs⟩ := construct_shape env b bTransacted w
    rw [hb]
    rcases hs with ⟨_, _, _, h1⟩ | ⟨_, hex, h2 | ⟨dir, hdir, _, _, h2⟩⟩
    · simp [h1]
    · simp [h2.2.2]
    · rw [h2]
      intro e
      rw [List.mem_singleton] at e
      rw [e, hFresh dir hdir] at hex
      simp at hex

theorem construct_untransacted (env : CtorEnv) (lpBaseFile : Option String)
    (bTransacted : Bool) (w : World)
    (hT : (construct env lpBaseFile bTransacted w).1.m_bTransacted = false) :
    (construct env lpBaseFile bTransacted w).1.m_strTemp
      = (construct env lpBaseFile bTransacted w).1.m_strBase := by
  cases lpBaseFile with
  | none => simp [construct_none, initial]
  | some b =>
    obtain ⟨hb, hs⟩ := construct_shape env b bTransacted w
    rw [hb]
    rcases hs with ⟨_, h1, _⟩ | ⟨h1, _⟩
    · exact h1
    · rw [h1] at hT; exact absurd hT (by simp)

theorem OpenWrite_frame (fault : Fault) (s : CFileTransactionEx) (w : World) :
    (OpenWrite fault s w).2.2.1.m_bTransacted = s.m_bTransacted ∧
    (OpenWrite fault s w).2.2.1.m_strBase = s.m_strBase ∧
    (OpenWrite fault s w).2.2.1.m_strTemp = s.m_strTemp ∧
    (OpenWrite fault s w).2.2.1.m_strTxfMidFallback = s.m_strTxfMidFallback ∧
    (OpenWrite fault s w).2.2.1.m_vToDelete = s.m_vToDelete := by
  unfold OpenWrite
  split_ifs <;> simp

theorem OpenWrite_path (fault : Fault) (s : CFileTransactionEx) (w : World) :
    (OpenWrite fault s w).1 = decide (s.m_strBase.length ≠ 0) ∧
    ((OpenWrite fault s w).1 = true → (OpenWrite fault s w).2.1 = s.m_strTemp) := by
  unfold OpenWrite
  split_ifs <;> simp_all

theorem CommitWrite_eq (env : CommitEnv) (s : CFileTransactionEx) (w : World) :
    CommitWrite env s w =
      if s.m_strBase.length = 0 then (false, s, w.SetLastError ERROR_INVALID_HANDLE)
      else if s.m_bTransacted then
        ((CommitWriteTransaction env s w).1,
          { (CommitWriteTransaction env s w).2.1 with m_strBase := "", m_pSec := none },
          (CommitWriteTransaction env s w).2.2)
      else
        (true, { s with m_strBase := "", m_pSec := none },
          if s.m_bMadeUnhidden then (HideFile env.hide s.m_strTemp true w).2 else w) := by
  unfold CommitWrite
  by_cases hB : s.m_strBase.length = 0
  · simp [hB]
  · cases hT : s.m_bTransacted <;> simp [hB, hT]

theorem CommitWrite_frame (env : CommitEnv) (s : CFileTransactionEx) (w : World) :
    (CommitWrite env s w).2.1.m_bTransacted = s.m_bTransacted ∧
    ((CommitWrite env s w).2.1.m_strBase = s.m_strBase ∨
      (CommitWrite env s w).2.1.m_strBase = "") ∧
    (CommitWrite env s w).2.1.m_strTemp = s.m_strTemp ∧
    (CommitWrite env s w).2.1.m_strTxfMidFallback = s.m_strTxfMidFallback ∧
    (CommitWrite env s w).2.1.m_vToDelete = s.m_vToDelete := by
  rw [CommitWrite_eq]
  by_cases hB : s.m_strBase.length = 0
  · simp [hB]
  · cases hT : s.m_bTransacted
    · simp [hB]
    · simp only [hB, if_false, if_true]
      rw [CommitWriteTransaction_eq]
      split_ifs <;> simp [hT]

theorem destruct_frame (env : DtorEnv) (s : CFileTransactionEx) (w : World) :
    (destruct env s w).1.m_bTransacted = s.m_bTransacted ∧
    (destruct env s w).1.m_strBase = s.m_strBase ∧
    (destruct env s w).1.m_strTemp = s.m_strTemp ∧
    (destruct env s w).1.m_strTxfMidFallback = s.m_strTxfMidFallback ∧
    (destruct env s w).1.m_vToDelete = [] := by
  cases h1 : s.m_hKtmW32 <;> cases h2 : s.m_hKernel32 <;> simp [destruct, h1, h2]

end CFileTransactionEx

/-- What a step leaves alone in the session: the mode and the working and
intermediate paths stay, the target path stays or is disposed, and the
pending-deletion list stays or is emptied. -/
theorem Op.apply_frame (op : Op) (st : CFileTransactionEx × World) :
    (op.apply st).1.m_bTransacted = st.1.m_bTransacted ∧
    ((op.apply st).1.m_strBase = st.1.m_strBase ∨ (op.apply st).1.m_strBase = "") ∧
    (op.apply st).1.m_strTemp = st.1.m_strTemp ∧
    (op.apply st).1.m_strTxfMidFallback = st.1.m_strTxfMidFallback ∧
    ((op.apply st).1.m_vToDelete = st.1.m_vToDelete ∨ (op.apply st).1.m_vToDelete = []) := by
  rcases st with ⟨s, w⟩
  cases op with
  | openWrite fault =>
    obtain ⟨h1, h2, h3, h4, h5⟩ := CFileTransactionEx.OpenWrite_frame fault s w
    exact ⟨h1, Or.inl h2, h3, h4, Or.inl h5⟩
  | commitWrite env =>
    obtain ⟨h1, h2, h3, h4, h5⟩ := CFileTransactionEx.CommitWrite_frame env s w
    exact ⟨h1, h2, h3, h4, Or.inl h5⟩
  | destroy env =>
    obtain ⟨h1, h2, h3, h4, h5⟩ := CFileTransactionEx.destruct_frame env s w
    exact ⟨h1, Or.inl h2, h3, h4, Or.inr h5⟩
  | write path content fresh =>
    exact ⟨rfl, Or.inl rfl, rfl, rfl, Or.inl rfl⟩

theorem runOps_frame (ops : List Op) (st : CFileTransactionEx × World) :
    (runOps ops st).1.m_bTransacted = st.1.m_bTransacted ∧
    ((runOps ops st).1.m_strBase = st.1.m_strBase ∨ (runOps ops st).1.m_strBase = "") ∧
    (runOps ops st).1.m_strTemp = st.1.m_strTemp ∧
    (runOps ops st).1.m_strTxfMidFallback = st.1.m_strTxfMidFallback ∧
    ((runOps ops st).1.m_vToDelete = st.1.m_vToDelete ∨ (runOps ops st).1.m_vToDelete = []) := by
  induction ops generalizing st with
  | nil => exact ⟨rfl, Or.inl rfl, rfl, rfl, Or.inl rfl⟩
  | cons op rest ih =>
    obtain ⟨a1, a2, a3, a4, a5⟩ := Op.apply_frame op st
    obtain ⟨b1, b2, b3, b4, b5⟩ := ih (op.apply st)
    have e : runOps (op :: rest) st = runOps rest (op.apply st) := rfl
    rw [e]
    refine ⟨b1.trans a1, ?_, b3.trans a3, b4.trans a4, ?_⟩
    · rcases b2 with b2 | b2
      · rcases a2 with a2 | a2
        · exact Or.inl (b2.trans a2)
        · exact Or.inr (b2.trans a2)
      · exact Or.inr b2
    · rcases b5 with b5 | b5
      · rcases a5 with a5 | a5
        · exact Or.inl (b5.trans a5)
        · exact Or.inr (b5.trans a5)
      · exact Or.inr b5

namespace CFileTransactionEx

theorem CommitWrite_files_of_true (env : CommitEnv) (s : CFileTransactionEx) (w : World)
    (f : FileInfo) (hI : s.m_bTransacted = false → s.m_strTemp = s.m_strBase)
    (hf : w.files s.m_strTemp = some f) (h : (CommitWrite env s w).1 = true) :
    ((CommitWrite env s w).2.2.files s.m_strBase).map FileInfo.content = some f.content ∧
    (s.m_strTemp ≠ s.m_strBase → (CommitWrite env s w).2.2.files s.m_strTemp = none) := by
  rw [CommitWrite_eq] at h ⊢
  by_cases hB : s.m_strBase.length = 0
  · simp [hB] at h
  · cases hT : s.m_bTransacted
    · have e := hI hT
      simp only [hB, hT, if_false, Bool.false_eq_true]
      refine ⟨?_, fun hne => absurd e hne⟩
      rw [e] at hf
      split_ifs
      · have k := keeps_HideFile (g := FileInfo.content) (fun _ _ => rfl) env.hide
          s.m_strTemp true w
        rw [e] at k
        rw [e, (k s.m_strBase).2, hf]; rfl
      · rw [hf]; rfl
    · simp only [hB, hT, if_false, if_true] at h ⊢
      obtain ⟨f2, hf2, hc, hn⟩ := CommitWriteTransaction_files_of_true env s w h
      rw [hf] at hf2
      cases hf2
      exact ⟨hc, hn⟩

theorem callerWrite_content (p content : String) (fresh : FileInfo) (w : World) :
    ∃ f, (callerWrite p content fresh w).files p = some f ∧ f.content = content := by
  unfold callerWrite
  split <;> simp [World.put]

end CFileTransactionEx

theorem openAndWrite_eq (cenv : CtorEnv) (lpBaseFile : String) (bTransacted : Bool) (w : World)
    (fault : Fault) (content : String) (fresh : FileInfo) :
    openAndWrite cenv lpBaseFile bTransacted w fault content fresh =
      ((CFileTransactionEx.OpenWrite fault
          (CFileTransactionEx.construct cenv (some lpBaseFile) bTransacted w).1
          (CFileTransactionEx.construct cenv (some lpBaseFile) bTransacted w).2).1,
       (CFileTransactionEx.OpenWrite fault
          (CFileTransactionEx.construct cenv (some lpBaseFile) bTransacted w).1
          (CFileTransactionEx.construct cenv (some lpBaseFile) bTransacted w).2).2.1,
       (CFileTransactionEx.OpenWrite fault
          (CFileTransactionEx.construct cenv (some lpBaseFile) bTransacted w).1
          (CFileTransactionEx.construct cenv (some lpBaseFile) bTransacted w).2).2.2.1,
       callerWrite (CFileTransactionEx.OpenWrite fault
          (CFileTransactionEx.construct cenv (some lpBaseFile) bTransacted w).1
          (CFileTransactionEx.construct cenv (some lpBaseFile) bTransacted w).2).2.1
         content fresh
         (CFileTransactionEx.OpenWrite fault
          (CFileTransactionEx.construct cenv (some lpBaseFile) bTransacted w).1
          (CFileTransactionEx.construct cenv (some lpBaseFile) bTransacted w).2).2.2.2) := rfl

namespace CFileTransactionEx

/-! ## Missing targets and the destructor -/

theorem construct_files_of_missing (env : CtorEnv) (lpBaseFile : String) (bTransacted : Bool)
    (w : World) (hNo : w.files (fullBase env lpBaseFile) = none) :
    (construct env (some lpBaseFile) bTransacted w).2.files = w.files ∧
    (construct env (some lpBaseFile) bTransacted w).1.m_bMadeUnhidden = false ∧
    (construct env (some lpBaseFile) bTransacted w).1.m_bTransacted = false := by
  have hG : ∀ w2 : World, w2.files = w.files →
      GetFileAttributes (fullBase env lpBaseFile) w2
        = (none, w2.SetLastError ERROR_FILE_NOT_FOUND) := by
    intro w2 h
    simp [GetFileAttributes, h, hNo]
  simp only [construct, initial]
  rw [hG _ (by cases env.GetFullPathName lpBaseFile <;> rfl)]
  simp only [Bool.false_eq_true, if_false, and_self, and_true]
  cases env.GetFullPathName lpBaseFile <;> rfl

theorem OpenWrite_of_missing (fault : Fault) (s : CFileTransactionEx) (w : World)
    (hT : s.m_bTransacted = false) (hB : s.m_strBase.length ≠ 0)
    (hU : s.m_bMadeUnhidden = false) (hNo : w.files s.m_strTemp = none) :
    (OpenWrite fault s w).1 = true ∧ (OpenWrite fault s w).2.1 = s.m_strTemp ∧
    (OpenWrite fault s w).2.2.1.m_bMadeUnhidden = false ∧
    (OpenWrite fault s w).2.2.2.files = w.files := by
  simp [OpenWrite, hT, hB, hU, UnhideFile, GetFileAttributes, hNo, World.SetLastError]

theorem CommitWrite_untransacted (env : CommitEnv) (s : CFileTransactionEx) (w : World)
    (hT : s.m_bTransacted = false) (hB : s.m_strBase.length ≠ 0)
    (hU : s.m_bMadeUnhidden = false) :
    (CommitWrite env s w).1 = true ∧ (CommitWrite env s w).2.2 = w := by
  simp [CommitWrite_eq, hT, hB, hU]

theorem deletePending_files (fault : String → Fault) (l : List String) (w : World) (q : String)
    (hq : q ∉ l) : (deletePending fault l w).files q = w.files q := by
  induction l generalizing w with
  | nil => rfl
  | cons p rest ih =>
    have hne : q ≠ p := fun e => hq (by simp [e])
    have hr : q ∉ rest := fun e => hq (by simp [e])
    unfold deletePending
    have k1 := keeps_GetFileAttributes FileInfo.content p p w
    split
    · rename_i w1 he
      rw [he] at k1
      rw [ih _ hr]
      by_cases hd : (DeleteFile (fault p) p w1).1 = true
      · rw [DeleteFile_files_of_true _ _ _ hd]
        simp only [World.remove, if_neg hne]
        exact (k1 q).1 hne
      · rw [DeleteFile_files_of_false _ _ _ (by simpa using hd)]
        exact (k1 q).1 hne
    · rename_i w1 he
      rw [he] at k1
      rw [ih _ hr]
      exact (k1 q).1 hne

theorem FreeLibrary_files (fault : Fault) (name : String) (w : World) :
    (FreeLibrary fault name w).files = w.files := by
  unfold FreeLibrary
  split <;> rfl

theorem destruct_files (env : DtorEnv) (s : CFileTransactionEx) (w : World) (q : String)
    (hq : q ∉ s.m_vToDelete) : (destruct env s w).2.files q = w.files q := by
  cases h1 : s.m_hKtmW32 <;> cases h2 : s.m_hKernel32 <;>
    simp [destruct, h1, h2, World.SetLastError, deletePending_files _ _ _ _ hq,
      FreeLibrary_files]

theorem destruct_again (e1 e2 : DtorEnv) (s : CFileTransactionEx) (w : World) :
    (destruct e2 (destruct e1 s w).1 (destruct e1 s w).2).2.files
      = (destruct e1 s w).2.files := by
  funext q
  exact destruct_files e2 _ _ q (by rw [(destruct_frame e1 s w).2.2.2.2]; simp)

end CFileTransactionEx

open CFileTransactionEx

/-! ## The claims -/

/-- C3: in the two-hop fallback (the transactional move was rejected), when
the first hop succeeds and the second hop fails, `TxfMove` returns `false` with
the fatal flag set, `CommitWrite` returns `false`, and the commit makes no
`DeleteFile` and no `MoveFile` call, so the simple-replace fallback is not run.
Whether the transactional move and the first hop succeed depends only on the
injected faults and on the working file being there, which the steps before
them do not change; both are therefore stated on the world at entry.  The
second hop finds its source in place, so it fails exactly when a fault is
injected. -/
theorem C3_second_hop_failure_is_fatal (env : CommitEnv) (s : CFileTransactionEx) (w : World)
    (hT : s.m_bTransacted = true) (hB : s.m_strBase.length ≠ 0)
    (hM : s.m_strTxfMidFallback.length ≠ 0)
    (hTx : (TxfMoveWithTx env s w).1 = false)
    (hHop1 : (MoveFileEx env.moveFileEx1 s.m_strTemp s.m_strTxfMidFallback w).1 = true)
    (hHop2 : env.moveFileEx2 ≠ none) :
    (TxfMove env s false w).1 = false ∧ (TxfMove env s false w).2.1 = true ∧
    (CommitWrite env s w).1 = false ∧
    ∀ c ∈ callsSince w (CommitWrite env s w).2.2, c.isSimpleReplace = false := by
  obtain ⟨h1, hSrc⟩ := (MoveFileEx_fst _ _ _ _).mp hHop1
  have key : ∀ w2 : World, (w2.files s.m_strTemp).isSome = (w.files s.m_strTemp).isSome →
      (TxfMove env s false w2).1 = false ∧ (TxfMove env s false w2).2.1 = true := by
    intro w2 he
    exact (TxfMove_second_hop env s false w2 hM
      ((TxfMoveWithTx_fst_congr env s w w2 he).trans hTx) (he.trans hSrc) h1).1 hHop2
  obtain ⟨c1, c2⟩ := CommitWriteTransaction_fatal env s w key
  obtain ⟨e1, e2⟩ := CommitWrite_transacted env s w hT hB
  refine ⟨(key w rfl).1, (key w rfl).2, e1.trans c1, ?_⟩
  rw [e2]
  exact c2.callsSince

/-- Witness for C3 on the concrete scenario: the transaction cannot be created
and the second hop is made to fail. -/
theorem C3_second_hop_failure_is_fatal_witness :
    (CommitWrite { demoCommitEnv with createTransaction := some 6700, moveFileEx2 := some 5 }
      demoSession demoStaged).1 = false :=
  (C3_second_hop_failure_is_fatal
    { demoCommitEnv with createTransaction := some 6700, moveFileEx2 := some 5 }
    demoSession demoStaged (by decide) (by decide) (by decide) (by decide) (by decide)
    (by decide)).2.2.1

/-- C4, as the code has it: in the two-hop fallback (the transactional move was
rejected), when the first hop fails, `TxfMove` returns `false` with the fatal
flag set and leaves all files as they were, `CommitWrite` returns `false`, and
the commit makes no `DeleteFile` and no `MoveFile` call: the final fallback is
not run.  The outcomes of the transactional move and of the first hop are
stated on the world at entry, as in C3. -/
theorem C4_first_hop_failure_is_fatal (env : CommitEnv) (s : CFileTransactionEx) (w : World)
    (hT : s.m_bTransacted = true) (hB : s.m_strBase.length ≠ 0)
    (hM : s.m_strTxfMidFallback.length ≠ 0)
    (hTx : (TxfMoveWithTx env s w).1 = false)
    (hHop1 : (MoveFileEx env.moveFileEx1 s.m_strTemp s.m_strTxfMidFallback w).1 = false) :
    (TxfMove env s false w).1 = false ∧ (TxfMove env s false w).2.1 = true ∧
    (TxfMove env s false w).2.2.files = w.files ∧
    (CommitWrite env s w).1 = false ∧
    ∀ c ∈ callsSince w (CommitWrite env s w).2.2, c.isSimpleReplace = false := by
  have h1 : ∀ w2 : World, (w2.files s.m_strTemp).isSome = (w.files s.m_strTemp).isSome →
      (env.moveFileEx1 ≠ none ∨ w2.files s.m_strTemp = none) := by
    intro w2 he
    by_cases hf : env.moveFileEx1 = none
    · right
      have hn : ¬ ((w.files s.m_strTemp).isSome = true) := fun hs => by
        have := (MoveFileEx_fst env.moveFileEx1 s.m_strTemp s.m_strTxfMidFallback w).mpr ⟨hf, hs⟩
        rw [hHop1] at this
        exact Bool.false_ne_true this
      rw [← he] at hn
      cases hx : w2.files s.m_strTemp
      · rfl
      · simp [hx] at hn
    · exact Or.inl hf
  have key : ∀ w2 : World, (w2.files s.m_strTemp).isSome = (w.files s.m_strTemp).isSome →
      (TxfMove env s false w2).1 = false ∧ (TxfMove env s false w2).2.1 = true := by
    intro w2 he
    have := TxfMove_first_hop_fatal env s false w2 hM
      ((TxfMoveWithTx_fst_congr env s w w2 he).trans hTx) (h1 w2 he)
    exact ⟨this.1, this.2.1⟩
  have k0 := TxfMove_first_hop_fatal env s false w hM hTx (h1 w rfl)
  obtain ⟨c1, c2⟩ := CommitWriteTransaction_fatal env s w key
  obtain ⟨e1, e2⟩ := CommitWrite_transacted env s w hT hB
  refine ⟨k0.1, k0.2.1, k0.2.2, e1.trans c1, ?_⟩
  rw [e2]
  exact c2.callsSince

/-- Witness for C4 on the concrete scenario: the transaction cannot be created
and the first hop is made to fail. -/
theorem C4_first_hop_failure_is_fatal_witness :
    (TxfMove { demoCommitEnv with createTransaction := some 6700, moveFileEx1 := some 5 }
      demoSession false demoStaged).2.1 = true :=
  (C4_first_hop_failure_is_fatal
    { demoCommitEnv with createTransaction := some 6700, moveFileEx1 := some 5 }
    demoSession demoStaged (by decide) (by decide) (by decide) (by decide) (by decide)).2.1

/-- C4 as stated fails: with the first hop failing, the fatal flag is set, the
commit returns failure, the target still holds its old content and the working
file is still in place, so the final fallback did not run. -/
theorem C4_counterexample :
    (TxfMove { demoCommitEnv with createTransaction := some 6700, moveFileEx1 := some 5 }
      demoSession false demoStaged).2.1 = true ∧
    (CommitWrite { demoCommitEnv with createTransaction := some 6700, moveFileEx1 := some 5 }
      demoSession demoStaged).1 = false ∧
    Call.DeleteFile "C:\\db.kdb" ∉
      (CommitWrite { demoCommitEnv with createTransaction := some 6700, moveFileEx1 := some 5 }
        demoSession demoStaged).2.2.trace ∧
    (CommitWrite { demoCommitEnv with createTransaction := some 6700, moveFileEx1 := some 5 }
      demoSession demoStaged).2.2.files "C:\\db.kdb" = some (demoFile "AAAAAAAAAA") := by
  decide

/-- C5: when the transactional move succeeds but the commit step of the
transaction fails, `TxfMoveWithTx` closes the handle, reports failure and
leaves the files as they were; `TxfMove` goes on with the move onto the
intermediate path; and when both hops succeed `CommitWrite` succeeds and the
target holds the content of the working file. -/
theorem C5_commit_step_failure_falls_back (env : CommitEnv) (s : CFileTransactionEx)
    (w : World) (f : FileInfo) (c : Nat)
    (hT : s.m_bTransacted = true) (hB : s.m_strBase.length ≠ 0)
    (hM : s.m_strTxfMidFallback.length ≠ 0)
    (hf : w.files s.m_strTemp = some f)
    (hCreate : env.createTransaction = none) (hMove : env.moveFileTransacted = none)
    (hCommit : env.commitTransaction = some c) :
    (TxfMoveWithTx env s w).1 = false ∧ (TxfMoveWithTx env s w).2.files = w.files ∧
    (TxfMoveWithTx env s w).2.trace = w.trace ++
      [Call.CreateTransaction (txDescription env.newId),
       Call.MoveFileTransacted s.m_strTemp s.m_strBase, Call.CommitTransaction,
       Call.CloseHandle] ∧
    Call.MoveFileEx s.m_strTemp s.m_strTxfMidFallback ∈
      callsSince w (TxfMove env s false w).2.2 ∧
    (env.moveFileEx1 = none → env.moveFileEx2 = none →
      (CommitWrite env s w).1 = true ∧
      ((CommitWrite env s w).2.2.files s.m_strBase).map FileInfo.content = some f.content) := by
  obtain ⟨t1, t2, t3⟩ := TxfMoveWithTx_commit_fails env s w f c hf hCreate hMove hCommit
  refine ⟨t1, t2, t3, ?_, ?_⟩
  · rw [TxfMove_eq env s false w hM]
    simp only [t1, Bool.false_eq_true, if_false]
    split_ifs <;>
      simp [callsSince, MoveFileEx_trace, t3]
  · intro h1 h2
    have hS : (w.files s.m_strTemp).isSome = true := by simp [hf]
    have key : ∀ w2 : World, (w2.files s.m_strTemp).isSome = (w.files s.m_strTemp).isSome →
        (TxfMove env s false w2).1 = true := fun w2 he =>
      (TxfMove_second_hop env s false w2 hM
        ((TxfMoveWithTx_fst_congr env s w w2 he).trans t1) (he.trans hS) h1).2 h2
    obtain ⟨e1, e2⟩ := CommitWrite_transacted env s w hT hB
    have hok := CommitWriteTransaction_of_moved env s w key
    obtain ⟨f2, hf2, hc, _⟩ := CommitWriteTransaction_files_of_true env s w hok
    rw [hf] at hf2
    cases hf2
    exact ⟨e1.trans hok, by rw [e2]; exact hc⟩

/-- Witness for C5 on the concrete scenario, with the commit step of the
transaction made to fail. -/
theorem C5_commit_step_failure_falls_back_witness :
    ((CommitWrite { demoCommitEnv with commitTransaction := some 6701 } demoSession
        demoStaged).2.2.files demoSession.m_strBase).map FileInfo.content
      = some "BBBBBBBBBB" :=
  ((C5_commit_step_failure_falls_back { demoCommitEnv with commitTransaction := some 6701 }
    demoSession demoStaged (demoFile "BBBBBBBBBB") 6701 (by decide) (by decide) (by decide)
    (by decide) rfl rfl rfl).2.2.2.2 rfl rfl).2

/-- C6: when the target path names a reparse point, the constructed session has
transaction mode off whatever the caller asked for, and its working path is the
target path. -/
theorem C6_reparse_point_disables_transaction (env : CtorEnv) (lpBaseFile : String)
    (bTransacted : Bool) (w : World) (a : FileInfo)
    (hA : w.files (fullBase env lpBaseFile) = some a) (hR : a.reparsePoint = true) :
    (construct env (some lpBaseFile) bTransacted w).1.m_bTransacted = false ∧
    (construct env (some lpBaseFile) bTransacted w).1.m_strBase = fullBase env lpBaseFile ∧
    (construct env (some lpBaseFile) bTransacted w).1.m_strTemp = fullBase env lpBaseFile := by
  have hA2 : ∀ w2 : World, w2.files = w.files →
      GetFileAttributes (fullBase env lpBaseFile) w2 = (some a, w2) := by
    intro w2 h
    simp [GetFileAttributes, h, hA]
  simp only [construct, initial]
  rw [hA2 _ (by cases env.GetFullPathName lpBaseFile <;> rfl)]
  simp [hR]

/-- Witness for C6: a symbolic link at `C:\link.kdb`, transactions requested. -/
theorem C6_reparse_point_disables_transaction_witness :
    (construct demoCtorEnv (some "C:\\link.kdb") true
      (demoWorld.put "C:\\link.kdb" { demoFile "" with reparsePoint := true })).1.m_bTransacted
      = false :=
  (C6_reparse_point_disables_transaction demoCtorEnv "C:\\link.kdb" true
    (demoWorld.put "C:\\link.kdb" { demoFile "" with reparsePoint := true })
    { demoFile "" with reparsePoint := true } (by decide) rfl).1

/-- C8: `OpenWrite` on a session whose target path is empty returns `false`,
sets the last-error value to `ERROR_INVALID_HANDLE`, yields the empty string as
working path, and changes nothing else. -/
theorem C8_open_write_empty_target (fault : Fault) (s : CFileTransactionEx) (w : World)
    (h : s.m_strBase = "") :
    OpenWrite fault s w = (false, "", s, w.SetLastError ERROR_INVALID_HANDLE) ∧
    (OpenWrite fault s w).2.2.2.lastError = 6 := by
  simp [OpenWrite, h, World.SetLastError, ERROR_INVALID_HANDLE]

/-- Witness for C8: the session constructed from a null target path. -/
theorem C8_open_write_empty_target_witness :
    (OpenWrite none (construct demoCtorEnv none true demoWorld).1 demoWorld).1 = false :=
  congrArg Prod.fst (C8_open_write_empty_target none
    (construct demoCtorEnv none true demoWorld).1 demoWorld rfl).1

/-- C9, as the code has it: `OpenWrite` keeps no record of having been called.
After a successful `OpenWrite`, a second `OpenWrite` on the resulting session
succeeds again and yields the same working path. -/
theorem C9_second_open_write_succeeds (f1 f2 : Fault) (s : CFileTransactionEx) (w w2 : World)
    (h : (OpenWrite f1 s w).1 = true) :
    (OpenWrite f2 (OpenWrite f1 s w).2.2.1 w2).1 = true ∧
    (OpenWrite f2 (OpenWrite f1 s w).2.2.1 w2).2.1 = (OpenWrite f1 s w).2.1 := by
  unfold OpenWrite at h ⊢
  by_cases hB : s.m_strBase.length = 0
  · simp [hB] at h
  · by_cases hT : s.m_bTransacted <;> simp [hB, hT]

/-- Witness for C9 on the concrete scenario. -/
theorem C9_second_open_write_succeeds_witness :
    (OpenWrite none (OpenWrite none demoSession demoStaged).2.2.1
      (OpenWrite none demoSession demoStaged).2.2.2).1 = true :=
  (C9_second_open_write_succeeds none none demoSession demoStaged
    (OpenWrite none demoSession demoStaged).2.2.2 (by decide)).1

/-- C9 as stated fails: on the concrete scenario the first `OpenWrite` succeeds
and the second one, made right after it, succeeds as well. -/
theorem C9_counterexample :
    (OpenWrite none demoSession demoStaged).1 = true ∧
    (OpenWrite none (OpenWrite none demoSession demoStaged).2.2.1
      (OpenWrite none demoSession demoStaged).2.2.2).1 = true := by
  decide


theorem open_write_commit (fault : Fault) (content : String) (fresh : FileInfo)
    (env : CommitEnv) (s : CFileTransactionEx) (w : World)
    (hI : s.m_bTransacted = false → s.m_strTemp = s.m_strBase)
    (hOk : (CommitWrite env (OpenWrite fault s w).2.2.1
      (callerWrite (OpenWrite fault s w).2.1 content fresh (OpenWrite fault s w).2.2.2)).1
        = true) :
    ((CommitWrite env (OpenWrite fault s w).2.2.1
        (callerWrite (OpenWrite fault s w).2.1 content fresh
          (OpenWrite fault s w).2.2.2)).2.2.files s.m_strBase).map FileInfo.content
      = some content ∧
    ((OpenWrite fault s w).2.1 ≠ s.m_strBase →
      (CommitWrite env (OpenWrite fault s w).2.2.1
        (callerWrite (OpenWrite fault s w).2.1 content fresh
          (OpenWrite fault s w).2.2.2)).2.2.files (OpenWrite fault s w).2.1 = none) := by
  obtain ⟨o1, o2, o3, _, _⟩ := OpenWrite_frame fault s w
  obtain ⟨p1, p2⟩ := OpenWrite_path fault s w
  generalize (OpenWrite fault s w).2.2.2 = w2 at *
  generalize (OpenWrite fault s w).2.2.1 = s1 at *
  generalize (OpenWrite fault s w).2.1 = path at *
  generalize (OpenWrite fault s w).1 = ok at *
  have hB : s.m_strBase.length ≠ 0 := by
    intro h0
    rw [CommitWrite_eq, o2, if_pos h0] at hOk
    simp at hOk
  have hpath : path = s.m_strTemp := p2 (by rw [p1]; simpa using hB)
  subst hpath
  obtain ⟨f, hf, hc⟩ := callerWrite_content s.m_strTemp content fresh w2
  have hI1 : s1.m_bTransacted = false → s1.m_strTemp = s1.m_strBase := by
    rw [o1, o2, o3]; exact hI
  rw [← o3] at hf
  have key := CommitWrite_files_of_true env s1 _ f hI1 (by rw [o3] at hf ⊢; exact hf) hOk
  rw [o2, o3, hc] at key
  exact key

/-- C2: for a pre-existing target, after constructing a session, calling
`OpenWrite` and writing `content` to the working path it returned, a
`CommitWrite` that returns success leaves `content` at the target path, and a
working path different from the target no longer exists. -/
theorem C2_successful_commit_replaces_target (cenv : CtorEnv) (lpBaseFile : String)
    (bTransacted : Bool) (w : World) (a : FileInfo) (fault : Fault) (content : String)
    (fresh : FileInfo) (env : CommitEnv)
    (_hEx : w.files (fullBase cenv lpBaseFile) = some a)
    (hOk : (CommitWrite env
      (openAndWrite cenv lpBaseFile bTransacted w fault content fresh).2.2.1
      (openAndWrite cenv lpBaseFile bTransacted w fault content fresh).2.2.2).1 = true) :
    ((CommitWrite env
        (openAndWrite cenv lpBaseFile bTransacted w fault content fresh).2.2.1
        (openAndWrite cenv lpBaseFile bTransacted w fault content fresh).2.2.2).2.2.files
      (fullBase cenv lpBaseFile)).map FileInfo.content = some content ∧
    ((openAndWrite cenv lpBaseFile bTransacted w fault content fresh).2.1
        ≠ fullBase cenv lpBaseFile →
      (CommitWrite env
        (openAndWrite cenv lpBaseFile bTransacted w fault content fresh).2.2.1
        (openAndWrite cenv lpBaseFile bTransacted w fault content fresh).2.2.2).2.2.files
      (openAndWrite cenv lpBaseFile bTransacted w fault content fresh).2.1 = none) := by
  have hb := (construct_shape cenv lpBaseFile bTransacted w).1
  have key := open_write_commit fault content fresh env
    (construct cenv (some lpBaseFile) bTransacted w).1
    (construct cenv (some lpBaseFile) bTransacted w).2
    (construct_untransacted cenv (some lpBaseFile) bTransacted w) hOk
  rw [hb] at key
  exact key

/-- Witness for C2, the scenario of the specification: `C:\db.kdb` holds
`AAAAAAAAAA`, the working file is written with `BBBBBBBBBB`, and after the
commit `C:\db.kdb` reads `BBBBBBBBBB`. -/
theorem C2_successful_commit_replaces_target_witness :
    ((CommitWrite demoCommitEnv
        (openAndWrite demoCtorEnv "C:\\db.kdb" true demoWorld none "BBBBBBBBBB"
          (demoFile "")).2.2.1
        (openAndWrite demoCtorEnv "C:\\db.kdb" true demoWorld none "BBBBBBBBBB"
          (demoFile "")).2.2.2).2.2.files "C:\\db.kdb").map FileInfo.content
      = some "BBBBBBBBBB" :=
  (C2_successful_commit_replaces_target demoCtorEnv "C:\\db.kdb" true demoWorld
    (demoFile "AAAAAAAAAA") none "BBBBBBBBBB" (demoFile "") demoCommitEnv
    (by decide) (by decide)).1

/-- C7: when the target path is not empty and no file exists there, a session
constructed with transactions requested has transaction mode off, `OpenWrite`
succeeds and returns the target path itself, the caller's write puts the
content at the target path, and `CommitWrite` succeeds and leaves the world
exactly as it found it: it makes no platform call at all, so no move and no
delete. -/
theorem C7_missing_target_is_written_in_place (cenv : CtorEnv) (lpBaseFile : String)
    (w : World) (fault : Fault) (content : String) (fresh : FileInfo) (env : CommitEnv)
    (hNo : w.files (fullBase cenv lpBaseFile) = none)
    (hNe : (fullBase cenv lpBaseFile).length ≠ 0) :
    (construct cenv (some lpBaseFile) true w).1.m_bTransacted = false ∧
    (openAndWrite cenv lpBaseFile true w fault content fresh).1 = true ∧
    (openAndWrite cenv lpBaseFile true w fault content fresh).2.1 = fullBase cenv lpBaseFile ∧
    (CommitWrite env (openAndWrite cenv lpBaseFile true w fault content fresh).2.2.1
      (openAndWrite cenv lpBaseFile true w fault content fresh).2.2.2).1 = true ∧
    (CommitWrite env (openAndWrite cenv lpBaseFile true w fault content fresh).2.2.1
      (openAndWrite cenv lpBaseFile true w fault content fresh).2.2.2).2.2
      = (openAndWrite cenv lpBaseFile true w fault content fresh).2.2.2 ∧
    ((CommitWrite env (openAndWrite cenv lpBaseFile true w fault content fresh).2.2.1
      (openAndWrite cenv lpBaseFile true w fault content fresh).2.2.2).2.2.files
        (fullBase cenv lpBaseFile)).map FileInfo.content = some content := by
  obtain ⟨c1, c2, c3⟩ := construct_files_of_missing cenv lpBaseFile true w hNo
  have hb := (construct_shape cenv lpBaseFile true w).1
  have ht := construct_untransacted cenv (some lpBaseFile) true w c3
  have hB : (construct cenv (some lpBaseFile) true w).1.m_strBase.length ≠ 0 := by
    rw [hb]; exact hNe
  obtain ⟨o1, o2, o3, _⟩ := OpenWrite_of_missing fault
    (construct cenv (some lpBaseFile) true w).1 (construct cenv (some lpBaseFile) true w).2
    c3 hB c2 (by rw [c1, ht, hb]; exact hNo)
  obtain ⟨f1, f2, _, _, _⟩ := OpenWrite_frame fault
    (construct cenv (some lpBaseFile) true w).1 (construct cenv (some lpBaseFile) true w).2
  obtain ⟨k1, k2⟩ := CommitWrite_untransacted env
    (openAndWrite cenv lpBaseFile true w fault content fresh).2.2.1
    (openAndWrite cenv lpBaseFile true w fault content fresh).2.2.2
    (f1.trans c3) (by rw [show (openAndWrite cenv lpBaseFile true w fault content
      fresh).2.2.1.m_strBase = _ from f2]; exact hB) o3
  have hp : (openAndWrite cenv lpBaseFile true w fault content fresh).2.1
      = fullBase cenv lpBaseFile := by
    rw [show (openAndWrite cenv lpBaseFile true w fault content fresh).2.1 = _ from o2, ht, hb]
  refine ⟨c3, o1, hp, k1, k2, ?_⟩
  rw [k2]
  obtain ⟨f, hf, hc⟩ := callerWrite_content
    (openAndWrite cenv lpBaseFile true w fault content fresh).2.1 content fresh
    (OpenWrite fault (construct cenv (some lpBaseFile) true w).1
      (construct cenv (some lpBaseFile) true w).2).2.2.2
  rw [hp] at hf
  rw [show (openAndWrite cenv lpBaseFile true w fault content fresh).2.2.2 = callerWrite
    (openAndWrite cenv lpBaseFile true w fault content fresh).2.1 content fresh
    (OpenWrite fault (construct cenv (some lpBaseFile) true w).1
      (construct cenv (some lpBaseFile) true w).2).2.2.2 from rfl, hp, hf, Option.map_some', hc]

/-- Witness for C7: no file exists at `C:\new.kdb`. -/
theorem C7_missing_target_is_written_in_place_witness :
    (openAndWrite demoCtorEnv "C:\\new.kdb" true demoWorld none "BBBBBBBBBB"
      (demoFile "")).2.1 = "C:\\new.kdb" :=
  (C7_missing_target_is_written_in_place demoCtorEnv "C:\\new.kdb" demoWorld none
    "BBBBBBBBBB" (demoFile "") demoCommitEnv (by decide) (by decide)).2.2.1

theorem reachable_working_ne_target (cenv : CtorEnv) (lpBaseFile : Option String)
    (bTransacted : Bool) (w0 : World) (ops : List Op) (hFresh : FreshTempName cenv w0)
    (hT : (runOps ops (construct cenv lpBaseFile bTransacted w0)).1.m_bTransacted = true)
    (hB : (runOps ops (construct cenv lpBaseFile bTransacted w0)).1.m_strBase.length ≠ 0) :
    (runOps ops (construct cenv lpBaseFile bTransacted w0)).1.m_strTemp
      ≠ (runOps ops (construct cenv lpBaseFile bTransacted w0)).1.m_strBase := by
  obtain ⟨r1, r2, r3, _, _⟩ := runOps_frame ops (construct cenv lpBaseFile bTransacted w0)
  rcases r2 with r2 | r2
  · rw [r2] at hB ⊢
    rw [r1] at hT
    rw [r3]
    exact construct_working_ne_target cenv lpBaseFile bTransacted w0 hFresh hT hB
  · rw [r2] at hB
    exact absurd rfl hB

theorem DeleteFile_trace (fault : Fault) (p : String) (w : World) :
    (DeleteFile fault p w).2.trace = w.trace ++ [Call.DeleteFile p] := by
  unfold DeleteFile
  split <;> rfl

theorem MoveFile_trace (fault : Fault) (src dst : String) (w : World) :
    (MoveFile fault src dst w).2.trace = w.trace ++ [Call.MoveFile src dst] := by
  unfold MoveFile
  split <;> rfl

theorem replaceStep_target_of_false (env : CommitEnv) (s : CFileTransactionEx) (bAttrib : Bool)
    (w : World) (h : (replaceStep env s bAttrib w).1 = false)
    (hop : Call.MoveFileEx s.m_strTxfMidFallback s.m_strBase ∉
      callsSince w (replaceStep env s bAttrib w).2) :
    (replaceStep env s bAttrib w).2.files = w.files ∨
    ((replaceStep env s bAttrib w).2.files s.m_strBase = none ∧
      (w.files s.m_strBase).isSome = true ∧
      Call.DeleteFile s.m_strBase ∈ callsSince w (replaceStep env s bAttrib w).2 ∧
      Call.MoveFile s.m_strTemp s.m_strBase ∈ callsSince w (replaceStep env s bAttrib w).2) := by
  have hop2 : Call.MoveFileEx s.m_strTxfMidFallback s.m_strBase ∉
      callsSince w (TxfMove env s false w).2.2 := fun hc =>
    hop (callsSince_subset (Emits.erefl (fun _ => True) w)
      (TxfMove_emits env s false w) (replaceStep_emits_any env s bAttrib w) _ hc)
  rw [replaceStep_eq] at h ⊢
  split_ifs at h ⊢ with hT hF hA hD
  · left
    exact TxfMove_files_of_false env s false w (by simpa using hT) hop2
  · obtain ⟨_, hw⟩ := TxfMove_nonfatal env s w (by simpa using hT) (by simpa using hF)
    rw [hw] at hD h ⊢
    right
    have hex : (w.files s.m_strBase).isSome = true := by
      unfold DeleteFile at hD
      cases hf : w.files s.m_strBase with
      | none => cases hx : env.deleteFile <;> simp [hf, hx] at hD
      | some f => rfl
    refine ⟨?_, hex, ?_, ?_⟩
    · rw [MoveFile_files_of_false _ _ _ _ h, DeleteFile_files_of_true _ _ _ hD]
      simp [World.remove]
    · simp [callsSince, MoveFile_trace, DeleteFile_trace]
    · simp [callsSince, MoveFile_trace, DeleteFile_trace]
  · obtain ⟨_, hw⟩ := TxfMove_nonfatal env s w (by simpa using hT) (by simpa using hF)
    rw [hw] at hD ⊢
    left
    exact DeleteFile_files_of_false _ _ _ (by simpa using hD)
  · obtain ⟨_, hw⟩ := TxfMove_nonfatal env s w (by simpa using hT) (by simpa using hF)
    rw [hw] at h ⊢
    left
    exact MoveFile_files_of_false _ _ _ _ h

theorem captureStep_flags (env : CommitEnv) (s : CFileTransactionEx) (w : World)
    (f f2 : FileInfo) (h1 : w.files s.m_strBase = some f)
    (h2 : (captureStep env s w).2.2.2.2.files s.m_strBase = some f2) :
    f2.reparsePoint = f.reparsePoint ∧ f2.directory = f.directory ∧
      (f2.hidden = true → f.hidden = true) ∧ (f2.encrypted = true → f.encrypted = true) := by
  revert h2
  unfold captureStep UnhideFile HideFile SetFileAttributes GetFileAttributes DecryptFile
    GetFileCreationTime GetNamedSecurityInfo
  cases hu : env.unhide <;> cases hd : env.decrypt <;> cases hc : env.getCreationTime <;>
    cases hg : env.getSecurity <;> cases hh : f.hidden <;> cases he : f.encrypted <;>
    simp [h1, hh, he, World.put, World.record, World.SetLastError] <;>
    (intro h2; subst h2; simp [hh, he])

theorem CommitWriteTransaction_target_of_false (env : CommitEnv) (s : CFileTransactionEx)
    (w : World) (h : (CommitWriteTransaction env s w).1 = false)
    (hop : Call.MoveFileEx s.m_strTxfMidFallback s.m_strBase ∉
      callsSince w (CommitWriteTransaction env s w).2.2) :
    ((((CommitWriteTransaction env s w).2.2.files s.m_strBase).map FileInfo.core
          = (w.files s.m_strBase).map FileInfo.core ∧
        ∀ f f2, w.files s.m_strBase = some f →
          (CommitWriteTransaction env s w).2.2.files s.m_strBase = some f2 →
          f2.reparsePoint = f.reparsePoint ∧ f2.directory = f.directory ∧
            (f2.hidden = true → f.hidden = true) ∧ (f2.encrypted = true → f.encrypted = true)) ∨
      ((CommitWriteTransaction env s w).2.2.files s.m_strBase = none ∧
        (w.files s.m_strBase).isSome = true ∧
        Call.DeleteFile s.m_strBase ∈ callsSince w (CommitWriteTransaction env s w).2.2 ∧
        Call.MoveFile s.m_strTemp s.m_strBase
          ∈ callsSince w (CommitWriteTransaction env s w).2.2)) := by
  rw [CommitWriteTransaction_eq] at h hop ⊢
  split_ifs at h hop ⊢ with hr
  have kc := captureStep_keeps env s w
  have sub := callsSince_subset (captureStep_emits env s w)
    (replaceStep_emits_all env
      { s with m_pSec := (captureStep env s w).2.2.2.1.or s.m_pSec }
      (captureStep env s w).2.1.isSome (captureStep env s w).2.2.2.2)
    (Emits.erefl (fun _ => True) _)
  have hop2 := fun hc => hop (sub _ hc)
  have key := replaceStep_target_of_false env
    { s with m_pSec := (captureStep env s w).2.2.2.1.or s.m_pSec }
    (captureStep env s w).2.1.isSome (captureStep env s w).2.2.2.2 (by simpa using hr) hop2
  simp only [] at key ⊢
  rcases key with key | ⟨k1, k2, k3, k4⟩
  · left
    rw [key]
    exact ⟨(kc _).2, fun f f2 hf hf2 => captureStep_flags env s w f f2 hf hf2⟩
  · right
    refine ⟨k1, ?_, sub _ k3, sub _ k4⟩
    have := (kc s.m_strBase).2
    cases hf : w.files s.m_strBase with
    | some f => rfl
    | none =>
      rw [hf] at this
      cases hc : (captureStep env s w).2.2.2.2.files s.m_strBase with
      | none => rw [hc] at k2; simp at k2
      | some g => rw [hc] at this; simp at this

/-- C1, as the code has it: for every session the class can reach and every
state of the files, when `CommitWrite` returns failure and the second hop of
the two-hop move was not attempted (so this is not the case of a first hop done
and a second hop failed), the working file is exactly as it was.  The target
is still there with its content, creation time, DACL, reparse-point and
directory flags, and its hidden and encrypted flags are as they were or have
been cleared by the un-hide and decrypt steps.  The one exception is the final
fallback: when its `DeleteFile` removed the target and its `MoveFile` then
failed, both calls are in the trace of the commit and the target, which
existed before, is absent.  The generated temporary name is assumed fresh. -/
theorem C1_failed_commit_keeps_working_file (cenv : CtorEnv) (lpBaseFile : Option String)
    (bTransacted : Bool) (w0 : World) (ops : List Op) (env : CommitEnv)
    (s : CFileTransactionEx) (w : World) (hFresh : FreshTempName cenv w0)
    (hs : s = (runOps ops (construct cenv lpBaseFile bTransacted w0)).1)
    (hFail : (CommitWrite env s w).1 = false)
    (hHop : Call.MoveFileEx s.m_strTxfMidFallback s.m_strBase ∉
      callsSince w (CommitWrite env s w).2.2) :
    (CommitWrite env s w).2.2.files s.m_strTemp = w.files s.m_strTemp ∧
    ((((CommitWrite env s w).2.2.files s.m_strBase).map FileInfo.core
          = (w.files s.m_strBase).map FileInfo.core ∧
        ∀ f f2, w.files s.m_strBase = some f →
          (CommitWrite env s w).2.2.files s.m_strBase = some f2 →
          f2.reparsePoint = f.reparsePoint ∧ f2.directory = f.directory ∧
            (f2.hidden = true → f.hidden = true) ∧ (f2.encrypted = true → f.encrypted = true)) ∨
      ((CommitWrite env s w).2.2.files s.m_strBase = none ∧
        (w.files s.m_strBase).isSome = true ∧
        Call.DeleteFile s.m_strBase ∈ callsSince w (CommitWrite env s w).2.2 ∧
        Call.MoveFile s.m_strTemp s.m_strBase ∈ callsSince w (CommitWrite env s w).2.2)) := by
  have hne : s.m_bTransacted = true → s.m_strBase.length ≠ 0 → s.m_strTemp ≠ s.m_strBase := by
    rw [hs]
    exact reachable_working_ne_target cenv lpBaseFile bTransacted w0 ops hFresh
  rw [CommitWrite_eq] at hFail hHop ⊢
  by_cases hB : s.m_strBase.length = 0
  · simp only [hB, if_true]
    refine ⟨rfl, Or.inl ⟨rfl, ?_⟩⟩
    intro f f2 hf hf2
    have e : f2 = f := by
      have : (w.SetLastError ERROR_INVALID_HANDLE).files s.m_strBase = w.files s.m_strBase := rfl
      rw [this, hf] at hf2
      exact (Option.some.inj hf2).symm
    subst e
    exact ⟨rfl, rfl, id, id⟩
  · cases hT : s.m_bTransacted
    · simp [hB, hT] at hFail
    · simp only [hB, hT, if_false, if_true] at hFail hHop ⊢
      obtain ⟨h1, _⟩ := CommitWriteTransaction_files_of_false env s w hFail hHop
      exact ⟨h1 _ (hne hT hB), CommitWriteTransaction_target_of_false env s w hFail hHop⟩

theorem demoOld_fresh : FreshTempName demoOldCtorEnv demoWorld := by
  intro dir h
  have e : dir = "C:\\Temp\\" := by
    simp only [demoOldCtorEnv, demoCtorEnv] at h
    exact (Except.ok.inj h).symm
  subst e
  decide

/-- Witness for C1: on a platform without `KtmW32.dll` the target cannot be
deleted, so the commit fails; the working file is still in place. -/
theorem C1_failed_commit_keeps_working_file_witness :
    (CommitWrite { demoCommitEnv with deleteFile := some 5 } demoOldSession
      demoOldStaged).2.2.files demoOldSession.m_strTemp
      = demoOldStaged.files demoOldSession.m_strTemp :=
  (C1_failed_commit_keeps_working_file demoOldCtorEnv (some "C:\\db.kdb") true demoWorld []
    { demoCommitEnv with deleteFile := some 5 } demoOldSession demoOldStaged demoOld_fresh
    rfl (by decide) (by decide)).1

/-- C1 as stated fails in two ways.  First: no two-hop move is attempted, the
target is deleted, the rename fails, `CommitWrite` returns failure, and the
target is gone.  Second: the target is hidden, it cannot be deleted,
`CommitWrite` returns failure, and the target is left un-hidden. -/
theorem C1_counterexample :
    ((CommitWrite { demoCommitEnv with moveFile := some 5 } demoOldSession
        demoOldStaged).1 = false ∧
      (∀ a b, Call.MoveFileEx a b ∉
        (CommitWrite { demoCommitEnv with moveFile := some 5 } demoOldSession
          demoOldStaged).2.2.trace) ∧
      demoOldStaged.files "C:\\db.kdb" = some (demoFile "AAAAAAAAAA") ∧
      (CommitWrite { demoCommitEnv with moveFile := some 5 } demoOldSession
        demoOldStaged).2.2.files "C:\\db.kdb" = none) ∧
    ((CommitWrite { demoCommitEnv with deleteFile := some 5 } demoOldSession
        (demoOldStaged.put "C:\\db.kdb" { demoFile "AAAAAAAAAA" with hidden := true })).1
        = false ∧
      (∀ a b, Call.MoveFileEx a b ∉
        (CommitWrite { demoCommitEnv with deleteFile := some 5 } demoOldSession
          (demoOldStaged.put "C:\\db.kdb"
            { demoFile "AAAAAAAAAA" with hidden := true })).2.2.trace) ∧
      (CommitWrite { demoCommitEnv with deleteFile := some 5 } demoOldSession
        (demoOldStaged.put "C:\\db.kdb" { demoFile "AAAAAAAAAA" with hidden := true })).2.2.files
        "C:\\db.kdb" = some (demoFile "AAAAAAAAAA")) := by
  have t1 : (CommitWrite { demoCommitEnv with moveFile := some 5 } demoOldSession
      demoOldStaged).2.2.trace
      = [Call.DeleteFile "C:\\db.kdb", Call.MoveFile "C:\\db.kdb.tmp" "C:\\db.kdb"] := by
    decide
  have t2 : (CommitWrite { demoCommitEnv with deleteFile := some 5 } demoOldSession
      (demoOldStaged.put "C:\\db.kdb" { demoFile "AAAAAAAAAA" with hidden := true })).2.2.trace
      = [Call.SetFileAttributes "C:\\db.kdb" false, Call.DeleteFile "C:\\db.kdb"] := by
    decide
  refine ⟨⟨by decide, ?_, by decide, by decide⟩, ⟨by decide, ?_, by decide⟩⟩
  · intro a b; rw [t1]; simp
  · intro a b; rw [t2]; simp

/-- C10: under a fresh temporary name, after any sequence of operations on a
constructed session (commits that fail and earlier runs of the destructor
included) the pending-deletion list does not contain the target path; the
destructor, run on any world, leaves the file at the target path as it is and
empties the list; and a second run of the destructor changes no file. -/
theorem C10_teardown_never_deletes_target (cenv : CtorEnv) (lpBaseFile : Option String)
    (bTransacted : Bool) (w0 : World) (ops : List Op) (e1 e2 : DtorEnv)
    (st : CFileTransactionEx × World) (w : World) (hFresh : FreshTempName cenv w0)
    (hst : st = runOps ops (construct cenv lpBaseFile bTransacted w0)) :
    (construct cenv lpBaseFile bTransacted w0).1.m_strBase ∉ st.1.m_vToDelete ∧
    (destruct e1 st.1 w).2.files (construct cenv lpBaseFile bTransacted w0).1.m_strBase
      = w.files (construct cenv lpBaseFile bTransacted w0).1.m_strBase ∧
    (destruct e1 st.1 w).1.m_vToDelete = [] ∧
    (destruct e2 (destruct e1 st.1 w).1 (destruct e1 st.1 w).2).2.files
      = (destruct e1 st.1 w).2.files := by
  have h0 := construct_target_not_pending cenv lpBaseFile bTransacted w0 hFresh
  have hin : (construct cenv lpBaseFile bTransacted w0).1.m_strBase ∉ st.1.m_vToDelete := by
    obtain ⟨_, _, _, _, r5⟩ := runOps_frame ops (construct cenv lpBaseFile bTransacted w0)
    rw [hst]
    rcases r5 with r5 | r5
    · rw [r5]; exact h0
    · rw [r5]; simp
  exact ⟨hin, destruct_files e1 st.1 w _ hin, (destruct_frame e1 st.1 w).2.2.2.2,
    destruct_again e1 e2 st.1 w⟩

theorem demo_fresh : FreshTempName demoCtorEnv demoWorld := by
  intro dir h
  have e : dir = "C:\\Temp\\" := by
    simp only [demoCtorEnv] at h
    exact (Except.ok.inj h).symm
  subst e
  decide

/-- Witness for C10: a commit whose two-hop move fails at the second hop, then
the destructor; `C:\db.kdb` still holds its old content. -/
theorem C10_teardown_never_deletes_target_witness :
    (destruct demoDtorEnv
      (runOps [Op.write "C:\\Temp\\KeePass_TxF_7f3a.tmp" "BBBBBBBBBB" (demoFile ""),
          Op.commitWrite
            { demoCommitEnv with createTransaction := some 6700, moveFileEx2 := some 5 }]
        (construct demoCtorEnv (some "C:\\db.kdb") true demoWorld)).1
      (runOps [Op.write "C:\\Temp\\KeePass_TxF_7f3a.tmp" "BBBBBBBBBB" (demoFile ""),
          Op.commitWrite
            { demoCommitEnv with createTransaction := some 6700, moveFileEx2 := some 5 }]
        (construct demoCtorEnv (some "C:\\db.kdb") true demoWorld)).2).2.files "C:\\db.kdb"
      = some (demoFile "AAAAAAAAAA") :=
  ((C10_teardown_never_deletes_target demoCtorEnv (some "C:\\db.kdb") true demoWorld
    [Op.write "C:\\Temp\\KeePass_TxF_7f3a.tmp" "BBBBBBBBBB" (demoFile ""),
      Op.commitWrite
        { demoCommitEnv with createTransaction := some 6700, moveFileEx2 := some 5 }]
    demoDtorEnv demoDtorEnv _ _ demo_fresh rfl).2.1).trans (by decide)

/-! ## Teardown, construction and the commit trace -/

/-- C11: the destructor leaves the last-error value as it found it, whatever
the session holds and however the library unloads and the file deletions it
makes turn out; `TxfClosePrsv` does the same around `CloseHandle`. -/
theorem C11_teardown_preserves_last_error (env : DtorEnv) (s : CFileTransactionEx)
    (w : World) :
    (destruct env s w).2.lastError = w.lastError ∧
    ∀ (fault : Fault) (w1 : World), (TxfClosePrsv fault w1).lastError = w1.lastError := by
  refine ⟨?_, fun _ _ => rfl⟩
  cases h1 : s.m_hKtmW32 <;> cases h2 : s.m_hKernel32 <;>
    simp [destruct, h1, h2, World.SetLastError]

theorem construct_transacted (env : CtorEnv) (lpBaseFile : String) (bTransacted : Bool)
    (w : World) :
    (construct env (some lpBaseFile) bTransacted w).1.m_bTransacted = true ↔
      bTransacted = true ∧
      ∃ a, w.files (fullBase env lpBaseFile) = some a ∧ a.reparsePoint = false := by
  have hG : ∀ w2 : World, w2.files = w.files →
      (GetFileAttributes (fullBase env lpBaseFile) w2).1 = w.files (fullBase env lpBaseFile) := by
    intro w2 h
    rw [GetFileAttributes_fst, h]
  have hG2 := hG (match env.GetFullPathName lpBaseFile with
      | .error c => w.SetLastError c
      | .ok _ => w) (by cases env.GetFullPathName lpBaseFile <;> rfl)
  unfold construct
  simp only [initial]
  rw [hG2]
  cases hf : w.files (fullBase env lpBaseFile) with
  | none => simp
  | some a =>
    by_cases hR : a.reparsePoint = true
    · simp [hR]
    · cases bTransacted
      · simp [hR]
      · simp only [hR, Bool.false_eq_true, if_false, if_true]
        rw [(TxfPrepare_frame env _ _).1]
        simp [hR]

/-- C13: for a session constructed for a target path, with a fresh temporary
name: when transaction mode is still on after construction the working path
differs from the target path; and when the working path equals the target
path, transaction mode is off, which happens because it was not requested, or
no file exists at the target, or the target is a reparse point. -/
theorem C13_working_path_differs_when_transacted (env : CtorEnv) (lpBaseFile : String)
    (bTransacted : Bool) (w : World) (hFresh : FreshTempName env w) :
    ((construct env (some lpBaseFile) bTransacted w).1.m_bTransacted = true →
      (construct env (some lpBaseFile) bTransacted w).1.m_strTemp
        ≠ (construct env (some lpBaseFile) bTransacted w).1.m_strBase) ∧
    ((construct env (some lpBaseFile) bTransacted w).1.m_strTemp
        = (construct env (some lpBaseFile) bTransacted w).1.m_strBase →
      (construct env (some lpBaseFile) bTransacted w).1.m_bTransacted = false ∧
      (bTransacted = false ∨ w.files (fullBase env lpBaseFile) = none ∨
        ∃ a, w.files (fullBase env lpBaseFile) = some a ∧ a.reparsePoint = true)) := by
  have key : (construct env (some lpBaseFile) bTransacted w).1.m_bTransacted = true →
      (construct env (some lpBaseFile) bTransacted w).1.m_strTemp
        ≠ (construct env (some lpBaseFile) bTransacted w).1.m_strBase := by
    intro hT
    obtain ⟨hb, hs⟩ := construct_shape env lpBaseFile bTransacted w
    rw [hb]
    rcases hs with ⟨h1, _⟩ | ⟨_, hex, h2 | ⟨dir, hdir, h2, _, _⟩⟩
    · rw [h1] at hT; exact absurd hT (by simp)
    · rw [h2.1]; exact append_suffix_ne _
    · rw [h2]
      intro e
      rw [← e, hFresh dir hdir] at hex
      simp at hex
  refine ⟨key, fun he => ?_⟩
  have hF : (construct env (some lpBaseFile) bTransacted w).1.m_bTransacted = false := by
    cases hT : (construct env (some lpBaseFile) bTransacted w).1.m_bTransacted
    · rfl
    · exact absurd he (key hT)
  refine ⟨hF, ?_⟩
  have hiff := construct_transacted env lpBaseFile bTransacted w
  rw [hF] at hiff
  cases bTransacted
  · exact Or.inl rfl
  · cases hf : w.files (fullBase env lpBaseFile) with
    | none => exact Or.inr (Or.inl rfl)
    | some a =>
      refine Or.inr (Or.inr ⟨a, rfl, ?_⟩)
      cases hR : a.reparsePoint
      · exact absurd (hiff.mpr ⟨rfl, a, hf, hR⟩) (by simp)
      · rfl

/-- Witness for C13 on the concrete scenario: the staged session for
`C:\db.kdb` has a working path different from the target. -/
theorem C13_working_path_differs_when_transacted_witness :
    (construct demoCtorEnv (some "C:\\db.kdb") true demoWorld).1.m_strTemp
      ≠ (construct demoCtorEnv (some "C:\\db.kdb") true demoWorld).1.m_strBase :=
  (C13_working_path_differs_when_transacted demoCtorEnv "C:\\db.kdb" true demoWorld
    demo_fresh).1 (by decide)

theorem TxfIsSupported_fst (env : CtorEnv) (ch : Char) (w w2 : World) :
    (TxfIsSupported env ch w).1 = (TxfIsSupported env ch w2).1 := by
  unfold TxfIsSupported
  split_ifs
  · rfl
  · simp only []
    cases env.GetVolumeInformation (String.mk [ch, ':', '\\']) <;> rfl

theorem TxfPrepareStage_available (env : CtorEnv) (s : CFileTransactionEx) (w : World)
    (dir : String) (hDir : env.GetTempPath = .ok dir) (hDirNe : dir.length ≠ 0)
    (hDirOk : (w.files dir).isSome = true ∨ env.createDirectory = none) :
    ((TxfIsSupported env (env.SU_GetDriveLetter s.m_strBase) w).1 = true ∧
        (env.SU_GetDriveLetter (TxfTempFile dir env.newId) ≠ env.SU_GetDriveLetter s.m_strBase →
          (TxfIsSupported env (env.SU_GetDriveLetter (TxfTempFile dir env.newId)) w).1 = true) →
      (TxfPrepareStage env s w).1 =
        { s with m_strTxfMidFallback := s.m_strTemp, m_strTemp := TxfTempFile dir env.newId,
                 m_vToDelete := s.m_vToDelete ++ [TxfTempFile dir env.newId] }) ∧
    (¬ ((TxfIsSupported env (env.SU_GetDriveLetter s.m_strBase) w).1 = true ∧
        (env.SU_GetDriveLetter (TxfTempFile dir env.newId) ≠ env.SU_GetDriveLetter s.m_strBase →
          (TxfIsSupported env (env.SU_GetDriveLetter (TxfTempFile dir env.newId)) w).1 = true)) →
      (TxfPrepareStage env s w).1 = s) := by
  have hb : (match (GetFileAttributes dir w).1 with
      | some _ => (true, (GetFileAttributes dir w).2)
      | none => CreateDirectory env.createDirectory dir (GetFileAttributes dir w).2).1 = true := by
    rw [GetFileAttributes_fst]
    cases hf : w.files dir with
    | some f => rfl
    | none =>
      rcases hDirOk with h | h
      · simp [hf] at h
      · have hf2 : (GetFileAttributes dir w).2.files dir = none := by
          simp [GetFileAttributes, hf, World.SetLastError]
        simp [CreateDirectory, h, hf2]
  obtain ⟨wd, hwd⟩ : ∃ wd, wd = (match (GetFileAttributes dir w).1 with
      | some _ => (true, (GetFileAttributes dir w).2)
      | none => CreateDirectory env.createDirectory dir (GetFileAttributes dir w).2).2 :=
    ⟨_, rfl⟩
  unfold TxfPrepareStage
  simp only [hDir, hDirNe, if_false, TxfCreateID]
  simp only [hb, Bool.not_true, Bool.false_eq_true, if_false]
  rw [← hwd]
  have e1 := TxfIsSupported_fst env (env.SU_GetDriveLetter s.m_strBase) wd w
  have e2 := TxfIsSupported_fst env (env.SU_GetDriveLetter (TxfTempFile dir env.newId))
    (TxfIsSupported env (env.SU_GetDriveLetter s.m_strBase) wd).2 w
  by_cases hc : env.SU_GetDriveLetter (TxfTempFile dir env.newId)
      = env.SU_GetDriveLetter s.m_strBase
  · cases h1 : (TxfIsSupported env (env.SU_GetDriveLetter s.m_strBase) w).1 <;>
      simp [hc, e1, h1]
  · cases h1 : (TxfIsSupported env (env.SU_GetDriveLetter s.m_strBase) w).1 <;>
      cases h2 : (TxfIsSupported env (env.SU_GetDriveLetter (TxfTempFile dir env.newId)) w).1 <;>
      simp [hc, e1, e2, h1, h2]

theorem TxfPrepare_loaded (env : CtorEnv) (s : CFileTransactionEx) (w : World)
    (h1 : s.m_hKtmW32 = false) (h2 : s.m_hKernel32 = false)
    (hK : env.loadKtmW32 = none) (hC1 : env.procCreateTransaction = none)
    (hC2 : env.procCommitTransaction = none) (hL : env.loadKernel32 = none)
    (hM : env.procMoveFileTransacted = none) :
    TxfPrepare env s w =
      TxfPrepareStage env
        { s with m_hKtmW32 := true, m_fnCreateTransaction := true,
                 m_fnCommitTransaction := true, m_hKernel32 := true,
                 m_fnMoveFileTransacted := true }
        ((w.record (.LoadLibrary "KtmW32.dll")).record (.LoadLibrary "Kernel32.dll")) := by
  simp [TxfPrepare, h1, h2, hK, hC1, hC2, hL, hM, LoadLibrary, GetProcAddress]

theorem TxfIsSupported_iff (env : CtorEnv) (ch : Char) (w : World) :
    (TxfIsSupported env ch w).1 = true ↔ VolumeSupportsTransactions env ch := by
  unfold TxfIsSupported VolumeSupportsTransactions
  by_cases h0 : ch = Char.ofNat 0
  · simp [h0]
  · simp only [h0, if_false, ne_eq, not_false_eq_true, true_and]
    cases hv : env.GetVolumeInformation (String.mk [ch, ':', '\\']) with
    | error c => simp
    | ok b => cases b <;> simp

/-- C14: for a pre-existing target that is no reparse point, with transactions
requested, both libraries and the three entry points loaded, and the temporary
directory there (or created): when the target's volume supports transactions
(`GetVolumeInformation` on the root of its drive reports
`FILE_SUPPORTS_TRANSACTIONS`) and, if the drive of the temporary path differs
from the target's, the temporary volume supports them too, the working path is
the path in the
temporary directory, the intermediate path is the target path with `.tmp`
appended, and the pending-deletion list holds the working path alone;
otherwise the working path is the target path with `.tmp` appended, no
intermediate path is recorded and the pending-deletion list is empty. -/
theorem C14_staging_iff_volumes_support (env : CtorEnv) (lpBaseFile : String) (w : World)
    (a : FileInfo) (dir : String)
    (hA : w.files (fullBase env lpBaseFile) = some a) (hR : a.reparsePoint = false)
    (hK : env.loadKtmW32 = none) (hC1 : env.procCreateTransaction = none)
    (hC2 : env.procCommitTransaction = none) (hL : env.loadKernel32 = none)
    (hM : env.procMoveFileTransacted = none)
    (hDir : env.GetTempPath = .ok dir) (hDirNe : dir.length ≠ 0)
    (hDirOk : (w.files dir).isSome = true ∨ env.createDirectory = none) :
    ((VolumeSupportsTransactions env (env.SU_GetDriveLetter (fullBase env lpBaseFile)) ∧
        (env.SU_GetDriveLetter (TxfTempFile dir env.newId)
            ≠ env.SU_GetDriveLetter (fullBase env lpBaseFile) →
          VolumeSupportsTransactions env (env.SU_GetDriveLetter (TxfTempFile dir env.newId)))) →
      (construct env (some lpBaseFile) true w).1.m_strTemp = TxfTempFile dir env.newId ∧
      (construct env (some lpBaseFile) true w).1.m_strTxfMidFallback
        = fullBase env lpBaseFile ++ g_lpTempSuffix ∧
      (construct env (some lpBaseFile) true w).1.m_vToDelete = [TxfTempFile dir env.newId]) ∧
    (¬ (VolumeSupportsTransactions env (env.SU_GetDriveLetter (fullBase env lpBaseFile)) ∧
        (env.SU_GetDriveLetter (TxfTempFile dir env.newId)
            ≠ env.SU_GetDriveLetter (fullBase env lpBaseFile) →
          VolumeSupportsTransactions env (env.SU_GetDriveLetter (TxfTempFile dir env.newId)))) →
      (construct env (some lpBaseFile) true w).1.m_strTemp
        = fullBase env lpBaseFile ++ g_lpTempSuffix ∧
      (construct env (some lpBaseFile) true w).1.m_strTxfMidFallback = "" ∧
      (construct env (some lpBaseFile) true w).1.m_vToDelete = []) := by
  have hG : ∀ w2 : World, w2.files = w.files →
      GetFileAttributes (fullBase env lpBaseFile) w2 = (some a, w2) := by
    intro w2 h
    simp [GetFileAttributes, h, hA]
  have hc : ∃ w1 : World, w1.files = w.files ∧
      construct env (some lpBaseFile) true w =
        TxfPrepareStage env
          { initial true with
              m_strBase := fullBase env lpBaseFile,
              m_strTemp := fullBase env lpBaseFile ++ g_lpTempSuffix,
              m_hKtmW32 := true, m_fnCreateTransaction := true,
              m_fnCommitTransaction := true, m_hKernel32 := true,
              m_fnMoveFileTransacted := true } w1 := by
    refine ⟨(((match env.GetFullPathName lpBaseFile with
        | .error c => w.SetLastError c
        | .ok _ => w).record (.LoadLibrary "KtmW32.dll")).record
          (.LoadLibrary "Kernel32.dll")), ?_, ?_⟩
    · cases env.GetFullPathName lpBaseFile <;> rfl
    · simp only [construct, initial]
      rw [hG _ (by cases env.GetFullPathName lpBaseFile <;> rfl)]
      simp only [hR, Bool.false_eq_true, if_false, if_true]
      rw [TxfPrepare_loaded env _ _ rfl rfl hK hC1 hC2 hL hM]
  obtain ⟨w1, hw1, hcon⟩ := hc
  have key := TxfPrepareStage_available env
    { initial true with
        m_strBase := fullBase env lpBaseFile,
        m_strTemp := fullBase env lpBaseFile ++ g_lpTempSuffix,
        m_hKtmW32 := true, m_fnCreateTransaction := true,
        m_fnCommitTransaction := true, m_hKernel32 := true,
        m_fnMoveFileTransacted := true } w1 dir hDir hDirNe (by rw [hw1]; exact hDirOk)
  simp only [] at key
  rw [TxfIsSupported_fst env (env.SU_GetDriveLetter (fullBase env lpBaseFile)) w1 w,
    TxfIsSupported_fst env (env.SU_GetDriveLetter (TxfTempFile dir env.newId)) w1 w] at key
  simp only [TxfIsSupported_iff] at key
  rw [hcon]
  constructor
  · intro h
    rw [key.1 h]
    exact ⟨rfl, rfl, rfl⟩
  · intro h
    rw [key.2 h]
    exact ⟨rfl, rfl, rfl⟩

/-- Witness for C14 on the concrete scenario: when every volume supports
transactions the working file is staged in the temporary directory, and when
no volume does the working path is the target with `.tmp` appended and nothing
is pending deletion. -/
theorem C14_staging_iff_volumes_support_witness :
    (construct demoCtorEnv (some "C:\\db.kdb") true demoWorld).1.m_vToDelete
      = ["C:\\Temp\\KeePass_TxF_7f3a.tmp"] ∧
    (construct demoPlainCtorEnv (some "C:\\db.kdb") true demoWorld).1.m_strTemp
      = "C:\\db.kdb.tmp" ∧
    (construct demoPlainCtorEnv (some "C:\\db.kdb") true demoWorld).1.m_vToDelete = [] :=
  ⟨((C14_staging_iff_volumes_support demoCtorEnv "C:\\db.kdb" demoWorld
      (demoFile "AAAAAAAAAA") "C:\\Temp\\" (by decide) rfl rfl rfl rfl rfl rfl rfl (by decide)
      (Or.inl (by decide))).1
      ⟨⟨by decide, rfl⟩, fun _ => ⟨by decide, rfl⟩⟩).2.2.trans (by decide),
    ((C14_staging_iff_volumes_support demoPlainCtorEnv "C:\\db.kdb" demoWorld
      (demoFile "AAAAAAAAAA") "C:\\Temp\\" (by decide) rfl rfl rfl rfl rfl rfl rfl (by decide)
      (Or.inl (by decide))).2
      (fun h => Bool.noConfusion (Except.ok.inj h.1.2))).1.trans (by decide),
    ((C14_staging_iff_volumes_support demoPlainCtorEnv "C:\\db.kdb" demoWorld
      (demoFile "AAAAAAAAAA") "C:\\Temp\\" (by decide) rfl rfl rfl rfl rfl rfl rfl (by decide)
      (Or.inl (by decide))).2
      (fun h => Bool.noConfusion (Except.ok.inj h.1.2))).2.2⟩

theorem captureStep_emits_of (P : Call → Prop) (env : CommitEnv) (s : CFileTransactionEx)
    (w : World) (h1 : ∀ p b, P (.SetFileAttributes p b)) (h2 : ∀ p, P (.DecryptFile p)) :
    Emits P w (captureStep env s w).2.2.2.2 := by
  have e1 := emits_UnhideFile (P := P) env.unhide s.m_strBase w (h1 _ _)
  have e2 := emits_GetFileAttributes P s.m_strBase (UnhideFile env.unhide s.m_strBase w).2
  have e12 := e1.etrans e2
  unfold captureStep
  simp only []
  split
  · exact e12
  · refine e12.etrans ?_
    refine @Emits.etrans _ _ (if _ then _ else _) _ ?_
      ((emits_GetFileCreationTime _ _ _ _).etrans (emits_GetNamedSecurityInfo _ _ _ _))
    split
    · exact emits_DecryptFile _ _ _ (h2 _)
    · exact Emits.erefl _ _

theorem restoreSteps_emits_of (P : Call → Prop) (env : CommitEnv) (s : CFileTransactionEx)
    (otCreation : Option Nat) (dwAttrib : Option FileInfo) (pAcl : Option Nat)
    (bMadeUnhidden : Bool) (w : World)
    (h1 : ∀ p t, P (.SetFileCreationTime p t)) (h2 : ∀ p, P (.EncryptFile p))
    (h3 : ∀ p a, P (.SetNamedSecurityInfo p a)) (h4 : ∀ p b, P (.SetFileAttributes p b)) :
    Emits P w (restoreSteps env s otCreation dwAttrib pAcl bMadeUnhidden w) := by
  unfold restoreSteps
  simp only []
  have k1 : ∀ w1 : World, Emits P w1
      (match otCreation with
        | some t => (SetFileCreationTime env.setCreationTime s.m_strBase t w1).2
        | none => w1) := by
    intro w1
    split
    · exact emits_SetFileCreationTime _ _ _ _ (h1 _ _)
    · exact Emits.erefl _ _
  have k2 : ∀ w1 : World, Emits P w1
      (match dwAttrib with
        | some a => if a.encrypted then (EncryptFile env.encrypt s.m_strBase w1).2 else w1
        | none => w1) := by
    intro w1
    split
    · split
      · exact emits_EncryptFile _ _ _ (h2 _)
      · exact Emits.erefl _ _
    · exact Emits.erefl _ _
  have k3 : ∀ w1 : World, Emits P w1
      (match pAcl with
        | some acl => (SetNamedSecurityInfo env.setSecurity s.m_strBase acl w1).2
        | none => w1) := by
    intro w1
    split
    · exact emits_SetNamedSecurityInfo _ _ _ _ (h3 _ _)
    · exact Emits.erefl _ _
  have k123 := ((k1 w).etrans (k2 _)).etrans (k3 _)
  split
  · exact k123.etrans (emits_HideFile _ _ _ _ (h4 _ _))
  · exact k123

theorem replaceStep_emits_of_mid (env : CommitEnv) (s : CFileTransactionEx) (bAttrib : Bool)
    (w : World) (hM : s.m_strTxfMidFallback.length ≠ 0) :
    Emits (fun c => c.isSimpleReplace = false) w (replaceStep env s bAttrib w).2 := by
  have hT := TxfMove_emits env s false w
  rw [replaceStep_eq]
  split_ifs with h1 h2
  · exact hT
  · exact hT
  · exact absurd (TxfMove_nonfatal env s w (by simpa using h1) (by simpa using h2)).1 hM
  · exact absurd (TxfMove_nonfatal env s w (by simpa using h1) (by simpa using h2)).1 hM
  · exact absurd (TxfMove_nonfatal env s w (by simpa using h1) (by simpa using h2)).1 hM

theorem replaceStep_emits_of_no_mid (env : CommitEnv) (s : CFileTransactionEx) (bAttrib : Bool)
    (w : World) (hM : s.m_strTxfMidFallback.length = 0) :
    Emits (fun c => c.isTxfAttempt = false) w (replaceStep env s bAttrib w).2 := by
  rw [replaceStep_eq, TxfMove_mid_empty env s false w hM]
  simp only [Bool.false_eq_true, if_false]
  split_ifs
  · exact (DeleteFile_emits (fun c => c.isTxfAttempt = false) _ _ _ rfl).etrans
      (MoveFile_emits (fun c => c.isTxfAttempt = false) _ _ _ _ rfl)
  · exact DeleteFile_emits (fun c => c.isTxfAttempt = false) _ _ _ rfl
  · exact MoveFile_emits (fun c => c.isTxfAttempt = false) _ _ _ _ rfl

theorem CommitWrite_emits_of (P : Call → Prop) (env : CommitEnv) (s : CFileTransactionEx)
    (w : World)
    (h1 : ∀ p t, P (.SetFileCreationTime p t)) (h2 : ∀ p, P (.EncryptFile p))
    (h3 : ∀ p a, P (.SetNamedSecurityInfo p a)) (h4 : ∀ p b, P (.SetFileAttributes p b))
    (h5 : ∀ p, P (.DecryptFile p))
    (hR : ∀ (s2 : CFileTransactionEx) (b : Bool) (w2 : World),
      s2.m_strTxfMidFallback = s.m_strTxfMidFallback → Emits P w2 (replaceStep env s2 b w2).2) :
    Emits P w (CommitWrite env s w).2.2 := by
  rw [CommitWrite_eq]
  split_ifs
  · exact Emits.of_trace rfl
  · rw [CommitWriteTransaction_eq]
    have ec := captureStep_emits_of P env s w h4 h5
    have er := hR { s with m_pSec := (captureStep env s w).2.2.2.1.or s.m_pSec }
      (captureStep env s w).2.1.isSome (captureStep env s w).2.2.2.2 rfl
    split_ifs
    · exact (ec.etrans er).etrans (restoreSteps_emits_of P env _ _ _ _ _ _ h1 h2 h3 h4)
    · exact ec.etrans er
  · exact emits_HideFile _ _ _ _ (h4 _ _)
  · exact Emits.erefl _ _

/-- C16: `TxfMove` returns a failure without the fatal flag only when no
intermediate path was prepared, and then it touches nothing.  In a commit that
makes a `DeleteFile` or `MoveFile` call (the simple-replace fallback), no
intermediate path was prepared and the commit makes no call of a transactional
or a two-hop move: no `CreateTransaction`, `MoveFileTransacted`,
`CommitTransaction` or `MoveFileEx`. -/
theorem C16_simple_replace_only_without_attempt (env : CommitEnv) (s : CFileTransactionEx)
    (w : World) :
    ((TxfMove env s false w).1 = false → (TxfMove env s false w).2.1 = false →
      s.m_strTxfMidFallback.length = 0 ∧ TxfMove env s false w = (false, false, w)) ∧
    (∀ c ∈ callsSince w (CommitWrite env s w).2.2, c.isSimpleReplace = true →
      s.m_strTxfMidFallback.length = 0 ∧
      ∀ d ∈ callsSince w (CommitWrite env s w).2.2, d.isTxfAttempt = false) := by
  refine ⟨TxfMove_nonfatal env s w, ?_⟩
  intro c hc hs
  by_cases hM : s.m_strTxfMidFallback.length = 0
  · refine ⟨hM, ?_⟩
    exact (CommitWrite_emits_of (fun d => d.isTxfAttempt = false) env s w
      (fun _ _ => rfl) (fun _ => rfl) (fun _ _ => rfl) (fun _ _ => rfl) (fun _ => rfl)
      (fun s2 b w2 e => replaceStep_emits_of_no_mid env s2 b w2 (by rw [e]; exact hM))).callsSince
  · exfalso
    have := (CommitWrite_emits_of (fun d => d.isSimpleReplace = false) env s w
      (fun _ _ => rfl) (fun _ => rfl) (fun _ _ => rfl) (fun _ _ => rfl) (fun _ => rfl)
      (fun s2 b w2 e => replaceStep_emits_of_mid env s2 b w2 (by rw [e]; exact hM))).callsSince
      c hc
    rw [hs] at this
    exact Bool.noConfusion this

/-- Witness for C16: on a platform without `KtmW32.dll` the commit deletes the
target and renames the working file, and makes no call of a transactional or
two-hop move. -/
theorem C16_simple_replace_only_without_attempt_witness :
    demoOldSession.m_strTxfMidFallback.length = 0 :=
  ((C16_simple_replace_only_without_attempt demoCommitEnv demoOldSession demoOldStaged).2
    (Call.DeleteFile "C:\\db.kdb") (by decide) rfl).1

theorem SetFileCreationTime_trace (fault : Fault) (p : String) (t : Nat) (w : World) :
    (SetFileCreationTime fault p t w).2.trace = w.trace ++ [Call.SetFileCreationTime p t] := by
  unfold SetFileCreationTime
  split <;> rfl

theorem EncryptFile_trace (fault : Fault) (p : String) (w : World) :
    (EncryptFile fault p w).2.trace = w.trace ++ [Call.EncryptFile p] := by
  unfold EncryptFile
  split <;> rfl

theorem SetNamedSecurityInfo_trace (fault : Fault) (p : String) (acl : Nat) (w : World) :
    (SetNamedSecurityInfo fault p acl w).2.trace
      = w.trace ++ [Call.SetNamedSecurityInfo p acl] := by
  unfold SetNamedSecurityInfo
  split <;> rfl

theorem SetFileAttributes_trace (fault : Fault) (p : String) (b : Bool) (w : World) :
    (SetFileAttributes fault p b w).2.trace = w.trace ++ [Call.SetFileAttributes p b] := by
  unfold SetFileAttributes
  split <;> rfl

theorem HideFile_trace (fault : Fault) (p : String) (b : Bool) (w : World)
    (h : (w.files p).isSome = true) :
    (HideFile fault p b w).2.trace = w.trace ++ [Call.SetFileAttributes p b] := by
  cases hf : w.files p with
  | none => simp [hf] at h
  | some f =>
    have e : GetFileAttributes p w = (some f, w) := by simp [GetFileAttributes, hf]
    unfold HideFile
    rw [e]
    exact SetFileAttributes_trace fault p b w

theorem SetFileCreationTime_isSome (fault : Fault) (p : String) (t : Nat) (w : World)
    (q : String) :
    ((SetFileCreationTime fault p t w).2.files q).isSome = (w.files q).isSome :=
  (keeps_SetFileCreationTime (g := FileInfo.content) (fun _ _ => rfl) fault p t w).isSome q

theorem EncryptFile_isSome (fault : Fault) (p : String) (w : World) (q : String) :
    ((EncryptFile fault p w).2.files q).isSome = (w.files q).isSome :=
  (keeps_EncryptFile (g := FileInfo.content) (fun _ _ => rfl) fault p w).isSome q

theorem SetNamedSecurityInfo_isSome (fault : Fault) (p : String) (acl : Nat) (w : World)
    (q : String) :
    ((SetNamedSecurityInfo fault p acl w).2.files q).isSome = (w.files q).isSome :=
  (keeps_SetNamedSecurityInfo (g := FileInfo.content) (fun _ _ => rfl) fault p acl w).isSome q

theorem restoreSteps_trace (env : CommitEnv) (s : CFileTransactionEx) (otCreation : Option Nat)
    (dwAttrib : Option FileInfo) (pAcl : Option Nat) (bMadeUnhidden : Bool) (w : World)
    (h : (w.files s.m_strBase).isSome = true) :
    (restoreSteps env s otCreation dwAttrib pAcl bMadeUnhidden w).trace =
      w.trace ++ specRestoreOrder s.m_strBase otCreation
        (match dwAttrib with
          | some a => a.encrypted
          | none => false) pAcl bMadeUnhidden := by
  have hh : ∀ (w1 : World), (w1.files s.m_strBase).isSome = true →
      (HideFile env.hide s.m_strBase true w1).2.trace
        = w1.trace ++ [Call.SetFileAttributes s.m_strBase true] :=
    fun w1 h1 => HideFile_trace _ _ _ _ h1
  cases otCreation <;> cases pAcl <;> cases bMadeUnhidden <;> cases dwAttrib
  all_goals first
    | (simp [restoreSteps, specRestoreOrder, hh, h, SetFileCreationTime_trace,
        SetNamedSecurityInfo_trace, SetFileCreationTime_isSome,
        SetNamedSecurityInfo_isSome]; done)
    | (rename_i a
       cases he : a.encrypted <;>
         simp [restoreSteps, specRestoreOrder, hh, h, he, SetFileCreationTime_trace,
           SetNamedSecurityInfo_trace, EncryptFile_trace, SetFileCreationTime_isSome,
           SetNamedSecurityInfo_isSome, EncryptFile_isSome])

/-- C15: in every transacted commit that succeeds, the calls recorded after the
replace are exactly the restore steps in the fixed order: `SetFileCreationTime`
when a creation time was captured, then `EncryptFile` when the target was
encrypted, then `SetNamedSecurityInfo` when a DACL was captured, then the
re-hide when the target had been un-hidden; nothing else follows the replace
and no step runs without its captured value. -/
theorem C15_restore_steps_in_fixed_order (env : CommitEnv) (s : CFileTransactionEx)
    (w : World) (hT : s.m_bTransacted = true) (hB : s.m_strBase.length ≠ 0)
    (hOk : (CommitWrite env s w).1 = true) :
    (CommitWrite env s w).2.2.trace =
      (replaceStep env s (captureStep env s w).2.1.isSome (captureStep env s w).2.2.2.2).2.trace
      ++ specRestoreOrder s.m_strBase (captureStep env s w).2.2.1
          (match (captureStep env s w).2.1 with
            | some a => a.encrypted
            | none => false)
          (captureStep env s w).2.2.2.1 (captureStep env s w).1 := by
  obtain ⟨e1, e2⟩ := CommitWrite_transacted env s w hT hB
  rw [e1] at hOk
  rw [e2]
  rw [CommitWriteTransaction_eq] at hOk ⊢
  have hr : (replaceStep env { s with m_pSec := (captureStep env s w).2.2.2.1.or s.m_pSec }
      (captureStep env s w).2.1.isSome (captureStep env s w).2.2.2.2).1 = true := by
    by_contra hn
    rw [if_neg hn] at hOk
    exact Bool.false_ne_true hOk
  rw [if_pos hr]
  obtain ⟨f, _, hb, _⟩ := replaceStep_files_of_true _ _ _ _ hr
  exact restoreSteps_trace env { s with m_pSec := (captureStep env s w).2.2.2.1.or s.m_pSec }
    _ _ _ _ _ (by simp only [] at hb; simp [hb])

/-- Witness for C15: a hidden, encrypted `C:\db.kdb` is replaced through the
transactional move; after the two library loads of the constructor and the
calls of the capture and of the move, the four restore steps follow in the
fixed order. -/
theorem C15_restore_steps_in_fixed_order_witness :
    (CommitWrite demoCommitEnv demoSession
      (demoStaged.put "C:\\db.kdb"
        { demoFile "AAAAAAAAAA" with hidden := true, encrypted := true })).2.2.trace =
      [Call.LoadLibrary "KtmW32.dll", Call.LoadLibrary "Kernel32.dll",
       Call.SetFileAttributes "C:\\db.kdb" false, Call.DecryptFile "C:\\db.kdb",
       Call.CreateTransaction "KeePass TxF - 9b21",
       Call.MoveFileTransacted "C:\\Temp\\KeePass_TxF_7f3a.tmp" "C:\\db.kdb",
       Call.CommitTransaction, Call.CloseHandle,
       Call.SetFileCreationTime "C:\\db.kdb" 1000, Call.EncryptFile "C:\\db.kdb",
       Call.SetNamedSecurityInfo "C:\\db.kdb" 7, Call.SetFileAttributes "C:\\db.kdb" true] :=
  (C15_restore_steps_in_fixed_order demoCommitEnv demoSession
    (demoStaged.put "C:\\db.kdb"
      { demoFile "AAAAAAAAAA" with hidden := true, encrypted := true })
    (by decide) (by decide) (by decide)).trans (by decide)

/-! ## The metadata round trip -/

theorem captureStep_of_existing (env : CommitEnv) (s : CFileTransactionEx) (w : World)
    (a : FileInfo) (ha : w.files s.m_strBase = some a) (hU : env.unhide = none)
    (hG : env.getCreationTime = none) :
    (captureStep env s w).1 = a.hidden ∧
    (match (captureStep env s w).2.1 with
      | some a2 => a2.encrypted
      | none => false) = a.encrypted ∧
    (captureStep env s w).2.2.1 = some a.creationTime := by
  cases hh : a.hidden <;> cases he : a.encrypted <;> cases hd : env.decrypt <;>
    simp [captureStep, UnhideFile, HideFile, GetFileAttributes, SetFileAttributes, DecryptFile,
      GetFileCreationTime, World.put, World.record, World.SetLastError, ha, hU, hG, hh, he, hd]

theorem restoreSteps_file (env : CommitEnv) (s : CFileTransactionEx) (otCreation : Option Nat)
    (dwAttrib : Option FileInfo) (pAcl : Option Nat) (bMadeUnhidden : Bool) (w : World)
    (f : FileInfo) (hf : w.files s.m_strBase = some f)
    (hS : env.setCreationTime = none) (hE : env.encrypt = none) (hH : env.hide = none) :
    ∃ g, (restoreSteps env s otCreation dwAttrib pAcl bMadeUnhidden w).files s.m_strBase
        = some g ∧
      g.content = f.content ∧
      g.creationTime = otCreation.getD f.creationTime ∧
      g.encrypted = ((match dwAttrib with
        | some a => a.encrypted
        | none => false) || f.encrypted) ∧
      g.hidden = (bMadeUnhidden || f.hidden) := by
  cases dwAttrib with
  | none =>
    cases otCreation <;> cases pAcl <;> cases bMadeUnhidden <;> cases hx : env.setSecurity <;>
      simp [restoreSteps, HideFile, GetFileAttributes, SetFileAttributes,
        SetFileCreationTime, SetNamedSecurityInfo, World.put, World.record,
        World.SetLastError, hf, hS, hE, hH, hx]
  | some a =>
    cases he : a.encrypted <;> cases otCreation <;> cases pAcl <;> cases bMadeUnhidden <;>
      cases hx : env.setSecurity <;>
      simp [restoreSteps, HideFile, GetFileAttributes, SetFileAttributes,
        SetFileCreationTime, SetNamedSecurityInfo, EncryptFile, World.put, World.record,
        World.SetLastError, hf, hS, hE, hH, hx, he]

/-- C12, as the code has it: for a pre-existing target and a working file that
is itself neither hidden nor encrypted, after a successful transacted commit in
which the un-hide, the capture of the creation time and the restore operations
succeed, the target holds the working file's content and has the creation
time, hidden flag and encrypted flag the target had before the commit. -/
theorem C12_metadata_round_trip (env : CommitEnv) (s : CFileTransactionEx) (w : World)
    (a f : FileInfo) (hT : s.m_bTransacted = true) (hB : s.m_strBase.length ≠ 0)
    (hne : s.m_strTemp ≠ s.m_strBase)
    (ha : w.files s.m_strBase = some a) (hf : w.files s.m_strTemp = some f)
    (hfh : f.hidden = false) (hfe : f.encrypted = false)
    (hU : env.unhide = none) (hG : env.getCreationTime = none)
    (hS : env.setCreationTime = none) (hE : env.encrypt = none) (hH : env.hide = none)
    (hOk : (CommitWrite env s w).1 = true) :
    ∃ g, (CommitWrite env s w).2.2.files s.m_strBase = some g ∧
      g.content = f.content ∧ g.creationTime = a.creationTime ∧
      g.hidden = a.hidden ∧ g.encrypted = a.encrypted := by
  obtain ⟨e1, e2⟩ := CommitWrite_transacted env s w hT hB
  rw [e1] at hOk
  rw [e2]
  rw [CommitWriteTransaction_eq] at hOk ⊢
  have hr : (replaceStep env { s with m_pSec := (captureStep env s w).2.2.2.1.or s.m_pSec }
      (captureStep env s w).2.1.isSome (captureStep env s w).2.2.2.2).1 = true := by
    by_contra hn
    rw [if_neg hn] at hOk
    exact Bool.false_ne_true hOk
  rw [if_pos hr]
  obtain ⟨f1, hf1, hb, _⟩ := replaceStep_files_of_true _ _ _ _ hr
  simp only [] at hf1 hb
  have hk := ((captureStep_keeps env s w) s.m_strTemp).1 hne
  rw [hk, hf] at hf1
  cases hf1
  obtain ⟨c1, c2, c3⟩ := captureStep_of_existing env s w a ha hU hG
  obtain ⟨g, hg, g1, g2, g3, g4⟩ := restoreSteps_file env
    { s with m_pSec := (captureStep env s w).2.2.2.1.or s.m_pSec }
    (captureStep env s w).2.2.1 (captureStep env s w).2.1 (captureStep env s w).2.2.2.1
    (captureStep env s w).1 _ f hb hS hE hH
  refine ⟨g, hg, g1, ?_, ?_, ?_⟩
  · rw [g2, c3]; rfl
  · rw [g4, c1, hfh]; simp
  · rw [g3, c2, hfe]; simp

/-- Witness for C12: a hidden `C:\db.kdb` is replaced by a plain working file
and is hidden again afterwards. -/
theorem C12_metadata_round_trip_witness :
    ∃ g, (CommitWrite demoCommitEnv demoSession
        (demoStaged.put "C:\\db.kdb"
          { demoFile "AAAAAAAAAA" with hidden := true })).2.2.files demoSession.m_strBase
        = some g ∧
      g.content = "BBBBBBBBBB" ∧ g.creationTime = 1000 ∧ g.hidden = true ∧
      g.encrypted = false :=
  C12_metadata_round_trip demoCommitEnv demoSession
    (demoStaged.put "C:\\db.kdb" { demoFile "AAAAAAAAAA" with hidden := true })
    { demoFile "AAAAAAAAAA" with hidden := true } (demoFile "BBBBBBBBBB")
    (by decide) (by decide) (by decide) (by decide) (by decide) rfl rfl rfl rfl rfl rfl rfl
    (by decide)

/-- C12 as stated fails: the target `C:\db.kdb` is not encrypted, the working
file is encrypted (as a file written into an encrypted temporary directory is),
every operation of the commit succeeds, and afterwards the target is
encrypted. -/
theorem C12_counterexample :
    (demoStaged.put "C:\\Temp\\KeePass_TxF_7f3a.tmp"
      { demoFile "BBBBBBBBBB" with encrypted := true }).files "C:\\db.kdb"
      = some (demoFile "AAAAAAAAAA") ∧
    (demoFile "AAAAAAAAAA").encrypted = false ∧
    (CommitWrite demoCommitEnv demoSession
      (demoStaged.put "C:\\Temp\\KeePass_TxF_7f3a.tmp"
        { demoFile "BBBBBBBBBB" with encrypted := true })).1 = true ∧
    (CommitWrite demoCommitEnv demoSession
      (demoStaged.put "C:\\Temp\\KeePass_TxF_7f3a.tmp"
        { demoFile "BBBBBBBBBB" with encrypted := true })).2.2.files "C:\\db.kdb"
      = some { demoFile "BBBBBBBBBB" with encrypted := true } := by
  decide

/-! ## Lemmas on `CPopularPasswords` -/

theorem cstr_no_zero (l : List Nat) : 0 ∉ cstr l := by
  intro h
  have := List.mem_takeWhile_imp h
  simp at this

theorem cstr_of_no_zero {w : List Nat} (h : 0 ∉ w) : cstr w = w := by
  unfold cstr
  rw [List.takeWhile_eq_self_iff]
  intro c hc
  have : c ≠ 0 := fun e => h (e ▸ hc)
  simpa using this

theorem cstr_cstr (l : List Nat) : cstr (cstr l) = cstr l :=
  cstr_of_no_zero (cstr_no_zero l)

theorem splitOnP_exists_cons {α : Type} (p : α → Bool) (l : List α) :
    ∃ s ss, l.splitOnP p = s :: ss := by
  have h := List.splitOnP_ne_nil p l
  cases hs : l.splitOnP p with
  | nil => exact absurd hs h
  | cons s ss => exact ⟨s, ss, rfl⟩

theorem splitOnP_append_sep {α : Type} (p : α → Bool) (l : List α) (c : α) (hc : p c = true) :
    (l ++ [c]).splitOnP p = l.splitOnP p ++ [[]] := by
  induction l with
  | nil => simp [List.splitOnP_cons, hc, List.splitOnP_nil]
  | cons x xs ih =>
    obtain ⟨s, ss, hs⟩ := splitOnP_exists_cons p xs
    rw [List.cons_append, List.splitOnP_cons, List.splitOnP_cons, ih, hs]
    cases hx : p x <;> simp [List.modifyHead]

/-- The pointer `lpWord` of `Add` for the characters `acc` read since the last
whitespace: null when there are none. -/
theorem addLoop_eq (rt : CRuntime) (hl : rt.Lawful) (text : List Nat) :
    ∀ (acc : List Nat) (d : List TppDictPtr),
      CPopularPasswords.addLoop rt text
          (if acc = [] then none else some (acc.map rt.towlower)) d
        = (((((text.splitOnP rt.iswspace).modifyHead (fun s => acc ++ s)).dropLast).filter
              (fun s => !s.isEmpty)).map (fun s => s.map rt.towlower)).foldl
            (fun d w => CPopularPasswords.insertWord rt.size64 w d) d := by
  induction text with
  | nil =>
    intro acc d
    simp [CPopularPasswords.addLoop, List.splitOnP_nil, List.modifyHead]
  | cons x xs ih =>
    intro acc d
    obtain ⟨s, ss, hs⟩ := splitOnP_exists_cons rt.iswspace xs
    have ih0 := ih []
    simp only [if_true, hs, List.modifyHead, List.nil_append] at ih0
    rw [List.splitOnP_cons, hs]
    unfold CPopularPasswords.addLoop
    simp only [hl.space_lower]
    cases hx : rt.iswspace x
    · have ih1 := ih (acc ++ [x])
      simp only [hs, List.modifyHead, List.append_assoc, List.singleton_append,
        List.append_eq_nil, and_false, if_false, List.map_append, List.map_cons,
        List.map_nil, reduceCtorEq] at ih1
      by_cases ha : acc = []
      · subst ha
        simpa [List.modifyHead] using ih1 d
      · simpa [List.modifyHead, ha] using ih1 d
    · by_cases ha : acc = []
      · subst ha
        simp [List.modifyHead, ih0]
      · simp [List.modifyHead, ha, ih0, List.dropLast]

theorem addLoop_buffer (rt : CRuntime) (hl : rt.Lawful) (text : List Nat) (d : List TppDictPtr) :
    CPopularPasswords.addLoop rt
        (if rt.iswspace (text.getLast?.getD 0) = false then text ++ [10] else text) none d
      = (specWords rt text).foldl (fun d w => CPopularPasswords.insertWord rt.size64 w d) d := by
  have key := fun t => addLoop_eq rt hl t [] d
  simp only [if_true, List.nil_append] at key
  have hid : ∀ l : List (List Nat), l.modifyHead (fun s => s) = l := by
    intro l; cases l <;> rfl
  simp only [hid] at key
  rw [key]
  unfold specWords
  rcases List.eq_nil_or_concat text with h | ⟨init, c, h⟩
  · subst h
    have h0 : rt.iswspace 0 = false ∨ rt.iswspace 0 = true := by
      cases rt.iswspace 0 <;> simp
    rcases h0 with h0 | h0
    · simp [h0, List.splitOnP_cons, hl.space_lf, List.splitOnP_nil]
    · simp [h0, List.splitOnP_nil]
  · subst h
    simp only [List.concat_eq_append]
    have hlast : (init ++ [c]).getLast?.getD 0 = c := by simp
    rw [hlast]
    cases hc : rt.iswspace c
    · rw [if_pos rfl, splitOnP_append_sep _ (init ++ [c]) 10 hl.space_lf]
      simp
    · rw [if_neg (by simp), splitOnP_append_sep _ init c hc]
      simp

theorem specWords_nil (rt : CRuntime) : specWords rt [] = [] := by
  simp [specWords, List.splitOnP_nil]

theorem Add_dicts (rt : CRuntime) (hl : rt.Lawful) (t : Option (List Nat))
    (st : CPopularPasswords) :
    (CPopularPasswords.Add rt t st).g_vDicts
      = (specWords rt (CPopularPasswords.wideText rt t)).foldl
          (fun d w => CPopularPasswords.insertWord rt.size64 w d) st.g_vDicts := by
  cases t with
  | none => simp [CPopularPasswords.Add, CPopularPasswords.wideText, specWords_nil]
  | some bytes =>
    unfold CPopularPasswords.Add CPopularPasswords.wideText
    simp only []
    by_cases h1 : toInt32 (szlen bytes) ≤ 0
    · simp [h1, specWords_nil]
    · by_cases h2 : (rt.MultiByteToWideChar
          ((cstr bytes).take (toInt32 (szlen bytes)).toNat)).length = 0 ∨
          (rt.MultiByteToWideChar ((cstr bytes).take (toInt32 (szlen bytes)).toNat)).head?
            = some 0
      · rw [if_neg h1, if_neg h1, if_pos h2, if_pos h2]
        simp [specWords_nil]
      · rw [if_neg h1, if_neg h1, if_neg h2, if_neg h2]
        exact addLoop_buffer rt hl _ _

theorem TppDict.mem_insert (size64 : Bool) (p : TppDict) (w y : List Nat)
    (hp : ∀ y ∈ p, 0 ∉ y) (hw : 0 ∉ w) :
    y ∈ TppDict.insert size64 p w ↔ y ∈ p ∨ y = w := by
  unfold TppDict.insert TppDict.count
  by_cases h : p.any (fun y => TppDictHash size64 (some y) == TppDictHash size64 (some w)
      && TppDictPred (some y) (some w)) = true
  · rw [if_pos h]
    simp only [gt_iff_lt, Nat.lt_one_iff, Nat.pos_of_ne_zero, if_true, zero_lt_one]
    rw [List.any_eq_true] at h
    obtain ⟨z, hz, hzw⟩ := h
    simp only [TppDictPred, Bool.and_eq_true, beq_iff_eq] at hzw
    rw [cstr_of_no_zero (hp z hz), cstr_of_no_zero hw] at hzw
    constructor
    · exact fun h => Or.inl h
    · rintro (h | h)
      · exact h
      · rw [h, ← hzw.2]; exact hz
  · rw [if_neg h]
    simp [cstr_of_no_zero hw]

theorem TppDict.insert_ne_nil (size64 : Bool) (p : TppDict) (w : List Nat) :
    TppDict.insert size64 p w ≠ [] := by
  unfold TppDict.insert TppDict.count
  by_cases h : p.any (fun y => TppDictHash size64 (some y) == TppDictHash size64 (some w)
      && TppDictPred (some y) (some w)) = true
  · rw [if_pos h]
    simp only [gt_iff_lt, zero_lt_one, if_true]
    intro hp
    subst hp
    simp at h
  · rw [if_neg h]
    simp

theorem insertWord_length (size64 : Bool) (w : List Nat) (d : List TppDictPtr) :
    (CPopularPasswords.insertWord size64 w d).length = max d.length ((cstr w).length + 1) := by
  unfold CPopularPasswords.insertWord
  simp only [List.length_set]
  split_ifs with h
  · simp only [List.length_append, List.length_replicate]
    omega
  · omega

theorem insertWord_bucket (size64 : Bool) (w : List Nat) (d : List TppDictPtr) (i : Nat) :
    (CPopularPasswords.insertWord size64 w d)[i]?
      = if i = (cstr w).length then
          some (some (TppDict.insert size64 (bucketOr d (cstr w).length) w))
        else if i < d.length then d[i]?
        else if i < (cstr w).length then some none else none := by
  unfold CPopularPasswords.insertWord bucketOr
  simp only []
  by_cases h : (cstr w).length ≥ d.length
  · rw [if_pos h]
    by_cases hi : i = (cstr w).length
    · subst hi
      rw [if_pos rfl, List.getElem?_set_self]
      · have e : (d ++ List.replicate ((cstr w).length + 1 - d.length) none)[(cstr w).length]?
            = some none := by
          rw [List.getElem?_append_right h, List.getElem?_replicate]
          rw [if_pos (by omega)]
        have e2 : d[(cstr w).length]? = none := List.getElem?_eq_none h
        rw [e, e2]
      · simp only [List.length_append, List.length_replicate]
        omega
    · rw [if_neg hi, List.getElem?_set_ne (Ne.symm hi)]
      by_cases hd : i < d.length
      · rw [if_pos hd, List.getElem?_append_left hd]
      · rw [if_neg hd, List.getElem?_append_right (not_lt.mp hd), List.getElem?_replicate]
        by_cases hn : i < (cstr w).length
        · rw [if_pos hn, if_pos (by omega)]
        · rw [if_neg hn, if_neg (by omega)]
  · rw [if_neg h]
    by_cases hi : i = (cstr w).length
    · subst hi
      rw [if_pos rfl, List.getElem?_set_self]
      omega
    · rw [if_neg hi, List.getElem?_set_ne (Ne.symm hi)]
      by_cases hd : i < d.length
      · rw [if_pos hd]
      · rw [if_neg hd, if_neg (by omega)]
        exact List.getElem?_eq_none (not_lt.mp hd)

theorem mem_bucketOr {d : List TppDictPtr} {n : Nat} {y : List Nat} (h : y ∈ bucketOr d n) :
    ∃ p, d[n]? = some (some p) ∧ y ∈ p := by
  unfold bucketOr at h
  split at h
  · next p hp => exact ⟨p, hp, h⟩
  · simp at h

theorem bucketOr_of_some {d : List TppDictPtr} {n : Nat} {p : TppDict}
    (h : d[n]? = some (some p)) : bucketOr d n = p := by
  unfold bucketOr
  rw [h]

theorem TableInv.start : TableInv [] [] :=
  ⟨by simp, by simp, Or.inl rfl, fun _ => rfl⟩

theorem TableInv.step {d : List TppDictPtr} {ws : List (List Nat)} (size64 : Bool)
    (h : TableInv d ws) (hws : ∀ y ∈ ws, 0 ∉ y) (w : List Nat) (hw : 0 ∉ w) :
    TableInv (CPopularPasswords.insertWord size64 w d) (ws ++ [w]) := by
  have hb : ∀ y ∈ bucketOr d w.length, 0 ∉ y := by
    intro y hy
    obtain ⟨p, hp, hyp⟩ := mem_bucketOr hy
    exact hws y ((h.sound _ p hp).2 y hyp).2
  have hget := insertWord_bucket size64 w d
  have hlen := insertWord_length size64 w d
  rw [cstr_of_no_zero hw] at hget hlen
  refine ⟨?_, ?_, ?_, by simp⟩
  · intro i q hq
    rw [hget] at hq
    by_cases hi : i = w.length
    · rw [if_pos hi] at hq
      have hq2 : TppDict.insert size64 (bucketOr d w.length) w = q := by
        simpa using hq
      subst hq2
      refine ⟨TppDict.insert_ne_nil _ _ _, ?_⟩
      intro y hy
      rw [TppDict.mem_insert size64 _ w y hb hw] at hy
      rcases hy with hy | hy
      · obtain ⟨p, hp, hyp⟩ := mem_bucketOr hy
        have := (h.sound _ p hp).2 y hyp
        exact ⟨hi ▸ this.1, List.mem_append_left _ this.2⟩
      · subst hy
        exact ⟨hi.symm, by simp⟩
    · rw [if_neg hi] at hq
      by_cases hd : i < d.length
      · rw [if_pos hd] at hq
        have := h.sound i q hq
        exact ⟨this.1, fun y hy => ⟨(this.2 y hy).1, List.mem_append_left _ (this.2 y hy).2⟩⟩
      · rw [if_neg hd] at hq
        split_ifs at hq
        all_goals simp at hq
  · intro y hy
    rw [hget]
    rcases List.mem_append.mp hy with hy | hy
    · obtain ⟨p, hp, hyp⟩ := h.complete y hy
      by_cases hi : y.length = w.length
      · rw [if_pos hi]
        refine ⟨_, rfl, ?_⟩
        rw [TppDict.mem_insert size64 _ w y hb hw]
        left
        rw [← hi, bucketOr_of_some hp]
        exact hyp
      · rw [if_neg hi]
        have hd : y.length < d.length := by
          by_contra hc
          rw [List.getElem?_eq_none (not_lt.mp hc)] at hp
          simp at hp
        rw [if_pos hd]
        exact ⟨p, hp, hyp⟩
    · have hy2 : y = w := by simpa using hy
      subst hy2
      rw [if_pos rfl]
      refine ⟨_, rfl, ?_⟩
      rw [TppDict.mem_insert size64 _ y y hb hw]
      exact Or.inr rfl
  · right
    rw [hget, hlen]
    by_cases hi : max d.length (w.length + 1) - 1 = w.length
    · rw [if_pos hi]
      exact ⟨_, rfl⟩
    · rw [if_neg hi]
      have hd : max d.length (w.length + 1) - 1 < d.length := by omega
      rw [if_pos hd]
      have e : max d.length (w.length + 1) - 1 = d.length - 1 := by omega
      rw [e]
      rcases h.last with hl | hl
      · subst hl
        simp at hd
      · exact hl

theorem TableInv.steps (size64 : Bool) (ws : List (List Nat)) :
    ∀ (d : List TppDictPtr) (ws0 : List (List Nat)), TableInv d ws0 →
      (∀ y ∈ ws0, 0 ∉ y) → (∀ y ∈ ws, 0 ∉ y) →
      TableInv (ws.foldl (fun d w => CPopularPasswords.insertWord size64 w d) d) (ws0 ++ ws) := by
  induction ws with
  | nil => intro d ws0 h _ _; simpa using h
  | cons w ws ih =>
    intro d ws0 h h0 h1
    have := ih (CPopularPasswords.insertWord size64 w d) (ws0 ++ [w])
      (h.step size64 h0 w (h1 w (by simp)))
      (by
        intro y hy
        rcases List.mem_append.mp hy with hy | hy
        · exact h0 y hy
        · have : y = w := by simpa using hy
          exact this ▸ h1 w (by simp))
      (fun y hy => h1 y (List.mem_cons_of_mem _ hy))
    simpa using this

theorem mem_of_mem_splitOnP {α : Type} (p : α → Bool) (l : List α) :
    ∀ s ∈ l.splitOnP p, ∀ c ∈ s, c ∈ l := by
  induction l with
  | nil => simp [List.splitOnP_nil]
  | cons x xs ih =>
    obtain ⟨s0, ss, hs⟩ := splitOnP_exists_cons p xs
    rw [List.splitOnP_cons]
    rw [hs] at ih
    intro s hsm c hc
    cases hx : p x
    · rw [hx, hs] at hsm
      simp only [Bool.false_eq_true, if_false, List.modifyHead, List.mem_cons] at hsm
      rcases hsm with h | h
      · subst h
        rcases List.mem_cons.mp hc with h | h
        · exact h ▸ List.mem_cons_self _ _
        · exact List.mem_cons_of_mem _ (ih s0 (List.mem_cons_self _ _) c h)
      · exact List.mem_cons_of_mem _ (ih s (List.mem_cons_of_mem _ h) c hc)
    · rw [hx, hs] at hsm
      simp only [if_true, List.mem_cons] at hsm
      rcases hsm with h | h
      · subst h
        simp at hc
      · exact List.mem_cons_of_mem _ (ih s (List.mem_cons.mpr h) c hc)

theorem wideText_no_zero (rt : CRuntime) (t : Option (List Nat)) :
    0 ∉ CPopularPasswords.wideText rt t := by
  cases t with
  | none => simp [CPopularPasswords.wideText]
  | some bytes =>
    unfold CPopularPasswords.wideText
    simp only []
    split_ifs
    · simp
    · simp
    · exact cstr_no_zero _

theorem specWords_good (rt : CRuntime) (hl : rt.Lawful) (text : List Nat) (h0 : 0 ∉ text) :
    ∀ w ∈ specWords rt text, w ≠ [] ∧ 0 ∉ w := by
  intro w hw
  unfold specWords at hw
  rw [List.mem_map] at hw
  obtain ⟨s, hs, rfl⟩ := hw
  rw [List.mem_filter] at hs
  constructor
  · intro h
    have : s = [] := by simpa using h
    subst this
    simp at hs
  · intro hz
    rw [List.mem_map] at hz
    obtain ⟨c, hc, hcz⟩ := hz
    have := hl.lower_zero c hcz
    subst this
    exact h0 (mem_of_mem_splitOnP _ _ s hs.1 0 hc)

theorem addedWords_append (rt : CRuntime) (a b : List (Option (List Nat))) :
    addedWords rt (a ++ b) = addedWords rt a ++ addedWords rt b := by
  induction a with
  | nil => rfl
  | cons t ts ih => simp [addedWords, ih]

theorem mem_addedWords (rt : CRuntime) (ts : List (Option (List Nat))) (w : List Nat) :
    w ∈ addedWords rt ts ↔ ∃ t ∈ ts, w ∈ specWords rt (CPopularPasswords.wideText rt t) := by
  induction ts with
  | nil => simp [addedWords]
  | cons t ts ih => simp [addedWords, ih]

theorem addedWords_good (rt : CRuntime) (hl : rt.Lawful) (ts : List (Option (List Nat))) :
    ∀ w ∈ addedWords rt ts, w ≠ [] ∧ 0 ∉ w := by
  intro w hw
  obtain ⟨t, _, h⟩ := (mem_addedWords rt ts w).mp hw
  exact specWords_good rt hl _ (wideText_no_zero rt t) w h

theorem PPOp_apply_inv (rt : CRuntime) (hl : rt.Lawful) (op : PPOp) (st : CPopularPasswords)
    (acc : List (Option (List Nat))) (h : TableInv st.g_vDicts (addedWords rt acc)) :
    TableInv (op.apply rt st).g_vDicts
      (addedWords rt (match op with
        | .clear => []
        | .add t => acc ++ [t])) := by
  cases op with
  | clear => exact TableInv.start
  | add t =>
    simp only [PPOp.apply]
    rw [Add_dicts rt hl, addedWords_append]
    have e : addedWords rt [t] = specWords rt (CPopularPasswords.wideText rt t) := by
      simp [addedWords]
    rw [e]
    exact TableInv.steps rt.size64 _ _ _ h (fun y hy => (addedWords_good rt hl acc y hy).2)
      (fun y hy => (specWords_good rt hl _ (wideText_no_zero rt t) y hy).2)

theorem runPP_inv (rt : CRuntime) (hl : rt.Lawful) (ops : List PPOp) :
    ∀ (st : CPopularPasswords) (acc : List (Option (List Nat))),
      TableInv st.g_vDicts (addedWords rt acc) →
      TableInv (runPP rt ops st).g_vDicts
        (addedWords rt (ops.foldl (fun acc op =>
          match op with
          | .clear => []
          | .add t => acc ++ [t]) acc)) := by
  induction ops with
  | nil => intro st acc h; exact h
  | cons op ops ih =>
    intro st acc h
    simp only [runPP, List.foldl_cons]
    exact ih _ _ (PPOp_apply_inv rt hl op st acc h)

theorem runPP_initial (rt : CRuntime) (hl : rt.Lawful) (ops : List PPOp) :
    TableInv (runPP rt ops CPopularPasswords.fresh).g_vDicts
      (addedWords rt (sinceClear ops)) :=
  runPP_inv rt hl ops CPopularPasswords.fresh [] TableInv.start

theorem sinceClear_adds (texts : List (Option (List Nat))) :
    ∀ acc, (texts.map PPOp.add).foldl (fun acc op =>
      match op with
      | .clear => []
      | .add t => acc ++ [t]) acc = acc ++ texts := by
  induction texts with
  | nil => simp
  | cons t ts ih => intro acc; simp [ih]

theorem TppDict.count_pos_iff (size64 : Bool) (p : TppDict) (x : List Nat)
    (hp : ∀ y ∈ p, 0 ∉ y) : TppDict.count size64 p x > 0 ↔ cstr x ∈ p := by
  unfold TppDict.count
  constructor
  · intro h
    by_cases ha : p.any (fun y => TppDictHash size64 (some y) == TppDictHash size64 (some x)
        && TppDictPred (some y) (some x)) = true
    · rw [List.any_eq_true] at ha
      obtain ⟨y, hy, hyx⟩ := ha
      simp only [TppDictPred, Bool.and_eq_true, beq_iff_eq] at hyx
      rw [cstr_of_no_zero (hp y hy)] at hyx
      exact hyx.2 ▸ hy
    · rw [if_neg ha] at h
      exact absurd h (by decide)
  · intro h
    have ha : p.any (fun y => TppDictHash size64 (some y) == TppDictHash size64 (some x)
        && TppDictPred (some y) (some x)) = true := by
      rw [List.any_eq_true]
      refine ⟨cstr x, h, ?_⟩
      simp [TppDictPred, TppDictHash, cstr_cstr]
    rw [if_pos ha]
    exact Nat.one_pos

theorem IsPopular_iff {d : List TppDictPtr} {ws : List (List Nat)} (h : TableInv d ws)
    (hws : ∀ w ∈ ws, w ≠ [] ∧ 0 ∉ w) (size64 : Bool) (mem : List (List Nat)) (x : List Nat) :
    (CPopularPasswords.IsPopular size64 (some x) { g_vMem := mem, g_vDicts := d }).1 = true
      ↔ cstr x ∈ ws := by
  unfold CPopularPasswords.IsPopular
  simp only []
  constructor
  · intro hx
    split_ifs at hx with hlen
    · split at hx
      · next p hp =>
        have hs := h.sound _ p hp
        have hx2 : TppDict.count size64 p x > 0 := by simpa using hx
        rw [TppDict.count_pos_iff size64 p x (fun y hy => (hws y (hs.2 y hy).2).2)] at hx2
        exact (hs.2 _ hx2).2
      · simp at hx
  · intro hx
    obtain ⟨p, hp, hxp⟩ := h.complete _ hx
    have hlen : ¬ (cstr x).length ≥ d.length := by
      intro hc
      rw [List.getElem?_eq_none hc] at hp
      simp at hp
    rw [if_neg hlen, hp]
    have hs := h.sound _ p hp
    have := (TppDict.count_pos_iff size64 p x (fun y hy => (hws y (hs.2 y hy).2).2)).mpr hxp
    simpa using this

theorem TableInv.ok {d : List TppDictPtr} {ws : List (List Nat)} (h : TableInv d ws)
    (hws : ∀ w ∈ ws, w ≠ [] ∧ 0 ∉ w) : TableOk d := by
  unfold TableOk
  by_cases hd : d = []
  · exact Or.inl hd
  · right
    have hpos : 0 < d.length := List.length_pos.mpr hd
    refine ⟨?_, ?_, ?_⟩
    · cases h0 : d[0]? with
      | none =>
        rw [List.getElem?_eq_none_iff] at h0
        omega
      | some b =>
        cases b with
        | none => rfl
        | some p =>
          have hs := h.sound 0 p h0
          obtain ⟨w, hw⟩ := List.exists_mem_of_ne_nil p hs.1
          have hw2 := hs.2 w hw
          exact absurd (List.length_eq_zero.mp hw2.1) (hws w hw2.2).1
    · rcases h.last with hl | ⟨p, hp⟩
      · exact absurd hl hd
      · exact ⟨p, hp, (h.sound _ p hp).1⟩
    · intro n p hp
      exact ⟨(h.sound n p hp).1, fun w hw => ((h.sound n p hp).2 w hw).1⟩

theorem TableInv.eq_nil_iff {d : List TppDictPtr} {ws : List (List Nat)} (h : TableInv d ws) :
    d = [] ↔ ws = [] := by
  constructor
  · intro hd
    subst hd
    cases ws with
    | nil => rfl
    | cons w ws =>
      obtain ⟨p, hp, _⟩ := h.complete w (List.mem_cons_self _ _)
      simp at hp
  · exact h.empty

theorem ContainsLength_assert (uLen : Nat) (st : CPopularPasswords)
    (h : TableOk st.g_vDicts) : (CPopularPasswords.ContainsLength uLen st).2 = true := by
  unfold CPopularPasswords.ContainsLength
  split_ifs with h1 h2
  · rfl
  · rfl
  · split
    · next d hd =>
      rcases h with h | h
      · rw [h] at hd
        simp at hd
      · have := (h.2.2 uLen d hd).1
        simpa using List.length_pos.mpr this
    · rfl

theorem ContainsLength_iff {ws : List (List Nat)} (uLen : Nat) (st : CPopularPasswords)
    (h : TableInv st.g_vDicts ws) (hws : ∀ w ∈ ws, w ≠ [] ∧ 0 ∉ w) :
    (CPopularPasswords.ContainsLength uLen st).1 = true ↔ ∃ w ∈ ws, w.length = uLen := by
  unfold CPopularPasswords.ContainsLength
  constructor
  · intro hx
    split_ifs at hx with h1 h2
    · split at hx
      · next d hd =>
        have hs := h.sound uLen d hd
        obtain ⟨w, hw⟩ := List.exists_mem_of_ne_nil d hs.1
        exact ⟨w, (hs.2 w hw).2, (hs.2 w hw).1⟩
      · simp at hx
  · rintro ⟨w, hw, hlen⟩
    obtain ⟨p, hp, _⟩ := h.complete w hw
    rw [hlen] at hp
    have h1 : uLen ≠ 0 := by
      intro h0
      rw [h0] at hlen
      exact (hws w hw).1 (List.length_eq_zero.mp hlen)
    have h2 : ¬ uLen ≥ st.g_vDicts.length := by
      intro hc
      rw [List.getElem?_eq_none hc] at hp
      simp at hp
    rw [if_neg h1, if_neg h2, hp]

theorem GetMaxLength_assert (st : CPopularPasswords) (h : TableOk st.g_vDicts) :
    (CPopularPasswords.GetMaxLength st).2 = true ↔ st.g_vDicts ≠ [] := by
  unfold CPopularPasswords.GetMaxLength
  simp only []
  constructor
  · intro hx hd
    rw [hd] at hx
    simp at hx
  · intro hd
    rcases h with h | h
    · exact absurd h hd
    · obtain ⟨p, hp, hne⟩ := h.2.1
      have : st.g_vDicts.length ≠ 0 := fun hc => hd (List.length_eq_zero.mp hc)
      rw [if_neg this, hp]
      simpa using List.length_pos.mpr hne

theorem GetMaxLength_value (st : CPopularPasswords) :
    (CPopularPasswords.GetMaxLength st).1 = st.g_vDicts.length - 1 := by
  unfold CPopularPasswords.GetMaxLength
  simp only []
  split_ifs with h
  · simp [h]
  · split <;> rfl

theorem TableInv.length_le {d : List TppDictPtr} {ws : List (List Nat)} (h : TableInv d ws) :
    ∀ w ∈ ws, w.length ≤ d.length - 1 := by
  intro w hw
  obtain ⟨p, hp, _⟩ := h.complete w hw
  have : w.length < d.length := by
    by_contra hc
    rw [List.getElem?_eq_none (not_lt.mp hc)] at hp
    simp at hp
  omega

theorem TableInv.length_attained {d : List TppDictPtr} {ws : List (List Nat)}
    (h : TableInv d ws) (hd : d ≠ []) : ∃ w ∈ ws, w.length = d.length - 1 := by
  rcases h.last with hl | ⟨p, hp⟩
  · exact absurd hl hd
  · have hs := h.sound _ p hp
    obtain ⟨w, hw⟩ := List.exists_mem_of_ne_nil p hs.1
    exact ⟨w, (hs.2 w hw).2, (hs.2 w hw).1⟩

theorem demoRuntime_lawful : demoRuntime.Lawful := by
  refine ⟨?_, ?_, by decide⟩
  · intro c
    simp only [demoRuntime]
    split_ifs with h
    · have h1 : (c + 32 == 32) = false := by simp; omega
      have h2 : (c == 32) = false := by simp; omega
      have h3 : decide (c + 32 ≤ 13) = false := by simp
      have h4 : decide (c ≤ 13) = false := by simp; omega
      simp [h1, h2, h3, h4]
    · rfl
  · intro c hc
    simp only [demoRuntime] at hc
    split_ifs at hc with h
    exact hc

/-! ## The popular-password dictionary -/

/-- C17: after `Clear` followed by any sequence of `Add` calls, and on a C
runtime whose `towlower` and `iswspace` behave as the C library promises,
`IsPopular(w)` returns true if and only if `w` is non-empty and equals the
lower-cased form of some maximal whitespace-delimited word of one of the added
texts; `IsPopular` of the empty string is false.  The equivalence holds for
every string `w`, lower-case or not. -/
theorem C17_is_popular_iff_added_word (rt : CRuntime) (hl : rt.Lawful)
    (st0 : CPopularPasswords) (texts : List (Option (List Nat))) (w : List Nat) :
    ((CPopularPasswords.IsPopular rt.size64 (some w)
        (runPP rt (PPOp.clear :: texts.map PPOp.add) st0)).1 = true
      ↔ (cstr w ≠ [] ∧
          ∃ t ∈ texts, cstr w ∈ specWords rt (CPopularPasswords.wideText rt t))) ∧
    (CPopularPasswords.IsPopular rt.size64 (some [])
        (runPP rt (PPOp.clear :: texts.map PPOp.add) st0)).1 = false := by
  have hinv := runPP_inv rt hl (texts.map PPOp.add) (CPopularPasswords.Clear st0) []
    TableInv.start
  rw [sinceClear_adds texts [], List.nil_append] at hinv
  have hgood := addedWords_good rt hl texts
  have hrun : runPP rt (PPOp.clear :: texts.map PPOp.add) st0
      = runPP rt (texts.map PPOp.add) (CPopularPasswords.Clear st0) := rfl
  rw [hrun]
  have key : ∀ x, (CPopularPasswords.IsPopular rt.size64 (some x)
      (runPP rt (texts.map PPOp.add) (CPopularPasswords.Clear st0))).1 = true
      ↔ cstr x ∈ addedWords rt texts :=
    fun x => IsPopular_iff hinv hgood rt.size64 _ x
  constructor
  · rw [key w, mem_addedWords]
    constructor
    · intro h
      refine ⟨?_, h⟩
      obtain ⟨t, _, ht⟩ := h
      exact (specWords_good rt hl _ (wideText_no_zero rt t) _ ht).1
    · exact fun h => h.2
  · have := key []
    cases hb : (CPopularPasswords.IsPopular rt.size64 (some [])
        (runPP rt (texts.map PPOp.add) (CPopularPasswords.Clear st0))).1
    · rfl
    · exact absurd (this.mp hb) (fun hm => (hgood _ hm).1 rfl)

/-- C17 at the text `Pass word` on the ASCII runtime: `word` is popular. -/
theorem C17_is_popular_iff_added_word_witness :
    demoRuntime.Lawful ∧
    ((CPopularPasswords.IsPopular demoRuntime.size64 (some demoWord)
        (runPP demoRuntime (PPOp.clear :: [some demoText].map PPOp.add)
          CPopularPasswords.fresh)).1 = true
      ↔ (cstr demoWord ≠ [] ∧ ∃ t ∈ [some demoText],
          cstr demoWord ∈ specWords demoRuntime (CPopularPasswords.wideText demoRuntime t))) ∧
    (CPopularPasswords.IsPopular demoRuntime.size64 (some [])
        (runPP demoRuntime (PPOp.clear :: [some demoText].map PPOp.add)
          CPopularPasswords.fresh)).1 = false :=
  ⟨demoRuntime_lawful,
    C17_is_popular_iff_added_word demoRuntime demoRuntime_lawful CPopularPasswords.fresh
      [some demoText] demoWord⟩

/-- C18 as written fails after `Add` of `Pass word` and `Clear`: the table is
empty, so `GetMaxLength` runs into its `ASSERT(FALSE)` and returns 0, and
`ContainsLength(4)` is false, although the word `word` of length 4 was added. -/
theorem C18_counterexample :
    CPopularPasswords.GetMaxLength
        (runPP demoRuntime [PPOp.add (some demoText), PPOp.clear] CPopularPasswords.fresh)
      = (0, false) ∧
    (CPopularPasswords.ContainsLength 4
        (runPP demoRuntime [PPOp.add (some demoText), PPOp.clear]
          CPopularPasswords.fresh)).1 = false ∧
    demoWord ∈ specWords demoRuntime (CPopularPasswords.wideText demoRuntime (some demoText)) ∧
    demoWord.length = 4 := by
  decide

/-- C18, amended: after any sequence of `Clear` and `Add` calls the table is
either empty or has a null bucket 0, a non-null non-empty last bucket, and only
words of length n in bucket n, every non-null bucket being non-empty.  The
table is empty exactly when no word was added since the last `Clear`.  The
assertion of `ContainsLength` holds; the assertions of `GetMaxLength` hold
exactly when the table is not empty.  `GetMaxLength` returns the length of the
longest word added since the last `Clear`, and 0 when there is none;
`ContainsLength(n)` is true exactly when some word added since the last
`Clear` has length n. -/
theorem C18_table_invariant (rt : CRuntime) (hl : rt.Lawful) (ops : List PPOp) :
    TableOk (runPP rt ops CPopularPasswords.fresh).g_vDicts ∧
    ((runPP rt ops CPopularPasswords.fresh).g_vDicts = []
      ↔ addedWords rt (sinceClear ops) = []) ∧
    (∀ n, (CPopularPasswords.ContainsLength n
        (runPP rt ops CPopularPasswords.fresh)).2 = true) ∧
    ((CPopularPasswords.GetMaxLength (runPP rt ops CPopularPasswords.fresh)).2 = true
      ↔ (runPP rt ops CPopularPasswords.fresh).g_vDicts ≠ []) ∧
    (∀ w ∈ addedWords rt (sinceClear ops),
      w.length ≤ (CPopularPasswords.GetMaxLength (runPP rt ops CPopularPasswords.fresh)).1) ∧
    (addedWords rt (sinceClear ops) ≠ [] →
      ∃ w ∈ addedWords rt (sinceClear ops),
        w.length = (CPopularPasswords.GetMaxLength (runPP rt ops CPopularPasswords.fresh)).1) ∧
    (addedWords rt (sinceClear ops) = [] →
      (CPopularPasswords.GetMaxLength (runPP rt ops CPopularPasswords.fresh)).1 = 0) ∧
    (∀ n, (CPopularPasswords.ContainsLength n (runPP rt ops CPopularPasswords.fresh)).1 = true
      ↔ ∃ w ∈ addedWords rt (sinceClear ops), w.length = n) := by
  have hinv := runPP_initial rt hl ops
  have hgood := addedWords_good rt hl (sinceClear ops)
  have hok := hinv.ok hgood
  refine ⟨hok, hinv.eq_nil_iff, fun n => ContainsLength_assert n _ hok,
    GetMaxLength_assert _ hok, ?_, ?_, ?_, fun n => ContainsLength_iff n _ hinv hgood⟩
  · rw [GetMaxLength_value]
    exact hinv.length_le
  · intro hne
    rw [GetMaxLength_value]
    exact hinv.length_attained (fun hd => hne (hinv.eq_nil_iff.mp hd))
  · intro he
    rw [GetMaxLength_value, hinv.eq_nil_iff.mpr he]
    rfl

/-- C18, amended, at `Clear` followed by `Add` of `Pass word` on the ASCII
runtime. -/
theorem C18_table_invariant_witness :
    demoRuntime.Lawful ∧
    CPopularPasswords.GetMaxLength
        (runPP demoRuntime [PPOp.clear, PPOp.add (some demoText)] CPopularPasswords.fresh)
      = (4, true) ∧
    ((CPopularPasswords.GetMaxLength
        (runPP demoRuntime [PPOp.clear, PPOp.add (some demoText)]
          CPopularPasswords.fresh)).2 = true
      ↔ (runPP demoRuntime [PPOp.clear, PPOp.add (some demoText)]
          CPopularPasswords.fresh).g_vDicts ≠ []) :=
  ⟨demoRuntime_lawful, by decide,
    (C18_table_invariant demoRuntime demoRuntime_lawful
      [PPOp.clear, PPOp.add (some demoText)]).2.2.2.1⟩

/-! ## The auto-complete enumerator -/

end KeePass
